import Mathlib

/-!
# Arcade minigames: rhythm game (DDR_v3.c) and shooter (Doom_v8.c)

A shallow embedding of the game logic of `src/DDR_v3.c` and
`src/Doom_v8/Doom_v8.c`, followed by theorems about it.

Conventions of the embedding

* Global variables of a C file are the fields of one state record; a C
  function that mutates globals is a function from state to state.
* Hardware and library inputs (the microsecond clock `get_absolute_time`,
  the value returned by `wait_for_button_press`, the values returned by
  `rand`) are explicit arguments.  LCD / OLED output and `sleep_ms` change no
  game variable and are left out.
* `int` values are `Int`; signed overflow is undefined in C and is excluded
  by hypothesis where a theorem depends on it.  `uint32_t` values are `Nat`
  reduced modulo `2^32` at every conversion or operation that can wrap.
* `absolute_time_t` is a count of microseconds since boot; the SDK function
  `absolute_time_diff_us from to` is the signed difference `to - from`.
* A global array is a function from the index to the element; the C array
  occupies the indices below its declared length.
-/

namespace DDR

/-! ## Constants of DDR_v3.c -/

/-- Display width in characters (`#define MAX_CHARS 16`). -/
def MAX_CHARS : Int := 16

/-- Column of the hit zone (`#define HIT_ZONE_POS 0`). -/
def HIT_ZONE_POS : Int := 0

/-- Delay between two scroll updates (`#define SCROLL_DELAY_MS 300`). -/
def SCROLL_DELAY_MS : Nat := 300

/-- Timing window in milliseconds (`#define HIT_WINDOW_MS 400`). -/
def HIT_WINDOW_MS : Int := 400

/-- Capacity of the arrow array (`#define MAX_ARROWS 10`). -/
def MAX_ARROWS : Nat := 10

/-! ## Machine integer conversions -/

/-- Conversion of an integer to `uint32_t`: reduction modulo `2^32`. -/
def toUInt32 (x : Int) : Nat := (x % 4294967296).toNat

/-- Conversion of an integer to `int32_t`: the representative of `x` modulo
`2^32` in the range `-2^31 .. 2^31 - 1`. -/
def toInt32 (x : Int) : Int := (x + 2147483648) % 4294967296 - 2147483648

/-- The SDK function `absolute_time_diff_us(from, to)`: the signed number of
microseconds from `from` to `to`. -/
def absolute_time_diff_us (t_from t_to : Int) : Int := t_to - t_from

/-- The SDK function `make_timeout_time_ms(ms)` evaluated when the clock reads
`now`: the time `ms` milliseconds after `now`, in microseconds. -/
def make_timeout_time_ms (now : Int) (ms : Nat) : Int := now + (ms : Int) * 1000

/-! ## Data model -/

/-- The C struct `ArrowCommand`. -/
structure ArrowCommand where
  /-- Direction: 0 = LEFT, 1 = UP, 2 = RIGHT, 3 = DOWN. -/
  arrow : Int
  /-- Scheduled time to hit, microseconds since boot. -/
  hit_time : Int
  /-- Whether the arrow has been judged. -/
  hit : Bool
  /-- Whether this hit was counted (for tracking). -/
  counted : Bool
deriving DecidableEq, Repr

/-- The zero-initialised array element of a C global. -/
def ArrowCommand.zero : ArrowCommand :=
  { arrow := 0, hit_time := 0, hit := false, counted := false }

/-- The global variables of DDR_v3.c that the game logic reads or writes.
`arrows` is the array `ArrowCommand arrows[MAX_ARROWS]`; `arrow_count` is an
`int` that only ever holds values `0 .. MAX_ARROWS`. -/
structure DDRState where
  base_delay_ms : Nat
  scroll_delay_ms : Nat
  sequence_length : Int
  arrows : Nat → ArrowCommand
  arrow_count : Nat
  score : Int
  combo : Int
  target_arrow_count : Int
  target_arrow : Int

/-- The values of the globals at program start (their C initialisers). -/
def DDRState.boot : DDRState :=
  { base_delay_ms := 2000
    scroll_delay_ms := SCROLL_DELAY_MS
    sequence_length := 5
    arrows := fun _ => ArrowCommand.zero
    arrow_count := 0
    score := 0
    combo := 0
    target_arrow_count := 0
    target_arrow := 1 }

/-- The active set `arrows[0 .. arrow_count)` as a list. -/
def DDRState.active (s : DDRState) : List ArrowCommand :=
  (List.range s.arrow_count).map s.arrows

/-! ## Game functions -/

/-- The C function `add_arrow_command(arrow, delay_ms)`; `now` is the clock
reading taken inside `make_timeout_time_ms`. -/
def add_arrow_command (arrow : Int) (delay_ms : Nat) (now : Int) (s : DDRState) : DDRState :=
  if s.arrow_count < MAX_ARROWS then
    { s with
      arrows := Function.update s.arrows s.arrow_count
        { arrow := arrow
          hit_time := make_timeout_time_ms now delay_ms
          hit := false
          counted := false }
      arrow_count := s.arrow_count + 1 }
  else s

/-- The C function `register_hit(timing_diff_us, arrow_type)`.  The parameter
`timing_diff_us` is a `uint32_t`.  The flag tested and set is that of the slot
at index `arrow_count`, as in the source; for `arrow_count = MAX_ARROWS` that
index is one past the C array, which the model treats like any other slot. -/
def register_hit (timing_diff_us : Nat) (arrow_type : Int) (s : DDRState) : DDRState :=
  let s1 : DDRState :=
    if timing_diff_us < 100000 then
      { s with score := s.score + 100 * (s.combo + 1), combo := s.combo + 1 }
    else if timing_diff_us < 200000 then
      { s with score := s.score + 50 * (s.combo + 1), combo := s.combo + 1 }
    else
      { s with score := s.score + 20, combo := 0 }
  if arrow_type = s1.target_arrow ∧ (s1.arrows s1.arrow_count).counted = false then
    { s1 with
      target_arrow_count := s1.target_arrow_count + 1
      arrows := Function.update s1.arrows s1.arrow_count
        { s1.arrows s1.arrow_count with counted := true } }
  else s1

/-- The C function `update_difficulty(round)`.  `2000 - (round * 200)` is
computed in `int` and then converted to `uint32_t`. -/
def update_difficulty (round : Int) (s : DDRState) : DDRState :=
  if round > 0 then
    let new_delay : Nat := toUInt32 (2000 - round * 200)
    { s with base_delay_ms := if new_delay < 1000 then 1000 else new_delay }
  else s

/-! ## One round: `game_loop_scrolling` -/

/-- The inputs one pass of the `while` loop of `game_loop_scrolling` reads:
`judge_now i` is the clock reading of iteration `i` of the judgement loop,
`btn i` the value `wait_for_button_press` returns if iteration `i` prompts
(a button index `0 .. 3`, or `-1` after the timeout), and `remove_now i` the
clock reading of iteration `i` of the removal loop. -/
structure TickInput where
  judge_now : Nat → Int
  btn : Nat → Int
  remove_now : Nat → Int

/-- The inputs of one call of `game_loop_scrolling`: `rand i` and
`sched_clock i` are the value of `rand()` and the clock reading in
iteration `i` of the scheduling loop; `ticks` are the inputs of the successive
passes of the `while` loop. -/
structure RoundInput where
  rand : Nat → Nat
  sched_clock : Nat → Int
  ticks : List TickInput

/-- The scheduling loop `for (i = 0; i < sequence_length; i++)
add_arrow_command(rand() % 4, base_delay_ms * (i + 1))` after its first `n`
iterations.  The product is a `uint32_t` product. -/
def schedule_loop (rand : Nat → Nat) (clock : Nat → Int) : Nat → DDRState → DDRState
  | 0, s => s
  | i + 1, s =>
    let s1 := schedule_loop rand clock i s
    add_arrow_command ((rand i : Int) % 4) ((s1.base_delay_ms * (i + 1)) % 4294967296)
      (clock i) s1

/-- The condition under which the judgement loop prompts for arrow `a` when
the clock reads `now`: `!a.hit && diff_us < HIT_WINDOW_MS * 1000` with
`diff_us = (int32_t) absolute_time_diff_us(now, a.hit_time)`. -/
def prompted (now : Int) (a : ArrowCommand) : Bool :=
  !a.hit && decide (toInt32 (absolute_time_diff_us now a.hit_time) < HIT_WINDOW_MS * 1000)

/-- The body of the judgement loop for index `i`, with clock reading `now`
and `btn` the result of `wait_for_button_press(HIT_WINDOW_MS)`. -/
def judge (now btn : Int) (i : Nat) (s : DDRState) : DDRState :=
  let diff_us : Int := toInt32 (absolute_time_diff_us now (s.arrows i).hit_time)
  if prompted now (s.arrows i) then
    if btn = (s.arrows i).arrow then
      let s1 := register_hit (toUInt32 diff_us) (s.arrows i).arrow s
      { s1 with arrows := Function.update s1.arrows i { s1.arrows i with hit := true } }
    else
      { s with
        combo := 0
        arrows := Function.update s.arrows i { s.arrows i with hit := true } }
  else s

/-- The judgement loop `for (i = 0; i < arrow_count; i++)` after its first
`n` iterations. -/
def judge_loop (inp : TickInput) : Nat → DDRState → DDRState
  | 0, s => s
  | i + 1, s => judge (inp.judge_now i) (inp.btn i) i (judge_loop inp i s)

/-- The whole judgement loop of one tick. -/
def judge_pass (inp : TickInput) (s : DDRState) : DDRState :=
  judge_loop inp s.arrow_count s

/-- The removal loop `for (i = 0; i < arrow_count; i++) if (...) arrows[j++]
= arrows[i];` after its first `n` iterations: the array and the write index
`j`. -/
def remove_loop (now : Nat → Int) (arrows : Nat → ArrowCommand) :
    Nat → (Nat → ArrowCommand) × Nat
  | 0 => (arrows, 0)
  | i + 1 =>
    let r := remove_loop now arrows i
    if absolute_time_diff_us (r.1 i).hit_time (now i) < HIT_WINDOW_MS * 1000 then
      (Function.update r.1 r.2 (r.1 i), r.2 + 1)
    else r

/-- The removal pass at the end of a tick, ending with `arrow_count = j`. -/
def removal_pass (inp : TickInput) (s : DDRState) : DDRState :=
  let r := remove_loop inp.remove_now s.arrows s.arrow_count
  { s with arrows := r.1, arrow_count := r.2 }

/-- One pass of the body of `while (arrow_count > 0)`. -/
def tick (inp : TickInput) (s : DDRState) : DDRState :=
  removal_pass inp (judge_pass inp s)

/-- The loop `while (arrow_count > 0)` run on the given tick inputs: the state
when the loop exits, or the state reached when the inputs are used up. -/
def run_ticks : List TickInput → DDRState → DDRState
  | [], s => s
  | t :: ts, s => if s.arrow_count = 0 then s else run_ticks ts (tick t s)

/-- The state at the first evaluation of `while (arrow_count > 0)`:
`arrow_count = 0; combo = 0;` followed by the scheduling loop. -/
def schedule (inp : RoundInput) (s : DDRState) : DDRState :=
  let s0 : DDRState := { s with arrow_count := 0, combo := 0 }
  schedule_loop inp.rand inp.sched_clock s0.sequence_length.toNat s0

/-- The C function `game_loop_scrolling(round)`: `some` final state if the
`while` loop exits within the given ticks, `none` if it is still running when
they are used up. -/
def game_loop_scrolling (_round : Int) (inp : RoundInput) (s : DDRState) : Option DDRState :=
  let s1 := run_ticks inp.ticks (schedule inp s)
  if s1.arrow_count = 0 then some s1 else none

/-- The tracked direction selected by the `switch (mode_char)`. -/
def mode_target (mode_char : Char) : Int :=
  if mode_char = 'A' then 1
  else if mode_char = 'B' then 3
  else if mode_char = 'C' then 0
  else if mode_char = 'D' then 2
  else 1

/-- The state in which `DDR_v3_game(mode_char)` calls `game_loop_scrolling`:
score, combo and tracked counter reset, the tracked direction selected, and
`update_difficulty(round)` applied with `round = 1`. -/
def DDR_v3_game_start (mode_char : Char) (s : DDRState) : DDRState :=
  update_difficulty 1
    { s with score := 0, combo := 0, target_arrow_count := 0,
             target_arrow := mode_target mode_char }

/-- The C function `DDR_v3_game(mode_char)` on a board with I2C: the returned
`target_arrow_count`, when the round ends within the given ticks. -/
def DDR_v3_game (mode_char : Char) (inp : RoundInput) (s : DDRState) : Option Int :=
  (game_loop_scrolling 1 inp (DDR_v3_game_start mode_char s)).map
    (fun s1 => s1.target_arrow_count)

/-- The arrows of the active set that have not been judged yet. -/
def DDRState.unjudged (s : DDRState) : List ArrowCommand :=
  s.active.filter (fun a => !a.hit)

/-! ## Record of the judgements of a run -/

/-- The judgements made by the first `n` iterations of the judgement loop, in
order: the arrow as it was when prompted and the value
`wait_for_button_press` returned for it. -/
def judge_log (inp : TickInput) : Nat → DDRState → List (ArrowCommand × Int)
  | 0, _ => []
  | i + 1, s =>
    let a := (judge_loop inp i s).arrows i
    if prompted (inp.judge_now i) a then judge_log inp i s ++ [(a, inp.btn i)]
    else judge_log inp i s

/-- The judgements of all ticks of `run_ticks`, in order. -/
def run_log : List TickInput → DDRState → List (ArrowCommand × Int)
  | [], _ => []
  | t :: ts, s =>
    if s.arrow_count = 0 then [] else judge_log t s.arrow_count s ++ run_log ts (tick t s)

/-- The number of judgements in a log that called `register_hit` (the button
equals the direction of the arrow) for an arrow of direction `target`. -/
def tracked_hits (target : Int) (log : List (ArrowCommand × Int)) : Nat :=
  (log.filter (fun e => decide (e.2 = e.1.arrow) && decide (e.1.arrow = target))).length

/-! ## Display column, button wait and track label -/

/-- The column `pos` that `update_scrolling_arrows` computes for an arrow when
the clock reads `now`: the `int` offset (the 64-bit difference converted to
`int`) divided by `200000` with truncation toward zero, then
`if (pos >= MAX_CHARS) pos = MAX_CHARS - 1; if (pos < 0) pos = 0;`. -/
def scroll_column (now hit_time : Int) : Int :=
  let time_diff_us : Int := toInt32 (absolute_time_diff_us now hit_time)
  let pos : Int := Int.tdiv time_diff_us 200000
  let pos1 : Int := if pos ≥ MAX_CHARS then MAX_CHARS - 1 else pos
  if pos1 < 0 then 0 else pos1

/-- The C function `wait_for_button_press(timeout_ms)`; `start` is the clock
reading at entry and each element of the list is one pass of the polling
loop: the clock reading of the loop test and the value of
`get_button_pressed()`.  The result is the button found, `-1` after the
timeout, or `none` while the loop is still polling when the list ends.  The
debounce sleep and the wait for the release, which do not change the value
returned, are left out. -/
def wait_for_button_press (timeout_ms : Nat) (start : Int) : List (Int × Int) → Option Int
  | [] => none
  | (now, button) :: rest =>
    if absolute_time_diff_us start now < (((timeout_ms * 1000) % 4294967296 : Nat) : Int) then
      if button ≠ -1 then some button
      else wait_for_button_press timeout_ms start rest
    else some (-1)

/-- The judgement of arrow `i` including the button wait: the clock is read
(`now`), and if the arrow is prompted `wait_for_button_press(HIT_WINDOW_MS)`
runs on the polls `polls` (entered at clock reading `start`) and its result
is judged. -/
def judge_with_wait (now start : Int) (polls : List (Int × Int)) (i : Nat) (s : DDRState) :
    Option DDRState :=
  if prompted now (s.arrows i) then
    (wait_for_button_press HIT_WINDOW_MS.toNat start polls).map (fun btn => judge now btn i s)
  else some s

/-- Size of the buffer `char arrow_name[10]` in `DDR_v3_game`. -/
def arrow_name_size : Nat := 10

/-- The string that the `switch (target_arrow)` of `DDR_v3_game` copies into
`arrow_name` with `strcpy`; no case for other values. -/
def arrow_name_label (target_arrow : Int) : Option (List Char) :=
  if target_arrow = 0 then some "TRACK:LEFT".toList
  else if target_arrow = 1 then some "TRACK:UP".toList
  else if target_arrow = 2 then some "TRACK:RIGHT".toList
  else if target_arrow = 3 then some "TRACK:DOWN".toList
  else none

/-- The number of bytes `strcpy` writes for a string: its characters and the
terminating NUL. -/
def strcpy_bytes (label : List Char) : Nat := label.length + 1

/-! ## A concrete round -/

/-- A tick in which no arrow is judged by a press: every clock reading of the
tick is `t`, and a button wait, if one is made, times out. -/
def idle_tick (t : Int) : TickInput :=
  { judge_now := fun _ => t, btn := fun _ => -1, remove_now := fun _ => t }

/-- A tick in which the UP button is pressed at every prompt: iteration `0`
of the judgement loop reads the clock at `t0`, the later iterations at `t1`,
and the removal loop at `t2`. -/
def press_tick (t0 t1 t2 : Int) : TickInput :=
  { judge_now := fun i => if i = 0 then t0 else t1
    btn := fun _ => 1
    remove_now := fun _ => t2 }

/-- A round in which all five arrows are UP arrows (due at 1.8 s, 3.6 s,
5.4 s, 7.2 s and 9.0 s, the clock reading `0` while they are scheduled), the
ticks without a prompt are 350 ms apart, and the player answers every prompt
with the UP button.  At the first prompt (clock 1.75 s) the button is held
down until the clock reads about 3.0 s, so that after the 500 ms feedback
the judgement loop reaches the second arrow at 3.55 s, inside its window,
in the same tick. -/
def held_button_round : RoundInput :=
  { rand := fun _ => 1
    sched_clock := fun _ => 0
    ticks :=
      [ idle_tick 350000, idle_tick 700000, idle_tick 1050000, idle_tick 1400000,
        { judge_now := fun i => if i = 0 then 1750000 else if i = 1 then 3550000 else 4350000
          btn := fun _ => 1
          remove_now := fun _ => 4350000 },
        idle_tick 4700000,
        press_tick 5050000 5750000 5750000,
        idle_tick 6100000, idle_tick 6450000, idle_tick 6800000,
        press_tick 7150000 7850000 7850000,
        idle_tick 8200000, idle_tick 8550000,
        press_tick 8900000 9600000 9600000 ] }

end DDR

namespace Doom

/-! ## Constants and data model of Doom_v8.c -/

/-- Display width in pixels (`#define W 128`). -/
def W : Int := 128

/-- Display height in pixels (`#define H 64`). -/
def H : Int := 64

/-- Capacity of the enemy array (`#define MAX_E 12`). -/
def MAX_E : Nat := 12

/-- Growth of a live enemy per tick (`#define GROWTH 1.5f`). -/
def GROWTH : ℚ := 3 / 2

/-- Size of a freshly spawned enemy (`#define START_SZ 1.f`). -/
def START_SZ : ℚ := 1

/-- Size at which an enemy collides with the player (`#define COLL_SZ 30`). -/
def COLL_SZ : ℚ := 30

/-- Conversion of a `float` to `int`: truncation toward zero. -/
def truncToInt (q : ℚ) : Int := Int.tdiv q.num (q.den : Int)

/-- The C enum `shape_t`. -/
inductive shape_t where
  | SQUARE
  | CIRCLE
deriving DecidableEq, Repr

/-- The C struct `enemy`.  The `float` size `s` is a rational: every size the
game produces is `1 + 1.5 * n`, which `float` represents exactly. -/
structure enemy where
  k : shape_t
  x : Int
  s : ℚ
  live : Nat
deriving DecidableEq, Repr

/-- The static variables of Doom_v8.c that the game logic reads or writes:
the enemy array `E[MAX_E]` with its count `Ec`, the crosshair, the timer and
the calibrated joystick centre. -/
structure DoomState where
  E : Nat → enemy
  Ec : Nat
  cross_x : Int
  cross_y : Int
  seconds_left : Int
  center_x_raw : Nat
  center_y_raw : Nat

/-- The state at the start of a round, as `main` sets it up: the joystick
centre just sampled (`cx`, `cy`), the crosshair at the middle of the display,
`Ec = 0` and the enemy array cleared by `memset`. -/
def DoomState.round_start (cx cy : Nat) : DoomState :=
  { E := fun _ => { k := shape_t.SQUARE, x := 0, s := 0, live := 0 }
    Ec := 0
    cross_x := W / 2
    cross_y := H / 2
    seconds_left := 0
    center_x_raw := cx
    center_y_raw := cy }

/-- The C function `spawn()`; `r1` and `r2` are the values of the two calls
of `rand()`, in the order in which they are made. -/
def spawn (r1 r2 : Nat) (st : DoomState) : DoomState :=
  if st.Ec < MAX_E then
    let margin : Int := truncToInt START_SZ
    let xpos : Int := (r1 : Int) % (W - 2 * margin) + margin
    { st with
      E := Function.update st.E st.Ec
        { k := if r2 % 2 = 1 then shape_t.SQUARE else shape_t.CIRCLE
          x := xpos
          s := START_SZ
          live := 1 }
      Ec := st.Ec + 1 }
  else st

/-- The C function `update()`, first `n` iterations of its loop: the state
and the value of `col`.  Iteration `i` tests `E[i].live && (E[i].s += GROWTH)
>= COLL_SZ`; the increment is made only when `live` is non-zero. -/
def update_loop : Nat → DoomState → DoomState × Int
  | 0, st => (st, 0)
  | i + 1, st =>
    let r := update_loop i st
    if (r.1.E i).live ≠ 0 then
      let s1 : ℚ := (r.1.E i).s + GROWTH
      let st1 : DoomState := { r.1 with E := Function.update r.1.E i { r.1.E i with s := s1 } }
      if s1 ≥ COLL_SZ then (st1, 1) else (st1, r.2)
    else r

/-- The C function `update()`: the state after the call and the returned
value. -/
def update (st : DoomState) : DoomState × Int :=
  update_loop st.Ec st

/-- The hit test of `shoot()` for one enemy with the crosshair at
`(cross_x, cross_y)`: a box test for a square and a squared-distance test
for a circle, both with `r = (int) s`. -/
def hit_test (e : enemy) (cross_x cross_y : Int) : Bool :=
  let ex : Int := e.x
  let r : Int := truncToInt e.s
  match e.k with
  | shape_t.SQUARE => decide (|ex - cross_x| ≤ r ∧ |H / 2 - cross_y| ≤ r)
  | shape_t.CIRCLE =>
    let dx : Int := cross_x - ex
    let dy : Int := cross_y - H / 2
    decide (dx * dx + dy * dy ≤ r * r)

/-- The loop of `shoot()` from index `i` with `n` iterations left: dead
enemies are skipped, the first live enemy whose test passes has its `live`
flag cleared and the loop ends (`break`). -/
def shoot_loop (st : DoomState) : Nat → Nat → DoomState
  | 0, _ => st
  | n + 1, i =>
    if (st.E i).live = 0 then shoot_loop st n (i + 1)
    else if hit_test (st.E i) st.cross_x st.cross_y then
      { st with E := Function.update st.E i { st.E i with live := 0 } }
    else shoot_loop st n (i + 1)

/-- The C function `shoot()`. -/
def shoot (st : DoomState) : DoomState :=
  shoot_loop st st.Ec 0

/-- Crosshair speed (`#define JOY_SPEED 12`). -/
def JOY_SPEED : ℚ := 12

/-- The C function `update_crosshair()`; `x` and `y` are the two ADC samples.
The `float` operations involved (difference of two integers below `2^16`,
division by `2048`, product with `12` of a value `k / 2048` with `|k| <= 2048`)
are exact, so rationals give the same values. -/
def update_crosshair (x y : Nat) (st : DoomState) : DoomState :=
  let jx0 : ℚ := ((x : ℚ) - (st.center_x_raw : ℚ)) / 2048
  let jy0 : ℚ := ((y : ℚ) - (st.center_y_raw : ℚ)) / 2048
  let jx : ℚ := max (-1) (min 1 jx0)
  let jy : ℚ := max (-1) (min 1 jy0)
  let cx : Int := st.cross_x + truncToInt (jx * JOY_SPEED)
  let cy : Int := st.cross_y + truncToInt (jy * JOY_SPEED)
  { st with cross_x := max 4 (min (W - 5) cx), cross_y := max 4 (min (H - 5) cy) }

/-- Length of the framebuffer in bytes (`#define FB_LEN (W * H / 8)`). -/
def FB_LEN : Nat := 1024

/-- The C function `px(x, y, on)` of Doom_v8.c on the framebuffer `fb`, an
array of bytes (`on_` is the parameter `on`).  `(unsigned)x` is `x` modulo `2^32`; past the bounds test `x`
and `y` are non-negative, `y >> 3` and `y & 7` are taken on naturals, and
`~m` is restricted to the eight bits of a byte. -/
def px (x y on_ : Int) (fb : Nat → Nat) : Nat → Nat :=
  if x % 4294967296 ≥ W ∨ y % 4294967296 ≥ H then fb
  else
    let idx : Nat := (y.toNat >>> 3) * W.toNat + x.toNat
    let m : Nat := 1 <<< (y.toNat &&& 7)
    Function.update fb idx (if on_ ≠ 0 then fb idx ||| m else fb idx &&& (255 ^^^ m))

/-- Successive calls of `update_crosshair()`, one per pair of ADC samples. -/
def crosshair_run : List (Nat × Nat) → DoomState → DoomState
  | [], st => st
  | p :: ps, st => crosshair_run ps (update_crosshair p.1 p.2 st)

/-- A state with three enemies at the column of the crosshair `(64, 32)`: a
dead square, a live circle and a live square. -/
def three_enemies : DoomState :=
  { DoomState.round_start 2048 2048 with
    E := fun i =>
      if i = 0 then { k := shape_t.SQUARE, x := 64, s := 5, live := 0 }
      else if i = 1 then { k := shape_t.CIRCLE, x := 64, s := 5, live := 1 }
      else { k := shape_t.SQUARE, x := 64, s := 7, live := 1 }
    Ec := 3 }

/-- The calls the round loop of `main` makes on the game state, with their
inputs. -/
inductive DoomOp where
  | spawn (r1 r2 : Nat)
  | shoot
  | update
  | update_crosshair (x y : Nat)

/-- The effect of one call on the state. -/
def DoomOp.apply : DoomOp → DoomState → DoomState
  | DoomOp.spawn r1 r2, st => Doom.spawn r1 r2 st
  | DoomOp.shoot, st => Doom.shoot st
  | DoomOp.update, st => (Doom.update st).1
  | DoomOp.update_crosshair x y, st => Doom.update_crosshair x y st

/-- The effect of a sequence of calls, made in order. -/
def exec : List DoomOp → DoomState → DoomState
  | [], st => st
  | op :: ops, st => exec ops (op.apply st)

/-- The number of `update()` calls in a sequence of calls. -/
def count_updates : List DoomOp → Nat
  | [] => 0
  | DoomOp.update :: ops => count_updates ops + 1
  | _ :: ops => count_updates ops

/-! ## Text: `gi`, `glyph8`, `dstr` -/

/-- The C function `gi(char c)` on the character code `c` (`'A'` is `65`,
`'Z'` is `90`, `'a'` is `97`, `'z'` is `122`, `'0'` is `48`, `'9'` is `57`,
`'!'` is `33`, `'-'` is `45`).  Any `int` is accepted as a code, which covers
`char` signed or unsigned. -/
def gi (c : Int) : Int :=
  if c ≥ 65 ∧ c ≤ 90 then 1 + (c - 65)
  else if c ≥ 97 ∧ c ≤ 122 then 1 + (c - 97)
  else if c ≥ 48 ∧ c ≤ 57 then 27 + (c - 48)
  else if c = 33 then 37
  else if c = 45 then 38
  else 0

/-- The C function `glyph8(x, y, g)`: `font k` is the byte `font[k]` of the
external table, `s[cx]` is `font[g * 8 + cx]`; the two loops run `cx` and `cy`
over `0 .. 7` and pass the bit `(s[cx] >> cy) & 1` to `px`. -/
def glyph8 (x y g : Int) (font : Int → Nat) (fb : Nat → Nat) : Nat → Nat :=
  (List.range 8).foldl (fun (f : Nat → Nat) (cx : Nat) =>
    (List.range 8).foldl (fun (f2 : Nat → Nat) (cy : Nat) =>
      px (x + (cx : Int)) (y + (cy : Int))
        (((font (g * 8 + (cx : Int)) >>> cy) &&& 1 : Nat) : Int) f2) f) fb

/-- The C function `dstr(x, y, s)`: the string is the list of its character
codes; the loop stops at the first code `0` (the terminating NUL) and advances
`x` by `8` per character. -/
def dstr (x y : Int) (font : Int → Nat) : List Int → (Nat → Nat) → Nat → Nat
  | [], fb => fb
  | c :: s, fb => if c = 0 then fb else dstr (x + 8) y font s (glyph8 x y (gi c) font fb)

/-! ## The helper `i2c_write_safe` -/

/-- The SDK function `absolute_time_diff_us(from, to)`: `to - from`. -/
def absolute_time_diff_us (t_from t_to : Int) : Int := t_to - t_from

/-- The SDK function `delayed_by_us(t, us)`. -/
def delayed_by_us (t : Int) (us : Nat) : Int := t + (us : Int)

/-- The conversion `(int) n` of a `size_t`. -/
def size_to_int (n : Nat) : Int :=
  ((n : Int) + 2147483648) % 4294967296 - 2147483648

/-- The loop `while (true)` of `i2c_write_safe`.  Each element of the list is
one pass through the loop body: the value `i2c_write_timeout_us` returns and
the clock that the following `get_absolute_time()` would read.  The result is
`none` when the list ends before the loop has returned. -/
def i2c_write_loop (n : Nat) (until_ : Int) : List (Int × Int) → Option Bool
  | [] => none
  | (written, now) :: rest =>
    if written = size_to_int n then some true
    else if absolute_time_diff_us until_ now ≤ 0 then some false
    else i2c_write_loop n until_ rest

/-- The C function `i2c_write_safe` for a buffer of `n` bytes, called when the
clock reads `t0`. -/
def i2c_write_safe (n : Nat) (t0 : Int) (attempts : List (Int × Int)) : Option Bool :=
  i2c_write_loop n (delayed_by_us t0 500) attempts

/-- Attempts `k` of a transport that never accepts a byte
(`PICO_ERROR_GENERIC = -1`), the first one over at `t0 + first` and each later
one `step` microseconds after the one before. -/
def failing_attempts (t0 first step : Int) (k : Nat) : List (Int × Int) :=
  (List.range k).map (fun (i : Nat) => ((-1 : Int), t0 + first + step * (i : Int)))

/-! ## The round loop of `main` -/

/-- Interval between spawns (`#define SPAWN_MS 1200`). -/
def SPAWN_MS : Nat := 1200

/-- Length of a round (`#define SURVIVE_MS 15000`). -/
def SURVIVE_MS : Nat := 15000

/-- What one pass through the round loop reads: the millisecond clock
`time_us_32() / 1000`, the two `rand()` values of `spawn()`, the level of the
button pin (`gpio_get` returns a `bool`: `true` is level 1, released; `false` is
level 0, pressed) and the two ADC samples of `update_crosshair()`. -/
structure RoundTick where
  now_ms : Nat
  r1 : Nat
  r2 : Nat
  b : Bool
  adc_x : Nat
  adc_y : Nat

/-- The variables of the round loop: the game state, the locals `start_ms`,
`last_spawn` and `prev`, and the number of calls of `shoot()` made so far. -/
structure RoundLoop where
  st : DoomState
  start_ms : Nat
  last_spawn : Nat
  prev : Bool
  shots : Nat

/-- The loop variables as `main` sets them before the round loop: `prev = 1`,
`last_spawn = start_ms`. -/
def RoundLoop.start (cx cy start_ms : Nat) : RoundLoop :=
  { st := DoomState.round_start cx cy
    start_ms := start_ms
    last_spawn := start_ms
    prev := true
    shots := 0 }

/-- How a round ends. -/
inductive RoundEnd where
  | won
  | died
deriving DecidableEq, Repr

/-- The value of `elapsed = now_ms - start_ms` (`uint32_t`) on a tick. -/
def elapsed (t : RoundTick) (l : RoundLoop) : Nat :=
  (t.now_ms + 4294967296 - l.start_ms) % 4294967296

/-- One pass through the body of the round loop, with the way the round ends
if the pass reaches a `break`.  The order is that of the source: spawn, win
check, timer, button and `shoot()`, `update()` and collision check,
`render_world()` (of which `update_crosshair()` is the part that changes the
game state). -/
def round_tick (t : RoundTick) (l : RoundLoop) : RoundLoop × Option RoundEnd :=
  let spawn_due : Bool :=
    decide ((t.now_ms + 4294967296 - l.last_spawn) % 4294967296 ≥ SPAWN_MS)
  let st1 : DoomState := if spawn_due then spawn t.r1 t.r2 l.st else l.st
  let last_spawn1 : Nat := if spawn_due then t.now_ms else l.last_spawn
  if elapsed t l ≥ SURVIVE_MS then
    ({ l with st := st1, last_spawn := last_spawn1 }, some RoundEnd.won)
  else
    let st2 : DoomState :=
      { st1 with seconds_left := (((SURVIVE_MS - elapsed t l + 999) / 1000 : Nat) : Int) }
    let fire : Bool := !t.b && l.prev
    let st3 : DoomState := if fire then shoot st2 else st2
    let shots1 : Nat := if fire then l.shots + 1 else l.shots
    let u := update st3
    if u.2 ≠ 0 then
      ({ l with st := u.1, last_spawn := last_spawn1, prev := t.b, shots := shots1 },
        some RoundEnd.died)
    else
      ({ l with st := update_crosshair t.adc_x t.adc_y u.1, last_spawn := last_spawn1,
                prev := t.b, shots := shots1 }, none)

/-- The round loop over the given passes: it stops at the first pass that
reaches a `break`. -/
def run_round : List RoundTick → RoundLoop → RoundLoop × Option RoundEnd
  | [], l => (l, none)
  | t :: ts, l =>
    if (round_tick t l).2 = none then run_round ts (round_tick t l).1 else round_tick t l

/-- The button levels read during a run of the round loop, in order: a pass
reads the button unless it ends the round at the win check, and no pass
follows one that ends the round. -/
def buttons_read : List RoundTick → RoundLoop → List Bool
  | [], _ => []
  | t :: ts, l =>
    if elapsed t l ≥ SURVIVE_MS then []
    else t.b :: (if (round_tick t l).2 = none then buttons_read ts (round_tick t l).1 else [])

/-- The number of released-to-pressed transitions in a sequence of button
levels that follows the level `prev`. -/
def edges (prev : Bool) : List Bool → Nat
  | [] => 0
  | b :: bs => (if b = false ∧ prev = true then 1 else 0) + edges b bs

/-- The live enemies are ordered by non-increasing size along the array
index, and none is smaller than a fresh one. -/
def live_sorted (st : DoomState) : Prop :=
  (∀ i j, i < j → j < st.Ec → (st.E i).live ≠ 0 → (st.E j).live ≠ 0 →
    (st.E j).s ≤ (st.E i).s) ∧
  (∀ i, i < st.Ec → (st.E i).live ≠ 0 → START_SZ ≤ (st.E i).s)

/-- The game state of a pass when it reaches the win check: `spawn()` has
been called if `now_ms - last_spawn >= SPAWN_MS`. -/
def after_spawn (t : RoundTick) (l : RoundLoop) : DoomState :=
  if (t.now_ms + 4294967296 - l.last_spawn) % 4294967296 ≥ SPAWN_MS then spawn t.r1 t.r2 l.st
  else l.st

/-- The game state of a pass when it reaches `int b = gpio_get(BTN_PIN)`: the
state after the spawn section with `seconds_left` assigned. -/
def before_button (t : RoundTick) (l : RoundLoop) : DoomState :=
  { after_spawn t l with
    seconds_left := (((SURVIVE_MS - elapsed t l + 999) / 1000 : Nat) : Int) }

/-- The rest of a pass from the game state `st3` that the input section
leaves: `if (update()) { ... break; }` and `render_world()`. -/
def after_button (t : RoundTick) (st3 : DoomState) : DoomState × Option RoundEnd :=
  if (update st3).2 ≠ 0 then ((update st3).1, some RoundEnd.died)
  else (update_crosshair t.adc_x t.adc_y (update st3).1, none)

/-- A round in progress with the three enemies of `three_enemies`, the
crosshair on them, the button last read released and no shot fired. -/
def armed_round : RoundLoop :=
  { st := three_enemies, start_ms := 0, last_spawn := 0, prev := true, shots := 0 }

/-- A tick of the round loop at clock `now_ms` with the given button level,
the joystick at rest at the centre `2048`. -/
def button_tick (now_ms : Nat) (b : Bool) : RoundTick :=
  { now_ms := now_ms, r1 := 63, r2 := 1, b := b, adc_x := 2048, adc_y := 2048 }

end Doom

namespace Pot

/-! ## Display and needle of potentiometer_v3.c -/

/-- Display width in pixels (`#define W 128`). -/
def W : Int := 128

/-- Display height in pixels (`#define H 64`). -/
def H : Int := 64

/-- The C function `px(x, y, on)` of potentiometer_v3.c, with `on` a `bool`;
the body is that of the function of the same name in Doom_v8.c. -/
def px (x y : Int) (on_ : Bool) (fb : Nat → Nat) : Nat → Nat :=
  if x % 4294967296 ≥ W ∨ y % 4294967296 ≥ H then fb
  else
    let idx : Nat := (y.toNat >>> 3) * W.toNat + x.toNat
    let m : Nat := 1 <<< (y.toNat &&& 7)
    Function.update fb idx (if on_ then fb idx ||| m else fb idx &&& (255 ^^^ m))

/-- The loop `while (1)` of `draw_needle` with at most `fuel` iterations,
started with the given `err`, `x` and `y`: the points passed to `px`, in
order, or `none` if the loop has not reached its `break` within `fuel`
iterations.  `int` arithmetic is exact (no overflow). -/
def needle_loop (x2 y2 dx sx dy sy : Int) : Nat → Int → Int → Int → Option (List (Int × Int))
  | 0, _, _, _ => none
  | fuel + 1, err, x, y =>
    if x = x2 ∧ y = y2 then some [(x, y)]
    else
      let e2 : Int := 2 * err
      let err1 : Int := if e2 ≥ dy then err + dy else err
      let x1 : Int := if e2 ≥ dy then x + sx else x
      let err2 : Int := if e2 ≤ dx then err1 + dx else err1
      let y1 : Int := if e2 ≤ dx then y + sy else y
      (needle_loop x2 y2 dx sx dy sy fuel err2 x1 y1).map (fun l => (x, y) :: l)

/-- The points `draw_needle` plots from `(cx, cy)` to the end point
`(x2, y2)`: the set-up of `dx, sx, dy, sy, err` followed by the loop.  The end
point, which the source computes from the angle with `cosf` and `sinf`, is an
argument. -/
def needle_pixels (fuel : Nat) (cx cy x2 y2 : Int) : Option (List (Int × Int)) :=
  let dx : Int := |x2 - cx|
  let sx : Int := if cx < x2 then 1 else -1
  let dy : Int := -|y2 - cy|
  let sy : Int := if cy < y2 then 1 else -1
  needle_loop x2 y2 dx sx dy sy fuel (dx + dy) cx cy

/-- The C function `draw_needle` from the end point on: every point of the
loop is passed to `px(x, y, true)`. -/
def draw_needle (fuel : Nat) (cx cy x2 y2 : Int) (fb : Nat → Nat) : Option (Nat → Nat) :=
  (needle_pixels fuel cx cy x2 y2).map (fun l => l.foldl (fun f p => px p.1 p.2 true f) fb)

/-- Two consecutive points differ by at most one in each coordinate. -/
def step_ok (p q : Int × Int) : Prop :=
  |q.1 - p.1| ≤ 1 ∧ |q.2 - p.2| ≤ 1

/-- The point `p` lies in the bounding box of `(cx, cy)` and `(x2, y2)`. -/
def in_box (cx cy x2 y2 : Int) (p : Int × Int) : Prop :=
  min cx x2 ≤ p.1 ∧ p.1 ≤ max cx x2 ∧ min cy y2 ≤ p.2 ∧ p.2 ≤ max cy y2

/-! ## Text of potentiometer_v3.c -/

/-- The C function `gi(char c)` of potentiometer_v3.c; the body is that of
the function of the same name in Doom_v8.c. -/
def gi (c : Int) : Int :=
  if c ≥ 65 ∧ c ≤ 90 then 1 + (c - 65)
  else if c ≥ 97 ∧ c ≤ 122 then 1 + (c - 97)
  else if c ≥ 48 ∧ c ≤ 57 then 27 + (c - 48)
  else if c = 33 then 37
  else if c = 45 then 38
  else 0

/-- The C function `glyph8(x, y, g)` of potentiometer_v3.c; the bit
`(s[cx] >> cy) & 1` is converted to the `bool` parameter of `px`. -/
def glyph8 (x y g : Int) (font : Int → Nat) (fb : Nat → Nat) : Nat → Nat :=
  (List.range 8).foldl (fun (f : Nat → Nat) (cx : Nat) =>
    (List.range 8).foldl (fun (f2 : Nat → Nat) (cy : Nat) =>
      px (x + (cx : Int)) (y + (cy : Int))
        (decide ((font (g * 8 + (cx : Int)) >>> cy) &&& 1 ≠ 0)) f2) f) fb

/-- The C function `dstr(x, y, s)` of potentiometer_v3.c. -/
def dstr (x y : Int) (font : Int → Nat) : List Int → (Nat → Nat) → Nat → Nat
  | [], fb => fb
  | c :: s, fb => if c = 0 then fb else dstr (x + 8) y font s (glyph8 x y (gi c) font fb)

/-! ## Selection of the target zones in `main` of potentiometer_v3.c -/

/-- Width of a target zone in degrees (`#define TARGET_ZONE_WIDTH 20`). -/
def TARGET_ZONE_WIDTH : Int := 20

/-- Number of rounds (`#define NUM_ROUNDS 5`). -/
def NUM_ROUNDS : Nat := 5

/-- The four bytes of an `int` in memory, lowest address first
(little-endian, two's complement). -/
def int_bytes (v : Int) : List Nat :=
  let u : Nat := (v % 4294967296).toNat
  [u % 256, u / 256 % 256, u / 65536 % 256, u / 16777216 % 256]

/-- The test `memchr(used, c, r * sizeof(int)) != NULL`: the byte
`(unsigned char) c` occurs among the bytes of `used[0 .. r - 1]`. -/
def memchr_used (used : Nat → Int) (c : Int) (r : Nat) : Bool :=
  decide ((c % 256).toNat ∈ (List.range r).flatMap (fun i => int_bytes (used i)))

/-- The loop `do { s_i = rand() % (181 - TARGET_ZONE_WIDTH); } while
(memchr(...))` of round `r`: the list holds the values of the coming calls of
`rand()`; the result is the accepted `s_i` with the values not yet consumed,
or `none` if the list ends before a candidate is accepted. -/
def select_start (used : Nat → Int) (r : Nat) : List Nat → Option (Int × List Nat)
  | [] => none
  | v :: rest =>
    let s_i : Int := (v : Int) % (181 - TARGET_ZONE_WIDTH)
    if memchr_used used s_i r then select_start used r rest else some (s_i, rest)

/-- The loop `for (r ...)` of `main` from round `r` on with `n` rounds left, as
far as `used` is concerned (`game_round` does not call `rand()`). -/
def rounds_loop : Nat → Nat → (Nat → Int) → List Nat → Option (Nat → Int)
  | 0, _, used, _ => some used
  | n + 1, r, used, rands =>
    match select_start used r rands with
    | none => none
    | some (s_i, rest) => rounds_loop n (r + 1) (Function.update used r s_i) rest

/-- The first `NUM_ROUNDS` entries of `used` as a list. -/
def used_list (used : Nat → Int) : List Int :=
  (List.range NUM_ROUNDS).map used

/-- The array `used[0 .. 4]` after the five selections of `main`, started as
`{ -1, -1, -1, -1, -1 }`; the list holds the values of `rand()`. -/
def main_zones (rands : List Nat) : Option (List Int) :=
  (rounds_loop NUM_ROUNDS 0 (fun _ => -1) rands).map used_list


end Pot

namespace PotGame

/-! ## The game of potentiometer/potentiometer_v3.c -/

/-- Width of the target zone in degrees (`#define TARGET_ZONE_WIDTH 20`). -/
def TARGET_ZONE_WIDTH : Int := 20

/-- Time to reach the zone (`#define TIME_TO_REACH 5000`, milliseconds). -/
def TIME_TO_REACH : Nat := 5000

/-- Time to hold the zone (`#define TIME_TO_HOLD 10000`, milliseconds). -/
def TIME_TO_HOLD : Nat := 10000

/-- The SDK function `absolute_time_diff_us(from, to)`: `to - from`. -/
def absolute_time_diff_us (t_from t_to : Int) : Int := t_to - t_from

/-- The SDK function `delayed_by_ms(t, ms)`. -/
def delayed_by_ms (t : Int) (ms : Nat) : Int := t + (ms : Int) * 1000

/-- The C function `map_pot_to_degrees`: `(raw / 4095.0f) * 180.0f`, as a
rational.  The `float` value differs from it by less than `0.001`, so both
fall on the same side of a zone bound whenever the rational is at least that
far from the bound. -/
def map_pot_to_degrees (raw : Nat) : ℚ := ((raw : ℚ) / 4095) * 180

/-- What one pass through the loop of `play_game` reads: the ADC sample, the
clock that `get_absolute_time()` gives where `hold_deadline` is set, and the
clock it gives in the deadline comparison of the pass. -/
structure Sample where
  raw : Nat
  t_enter : Int
  t_check : Int

/-- The locals of `play_game` that the loop changes.  `hold_deadline` is
uninitialised until the zone is first entered; it is read only after that. -/
structure Loop where
  in_target : Bool
  target_reached : Bool
  hold_deadline : Int

/-- The message with which `play_game` returns: `Success! Held in target zone
for 10 seconds.` or `Failed! Didn't reach target zone in 5 seconds.` -/
inductive GameResult where
  | success
  | failed
deriving DecidableEq, Repr

/-- The test `now_in_target` of a pass. -/
def now_in_target (target_start target_end : ℚ) (smp : Sample) : Bool :=
  decide (map_pot_to_degrees smp.raw ≥ target_start ∧ map_pot_to_degrees smp.raw ≤ target_end)

/-- One pass through the body of the loop of `play_game`, with the result if
the pass returns. -/
def play_step (target_start target_end : ℚ) (reach_deadline : Int) (smp : Sample) (l : Loop) :
    Loop × Option GameResult :=
  if now_in_target target_start target_end smp then
    let l1 : Loop :=
      if !l.in_target && !l.target_reached then
        { l with target_reached := true, hold_deadline := delayed_by_ms smp.t_enter TIME_TO_HOLD }
      else l
    if l1.target_reached && decide (absolute_time_diff_us smp.t_check l1.hold_deadline ≤ 0) then
      (l1, some GameResult.success)
    else ({ l1 with in_target := true }, none)
  else
    if !l.target_reached && decide (absolute_time_diff_us smp.t_check reach_deadline ≤ 0) then
      (l, some GameResult.failed)
    else ({ l with in_target := false }, none)

/-- The loop of `play_game` over the given passes; `none` when the passes end
before the function has returned. -/
def play_loop (target_start target_end : ℚ) (reach_deadline : Int) :
    List Sample → Loop → Option GameResult
  | [], _ => none
  | smp :: rest, l =>
    match (play_step target_start target_end reach_deadline smp l).2 with
    | some res => some res
    | none =>
      play_loop target_start target_end reach_deadline rest
        (play_step target_start target_end reach_deadline smp l).1

/-- The lower bound of the zone for the value `r` of `rand()`. -/
def zone_start (r : Nat) : ℚ := (((r : Int) % (180 - TARGET_ZONE_WIDTH) : Int) : ℚ)

/-- The upper bound of the zone for the value `r` of `rand()`. -/
def zone_end (r : Nat) : ℚ := zone_start r + (TARGET_ZONE_WIDTH : ℚ)

/-- The C function `play_game`: `r` is the value of `rand()`, `game_start`
the clock at the start. -/
def play_game (r : Nat) (game_start : Int) (samples : List Sample) : Option GameResult :=
  play_loop (zone_start r) (zone_end r) (delayed_by_ms game_start TIME_TO_REACH) samples
    { in_target := false, target_reached := false, hold_deadline := 0 }

/-- A run for the zone `40 .. 60` degrees: one sample inside the zone
(`raw = 1138`, about `50.02` degrees) one second after the start, then `165`
samples at `0` degrees, `60` ms apart, from `1.06` s to `10.9` s, then again
`raw = 1138` at `11.02` s. -/
def leave_and_return : List Sample :=
  [{ raw := 1138, t_enter := 1000000, t_check := 1000010 }] ++
  (List.range 165).map (fun (i : Nat) =>
    { raw := 0, t_enter := 1060000 + 60000 * (i : Int), t_check := 1060000 + 60000 * (i : Int) }) ++
  [{ raw := 1138, t_enter := 11020000, t_check := 11020010 }]

end PotGame

/-! # Theorems -/

namespace DDR

/-! ## Tiers of `register_hit` -/

/-- The score, combo and tracked counter after `register_hit`, field by
field. -/
theorem register_hit_fields (t : Nat) (a : Int) (s : DDRState) :
    (register_hit t a s).score =
        (if t < 100000 then s.score + 100 * (s.combo + 1)
         else if t < 200000 then s.score + 50 * (s.combo + 1) else s.score + 20) ∧
    (register_hit t a s).combo = (if t < 200000 then s.combo + 1 else 0) ∧
    (register_hit t a s).target_arrow_count =
        (if a = s.target_arrow ∧ (s.arrows s.arrow_count).counted = false
         then s.target_arrow_count + 1 else s.target_arrow_count) ∧
    (register_hit t a s).arrow_count = s.arrow_count ∧
    (register_hit t a s).target_arrow = s.target_arrow := by
  unfold register_hit
  by_cases h1 : t < 100000
  · have h2 : t < 200000 := by omega
    by_cases hc : a = s.target_arrow ∧ (s.arrows s.arrow_count).counted = false
    · simp [h1, h2, hc]
    · simp only [h1, h2, if_true]
      rw [if_neg hc, if_neg hc]
      simp
  · by_cases h2 : t < 200000
    · by_cases hc : a = s.target_arrow ∧ (s.arrows s.arrow_count).counted = false
      · simp [h1, h2, hc]
      · simp only [h1, h2, if_true, if_false]
        rw [if_neg hc, if_neg hc]
        simp
    · by_cases hc : a = s.target_arrow ∧ (s.arrows s.arrow_count).counted = false
      · simp [h1, h2, hc]
      · simp only [h1, h2, if_false]
        rw [if_neg hc, if_neg hc]
        simp

/-- The array after `register_hit`: only the slot at index `arrow_count` can
change, and only its `counted` flag. -/
theorem register_hit_arrows (t : Nat) (a : Int) (s : DDRState) :
    (register_hit t a s).arrows =
      (if a = s.target_arrow ∧ (s.arrows s.arrow_count).counted = false
       then Function.update s.arrows s.arrow_count
              { s.arrows s.arrow_count with counted := true }
       else s.arrows) := by
  unfold register_hit
  by_cases hc : a = s.target_arrow ∧ (s.arrows s.arrow_count).counted = false
  · by_cases h1 : t < 100000
    · simp [h1, hc]
    · by_cases h2 : t < 200000 <;> simp [h1, h2, hc]
  · rw [if_neg hc]
    by_cases h1 : t < 100000
    · simp only [h1, if_true]
      rw [if_neg hc]
    · by_cases h2 : t < 200000
      · simp only [h1, h2, if_true, if_false]
        rw [if_neg hc]
      · simp only [h1, h2, if_false]
        rw [if_neg hc]

/-! ## The judgement of one arrow -/

/-- An arrow that is not prompted is left alone: `judge` changes nothing. -/
theorem judge_of_not_prompted (now btn : Int) (i : Nat) (s : DDRState)
    (h : prompted now (s.arrows i) = false) : judge now btn i s = s := by
  simp [judge, h]

/-- The miss branch of `judge`. -/
theorem judge_miss (now btn : Int) (i : Nat) (s : DDRState)
    (h : prompted now (s.arrows i) = true) (hb : btn ≠ (s.arrows i).arrow) :
    judge now btn i s =
      { s with
        combo := 0
        arrows := Function.update s.arrows i { s.arrows i with hit := true } } := by
  simp [judge, h, hb]

/-- The hit branch of `judge`. -/
theorem judge_hit (now btn : Int) (i : Nat) (s : DDRState)
    (h : prompted now (s.arrows i) = true) (hb : btn = (s.arrows i).arrow) :
    judge now btn i s =
      { register_hit (toUInt32 (toInt32 (absolute_time_diff_us now (s.arrows i).hit_time)))
          (s.arrows i).arrow s with
        arrows := Function.update
          (register_hit (toUInt32 (toInt32 (absolute_time_diff_us now (s.arrows i).hit_time)))
            (s.arrows i).arrow s).arrows i
          { (register_hit (toUInt32 (toInt32 (absolute_time_diff_us now (s.arrows i).hit_time)))
              (s.arrows i).arrow s).arrows i with hit := true } } := by
  simp [judge, h, hb]

/-- The judgement of one arrow never changes `arrow_count` or `target_arrow`. -/
theorem judge_count (now btn : Int) (i : Nat) (s : DDRState) :
    (judge now btn i s).arrow_count = s.arrow_count ∧
    (judge now btn i s).target_arrow = s.target_arrow := by
  by_cases h : prompted now (s.arrows i) = true
  · by_cases hb : btn = (s.arrows i).arrow
    · rw [judge_hit now btn i s h hb]
      exact ⟨(register_hit_fields _ _ s).2.2.2.1, (register_hit_fields _ _ s).2.2.2.2⟩
    · rw [judge_miss now btn i s h hb]
      exact ⟨rfl, rfl⟩
  · rw [judge_of_not_prompted now btn i s (by simpa using h)]
    exact ⟨rfl, rfl⟩

/-- The judgement loop never changes `arrow_count` or `target_arrow`. -/
theorem judge_loop_count (inp : TickInput) (n : Nat) (s : DDRState) :
    (judge_loop inp n s).arrow_count = s.arrow_count ∧
    (judge_loop inp n s).target_arrow = s.target_arrow := by
  induction n with
  | zero => exact ⟨rfl, rfl⟩
  | succ n ih =>
    have h := judge_count (inp.judge_now n) (inp.btn n) n (judge_loop inp n s)
    exact ⟨h.1.trans ih.1, h.2.trans ih.2⟩

/-- The array after `judge` at index `k`, away from the slot at index
`arrow_count` (which `register_hit` may mark as counted): only slot `k`
changes, and only when its arrow is prompted. -/
theorem judge_arrows_ne (now btn : Int) (k : Nat) (s : DDRState) (i : Nat)
    (hi : i ≠ s.arrow_count) :
    (judge now btn k s).arrows i =
      (if i = k ∧ prompted now (s.arrows k) = true then { s.arrows k with hit := true }
       else s.arrows i) := by
  by_cases h : prompted now (s.arrows k) = true
  · by_cases hb : btn = (s.arrows k).arrow
    · rw [judge_hit now btn k s h hb]
      simp only [register_hit_arrows]
      by_cases hik : i = k
      · subst hik
        simp only [Function.update_same, h, and_self, if_true]
        split
        · rw [Function.update_noteq hi]
        · rfl
      · simp only [Function.update_noteq hik, hik, false_and, if_false]
        split
        · rw [Function.update_noteq hi]
        · rfl
    · rw [judge_miss now btn k s h hb]
      by_cases hik : i = k
      · subst hik
        simp [h]
      · simp [Function.update_noteq hik, hik]
  · rw [judge_of_not_prompted now btn k s (by simpa using h)]
    simp [h]

/-- The array after the first `n` iterations of the judgement loop, away
from the slot at index `arrow_count`: the prompted arrows among the first `n`
have their hit flag set, everything else is as before the loop. -/
theorem judge_loop_arrows (inp : TickInput) (s : DDRState) (n : Nat)
    (hn : n ≤ s.arrow_count) (i : Nat) (hi : i ≠ s.arrow_count) :
    (judge_loop inp n s).arrows i =
      (if i < n ∧ prompted (inp.judge_now i) (s.arrows i) = true
       then { s.arrows i with hit := true } else s.arrows i) := by
  induction n generalizing i with
  | zero => simp [judge_loop]
  | succ n ih =>
    have ihn := ih (by omega) i hi
    have hcount := (judge_loop_count inp n s).1
    have hnn : (judge_loop inp n s).arrows n = s.arrows n := by
      have hne : n ≠ s.arrow_count := by omega
      have := ih (by omega) n hne
      simpa using this
    show (judge (inp.judge_now n) (inp.btn n) n (judge_loop inp n s)).arrows i = _
    rw [judge_arrows_ne _ _ _ _ _ (by rw [hcount]; exact hi), hnn]
    by_cases hik : i = n
    · subst hik
      by_cases hp : prompted (inp.judge_now i) (s.arrows i) = true
      · simp [hp]
      · simp [hp, hnn]
    · rw [ihn]
      have h1 : (i < n + 1) = (i < n) := by
        apply propext
        constructor <;> intro h <;> omega
      simp only [hik, false_and, if_false, h1]

/-- The judgements of the first `n` iterations of the judgement loop are
those of the arrows, as they were before the loop, that are prompted. -/
theorem judge_log_eq (inp : TickInput) (s : DDRState) (n : Nat) (hn : n ≤ s.arrow_count) :
    judge_log inp n s =
      ((List.range n).filter (fun i => prompted (inp.judge_now i) (s.arrows i))).map
        (fun i => (s.arrows i, inp.btn i)) := by
  induction n with
  | zero => simp [judge_log]
  | succ n ih =>
    have hnn : (judge_loop inp n s).arrows n = s.arrows n := by
      have := judge_loop_arrows inp s n (by omega) n (by omega)
      simpa using this
    simp only [judge_log, hnn, ih (by omega), List.range_succ, List.filter_append,
      List.map_append]
    by_cases hp : prompted (inp.judge_now n) (s.arrows n) = true
    · simp [hp]
    · simp [hp]

/-- Splitting the unjudged arrows of a list of slots into those a pass
prompts and those it leaves unjudged. -/
theorem prompted_split_perm (P : Nat → Bool) (arr arr1 : Nat → ArrowCommand) (l : List Nat)
    (h : ∀ i, i ∈ l → (P i = true → (arr i).hit = false ∧ (arr1 i).hit = true) ∧
      (P i = false → arr1 i = arr i)) :
    ((l.filter P).map arr ++ (l.map arr1).filter (fun a => !a.hit)).Perm
      ((l.map arr).filter (fun a => !a.hit)) := by
  induction l with
  | nil => simp
  | cons i l ih =>
    have ihl := ih (fun j hj => h j (List.mem_cons_of_mem i hj))
    have hi := h i (List.mem_cons_self i l)
    by_cases hp : P i = true
    · obtain ⟨h1, h2⟩ := hi.1 hp
      simp only [List.filter_cons, hp, if_true, List.map_cons, h1, h2, Bool.not_true,
        Bool.not_false, List.cons_append]
      simpa using ihl
    · have hpf : P i = false := by simpa using hp
      have h3 := hi.2 hpf
      by_cases hh : (arr i).hit = true
      · simp only [List.filter_cons, hpf, List.map_cons, h3, hh, Bool.not_true]
        simpa using ihl
      · have hhf : (arr i).hit = false := by simpa using hh
        simp only [List.filter_cons, hpf, List.map_cons, h3, hhf, Bool.not_false, if_true]
        refine List.perm_middle.trans ?_
        simpa using ihl

/-- A prompted arrow is unjudged. -/
theorem prompted_unhit (now : Int) (a : ArrowCommand) (h : prompted now a = true) :
    a.hit = false := by
  simp only [prompted, Bool.and_eq_true, Bool.not_eq_true'] at h
  exact h.1

/-- The judgement loop of a tick splits the unjudged arrows into the judged
ones and those still unjudged after the loop. -/
theorem judge_pass_perm (inp : TickInput) (s : DDRState) :
    ((judge_log inp s.arrow_count s).map Prod.fst ++ (judge_pass inp s).unjudged).Perm
      s.unjudged := by
  have hcount : (judge_pass inp s).arrow_count = s.arrow_count :=
    (judge_loop_count inp s.arrow_count s).1
  have hmap : (judge_log inp s.arrow_count s).map Prod.fst =
      ((List.range s.arrow_count).filter
        (fun i => prompted (inp.judge_now i) (s.arrows i))).map s.arrows := by
    rw [judge_log_eq inp s s.arrow_count (Nat.le_refl _), List.map_map]
    rfl
  rw [hmap]
  unfold DDRState.unjudged DDRState.active
  rw [hcount]
  apply prompted_split_perm
  intro i hi
  have hlt : i < s.arrow_count := List.mem_range.mp hi
  have harr := judge_loop_arrows inp s s.arrow_count (Nat.le_refl _) i (by omega)
  constructor
  · intro hp
    refine ⟨prompted_unhit _ _ hp, ?_⟩
    show ((judge_loop inp s.arrow_count s).arrows i).hit = true
    rw [harr]
    simp [hlt, hp]
  · intro hp
    show (judge_loop inp s.arrow_count s).arrows i = s.arrows i
    rw [harr]
    simp [hp]

/-! ## The removal pass -/

/-- Invariant of the removal loop after `n` iterations: the write index is at
most `n`, the slots from `n` on are untouched, and the slots below the write
index hold, in order, the arrows among the first `n` that pass the test
`absolute_time_diff_us(arrows[i].hit_time, now) < HIT_WINDOW_MS * 1000`. -/
theorem remove_loop_spec (now : Nat → Int) (arrows : Nat → ArrowCommand) (n : Nat) :
    (remove_loop now arrows n).2 ≤ n ∧
    (∀ i, (remove_loop now arrows n).2 ≤ i → n ≤ i →
      (remove_loop now arrows n).1 i = arrows i) ∧
    (List.range (remove_loop now arrows n).2).map (remove_loop now arrows n).1 =
      ((List.range n).filter (fun i =>
        decide (absolute_time_diff_us (arrows i).hit_time (now i) < HIT_WINDOW_MS * 1000))).map
        arrows := by
  induction n with
  | zero => simp [remove_loop]
  | succ n ih =>
    obtain ⟨hle, hrest, hpre⟩ := ih
    have hread : (remove_loop now arrows n).1 n = arrows n :=
      hrest n hle (Nat.le_refl n)
    by_cases hk : absolute_time_diff_us (arrows n).hit_time (now n) < HIT_WINDOW_MS * 1000
    · have hstep : remove_loop now arrows (n + 1) =
          (Function.update (remove_loop now arrows n).1 (remove_loop now arrows n).2 (arrows n),
            (remove_loop now arrows n).2 + 1) := by
        simp [remove_loop, hread, hk]
      rw [hstep]
      refine ⟨by simp; omega, ?_, ?_⟩
      · intro i hi hn
        have hne : i ≠ (remove_loop now arrows n).2 := by simp at hi; omega
        simp only [Function.update_noteq hne]
        exact hrest i (by simp at hi; omega) (by omega)
      · simp only [List.range_succ, List.map_append, List.filter_append, List.map_cons,
          List.map_nil, Function.update_same]
        have hold : List.map
            (Function.update (remove_loop now arrows n).1 (remove_loop now arrows n).2 (arrows n))
            (List.range (remove_loop now arrows n).2) =
            List.map (remove_loop now arrows n).1 (List.range (remove_loop now arrows n).2) := by
          apply List.map_congr_left
          intro a ha
          have : a ≠ (remove_loop now arrows n).2 := by
            have := List.mem_range.mp ha
            omega
          simp [Function.update_noteq this]
        rw [hold, hpre]
        simp [hk]
    · have hstep : remove_loop now arrows (n + 1) = remove_loop now arrows n := by
        simp [remove_loop, hread, hk]
      rw [hstep]
      refine ⟨by omega, ?_, ?_⟩
      · intro i hi hn
        exact hrest i hi (by omega)
      · rw [hpre]
        simp [List.range_succ, List.filter_append, hk]

/-- The active set after the removal pass: the arrows whose own clock reading
passes the window test, in their original order. -/
theorem removal_pass_active (inp : TickInput) (s : DDRState) :
    (removal_pass inp s).active =
      ((List.range s.arrow_count).filter (fun i =>
        decide (absolute_time_diff_us (s.arrows i).hit_time (inp.remove_now i)
          < HIT_WINDOW_MS * 1000))).map s.arrows :=
  (remove_loop_spec inp.remove_now s.arrows s.arrow_count).2.2

/-- The unjudged arrows after the removal pass are among those before it. -/
theorem removal_pass_unjudged (inp : TickInput) (s : DDRState) :
    (removal_pass inp s).unjudged.Sublist s.unjudged := by
  unfold DDRState.unjudged
  rw [removal_pass_active]
  exact ((List.filter_sublist _).map s.arrows).filter _

/-! ## Ticks and runs -/

/-- One tick: the arrows it judges together with those left unjudged in the
active set are, counted with multiplicity, among the arrows unjudged before
it. -/
theorem tick_subperm (inp : TickInput) (s : DDRState) :
    ((judge_log inp s.arrow_count s).map Prod.fst ++ (tick inp s).unjudged).Subperm
      s.unjudged := by
  have h1 : ((judge_log inp s.arrow_count s).map Prod.fst ++ (tick inp s).unjudged).Sublist
      ((judge_log inp s.arrow_count s).map Prod.fst ++ (judge_pass inp s).unjudged) :=
    List.Sublist.append_left (removal_pass_unjudged inp (judge_pass inp s)) _
  exact h1.subperm.trans (judge_pass_perm inp s).subperm

/-- Over a whole run, the judged arrows together with the arrows still
unjudged at its end are, counted with multiplicity, among the arrows
unjudged at its start. -/
theorem run_subperm (ticks : List TickInput) (s : DDRState) :
    ((run_log ticks s).map Prod.fst ++ (run_ticks ticks s).unjudged).Subperm s.unjudged := by
  induction ticks generalizing s with
  | nil =>
    simp only [run_log, run_ticks, List.map_nil, List.nil_append]
    exact List.Subperm.refl _
  | cons t ts ih =>
    by_cases h0 : s.arrow_count = 0
    · simp only [run_log, run_ticks, h0, if_true, List.map_nil, List.nil_append]
      exact List.Subperm.refl _
    · simp only [run_log, run_ticks, h0, if_false, List.map_append, List.append_assoc]
      have h1 := ih (tick t s)
      have h2 := (List.subperm_append_left ((judge_log t s.arrow_count s).map Prod.fst)).mpr h1
      exact h2.trans (tick_subperm t s)

/-- The tracked hits of a log extended by one judgement. -/
theorem tracked_hits_snoc (target : Int) (log : List (ArrowCommand × Int))
    (a : ArrowCommand) (b : Int) :
    tracked_hits target (log ++ [(a, b)]) =
      tracked_hits target log + (if b = a.arrow ∧ a.arrow = target then 1 else 0) := by
  unfold tracked_hits
  by_cases h : b = a.arrow ∧ a.arrow = target
  · simp [List.filter_append, List.filter_cons, h.1, h.2]
  · rw [if_neg h]
    have : (decide (b = a.arrow) && decide (a.arrow = target)) = false := by
      simpa using h
    simp [List.filter_append, List.filter_cons, this]

/-- The tracked hits of two logs one after the other. -/
theorem tracked_hits_append (target : Int) (l1 l2 : List (ArrowCommand × Int)) :
    tracked_hits target (l1 ++ l2) = tracked_hits target l1 + tracked_hits target l2 := by
  simp [tracked_hits, List.filter_append]

/-- The judgement of one arrow raises the tracked counter by at most one, and
only for a prompted arrow of the tracked direction whose button matched. -/
theorem judge_tracked (now btn : Int) (i : Nat) (s : DDRState) :
    s.target_arrow_count ≤ (judge now btn i s).target_arrow_count ∧
    (judge now btn i s).target_arrow_count ≤ s.target_arrow_count +
      (if prompted now (s.arrows i) = true ∧ btn = (s.arrows i).arrow ∧
          (s.arrows i).arrow = s.target_arrow then 1 else 0) := by
  by_cases h : prompted now (s.arrows i) = true
  · by_cases hb : btn = (s.arrows i).arrow
    · rw [judge_hit now btn i s h hb]
      show s.target_arrow_count ≤ (register_hit _ _ s).target_arrow_count ∧
        (register_hit _ _ s).target_arrow_count ≤ _
      rw [(register_hit_fields _ _ s).2.2.1]
      by_cases ht : (s.arrows i).arrow = s.target_arrow
      · simp only [h, hb, ht, and_self, if_true, true_and]
        split <;> omega
      · simp only [ht, false_and, and_false, if_false]
        omega
    · rw [judge_miss now btn i s h hb]
      simp only [hb, false_and, and_false, if_false]
      exact ⟨Int.le_refl _, by omega⟩
  · rw [judge_of_not_prompted now btn i s (by simpa using h)]
    simp only [h, false_and, if_false]
    exact ⟨Int.le_refl _, by omega⟩

/-- The judgement loop raises the tracked counter by at most the number of
tracked hits among its judgements. -/
theorem judge_loop_tracked (inp : TickInput) (s : DDRState) (n : Nat) :
    s.target_arrow_count ≤ (judge_loop inp n s).target_arrow_count ∧
    (judge_loop inp n s).target_arrow_count ≤
      s.target_arrow_count + (tracked_hits s.target_arrow (judge_log inp n s) : Int) := by
  induction n with
  | zero => simp [judge_loop, judge_log, tracked_hits]
  | succ n ih =>
    have hj := judge_tracked (inp.judge_now n) (inp.btn n) n (judge_loop inp n s)
    have ht := (judge_loop_count inp n s).2
    rw [ht] at hj
    show s.target_arrow_count ≤
        (judge (inp.judge_now n) (inp.btn n) n (judge_loop inp n s)).target_arrow_count ∧
      (judge (inp.judge_now n) (inp.btn n) n (judge_loop inp n s)).target_arrow_count ≤ _
    by_cases hp : prompted (inp.judge_now n) ((judge_loop inp n s).arrows n) = true
    · simp only [judge_log, hp, if_true, tracked_hits_snoc]
      simp only [hp, true_and] at hj
      push_cast
      split at hj <;> rename_i hc
      · rw [if_pos hc]
        omega
      · rw [if_neg hc]
        omega
    · simp only [judge_log, hp]
      simp only [hp, Bool.false_eq_true, false_and, if_false] at hj
      simp only [Bool.false_eq_true, if_false]
      omega

/-- One tick raises the tracked counter by at most the number of tracked hits
among its judgements, and keeps the tracked direction. -/
theorem tick_tracked (inp : TickInput) (s : DDRState) :
    (tick inp s).target_arrow = s.target_arrow ∧
    s.target_arrow_count ≤ (tick inp s).target_arrow_count ∧
    (tick inp s).target_arrow_count ≤
      s.target_arrow_count +
        (tracked_hits s.target_arrow (judge_log inp s.arrow_count s) : Int) :=
  ⟨(judge_loop_count inp s.arrow_count s).2, judge_loop_tracked inp s s.arrow_count⟩

/-- A run raises the tracked counter by at most the number of tracked hits
among its judgements. -/
theorem run_tracked (ticks : List TickInput) (s : DDRState) :
    s.target_arrow_count ≤ (run_ticks ticks s).target_arrow_count ∧
    (run_ticks ticks s).target_arrow_count ≤
      s.target_arrow_count + (tracked_hits s.target_arrow (run_log ticks s) : Int) := by
  induction ticks generalizing s with
  | nil => simp [run_ticks, run_log, tracked_hits]
  | cons t ts ih =>
    by_cases h0 : s.arrow_count = 0
    · simp [run_ticks, run_log, h0, tracked_hits]
    · simp only [run_ticks, run_log, h0, if_false, tracked_hits_append]
      have h1 := ih (tick t s)
      have h2 := tick_tracked t s
      rw [h2.1] at h1
      push_cast
      omega

/-- The tracked hits of a log are at most the arrows of the tracked
direction among the judged arrows. -/
theorem tracked_hits_le (target : Int) (log : List (ArrowCommand × Int)) :
    tracked_hits target log ≤
      ((log.map Prod.fst).filter (fun a => decide (a.arrow = target))).length := by
  unfold tracked_hits
  rw [List.filter_map, List.length_map]
  apply List.Sublist.length_le
  apply List.monotone_filter_right
  intro e he
  simp only [Bool.and_eq_true, decide_eq_true_eq] at he
  simp [he.2]

/-- A run raises the tracked counter by at most the number of arrows of the
tracked direction in the active set at its start. -/
theorem run_tracked_le_active (ticks : List TickInput) (s : DDRState) :
    (run_ticks ticks s).target_arrow_count ≤
      s.target_arrow_count +
        ((s.active.filter (fun x => decide (x.arrow = s.target_arrow))).length : Int) := by
  have hsub : ((run_log ticks s).map Prod.fst).Subperm s.active :=
    (((List.sublist_append_left _ _).subperm).trans (run_subperm ticks s)).trans
      (List.filter_sublist _).subperm
  have h1 := (run_tracked ticks s).2
  have h2 := tracked_hits_le s.target_arrow (run_log ticks s)
  have h3 := (hsub.filter (fun x => decide (x.arrow = s.target_arrow))).length_le
  omega

/-! ## The scheduling loop -/

/-- Invariant of the scheduling loop started with `arrow_count = 0`: after
`n` iterations there are `min n MAX_ARROWS` arrows, arrow `i` being the one
iteration `i` passed to `add_arrow_command`, and the other variables are
unchanged. -/
theorem schedule_loop_spec (rand : Nat → Nat) (clock : Nat → Int) (s : DDRState)
    (h0 : s.arrow_count = 0) (n : Nat) :
    (schedule_loop rand clock n s).arrow_count = min n MAX_ARROWS ∧
    (schedule_loop rand clock n s).base_delay_ms = s.base_delay_ms ∧
    (schedule_loop rand clock n s).target_arrow = s.target_arrow ∧
    (schedule_loop rand clock n s).target_arrow_count = s.target_arrow_count ∧
    (schedule_loop rand clock n s).score = s.score ∧
    (schedule_loop rand clock n s).combo = s.combo ∧
    (∀ i, i < min n MAX_ARROWS →
      (schedule_loop rand clock n s).arrows i =
        { arrow := (rand i : Int) % 4
          hit_time := clock i + (((s.base_delay_ms * (i + 1)) % 4294967296 : Nat) : Int) * 1000
          hit := false
          counted := false }) ∧
    (∀ i, min n MAX_ARROWS ≤ i → (schedule_loop rand clock n s).arrows i = s.arrows i) := by
  induction n with
  | zero =>
    simp [schedule_loop, h0]
  | succ n ih =>
    obtain ⟨hc, hb, ht, htc, hsc, hco, hlow, hhigh⟩ := ih
    by_cases hn : n < MAX_ARROWS
    · have hcn : (schedule_loop rand clock n s).arrow_count = n := by
        rw [hc]; exact Nat.min_eq_left (Nat.le_of_lt hn)
      have hstep : schedule_loop rand clock (n + 1) s =
          { schedule_loop rand clock n s with
            arrows := Function.update (schedule_loop rand clock n s).arrows n
              { arrow := (rand n : Int) % 4
                hit_time := make_timeout_time_ms (clock n)
                  ((s.base_delay_ms * (n + 1)) % 4294967296)
                hit := false
                counted := false }
            arrow_count := n + 1 } := by
        simp only [schedule_loop, add_arrow_command, hcn, hn, if_true, hb]
      have hmin : min (n + 1) MAX_ARROWS = n + 1 := Nat.min_eq_left hn
      have hminn : min n MAX_ARROWS = n := Nat.min_eq_left (Nat.le_of_lt hn)
      rw [hstep, hmin]
      rw [hminn] at hlow hhigh
      refine ⟨rfl, hb, ht, htc, hsc, hco, ?_, ?_⟩
      · intro i hi
        by_cases hin : i = n
        · subst hin
          simp [make_timeout_time_ms]
        · simp only [Function.update_noteq hin]
          exact hlow i (by omega)
      · intro i hi
        have hin : i ≠ n := by omega
        simp only [Function.update_noteq hin]
        exact hhigh i (by omega)
    · have hcn : ¬ (schedule_loop rand clock n s).arrow_count < MAX_ARROWS := by
        rw [hc]
        have : min n MAX_ARROWS = MAX_ARROWS := Nat.min_eq_right (by omega)
        omega
      have hstep : schedule_loop rand clock (n + 1) s = schedule_loop rand clock n s := by
        simp only [schedule_loop, add_arrow_command, hcn, if_false]
      have hmin : min (n + 1) MAX_ARROWS = min n MAX_ARROWS := by
        rw [Nat.min_eq_right (by omega), Nat.min_eq_right (by omega)]
      rw [hstep, hmin]
      exact ⟨hc, hb, ht, htc, hsc, hco, hlow, hhigh⟩

/-! ## The claims -/

/-- C1 (evaluation at the failing input): in the round `held_button_round`
five UP arrows are scheduled while UP is the tracked direction, each of the
five is judged once, and each judgement is a matching press (`register_hit`
is called five times for a tracked arrow); yet `DDR_v3_game` returns `4`.
The first two hits both happen while `arrow_count = 5`: the first sets
`arrows[5].counted`, and the second finds it set and is not counted. -/
theorem C1_tracked_counter_undercounts :
    (schedule held_button_round (DDR_v3_game_start 'A' DDRState.boot)).active.map
        (fun a => a.arrow) = [1, 1, 1, 1, 1] ∧
    (DDR_v3_game_start 'A' DDRState.boot).target_arrow = 1 ∧
    (run_log held_button_round.ticks
        (schedule held_button_round (DDR_v3_game_start 'A' DDRState.boot))).map
        (fun e => (e.1.hit_time, e.2)) =
      [(1800000, 1), (3600000, 1), (5400000, 1), (7200000, 1), (9000000, 1)] ∧
    tracked_hits 1 (run_log held_button_round.ticks
        (schedule held_button_round (DDR_v3_game_start 'A' DDRState.boot))) = 5 ∧
    DDR_v3_game 'A' held_button_round DDRState.boot = some 4 := by
  decide!

/-- C2: `register_hit` either leaves `target_arrow_count` unchanged or, and
then `arrow_type` equals `target_arrow`, raises it by exactly one.  In any run
of the `while` loop from any state (in particular from the state after
scheduling), the judged arrows are, counted with multiplicity, among the
arrows of the active set that were unjudged at the start, so no arrow is
judged twice; every judged arrow was unjudged when prompted; and the tracked
counter does not decrease and grows by at most the number of judgements that
called `register_hit` for an arrow of the tracked direction, which is at most
the number of arrows of the tracked direction in the active set at the
start.  For a round of `game_loop_scrolling` this bounds the counter at the
exit of the `while` loop by its value at the call plus the number of scheduled
arrows of the tracked direction. -/
theorem C2_tracked_counter_at_most_once (t : Nat) (a : Int) (ticks : List TickInput)
    (inp : RoundInput) (s : DDRState) :
    ((register_hit t a s).target_arrow_count = s.target_arrow_count ∨
      (a = s.target_arrow ∧
        (register_hit t a s).target_arrow_count = s.target_arrow_count + 1)) ∧
    ((run_log ticks s).map Prod.fst).Subperm s.unjudged ∧
    ((run_log ticks s).map Prod.fst).Subperm s.active ∧
    (∀ e, e ∈ run_log ticks s → e.1.hit = false) ∧
    s.target_arrow_count ≤ (run_ticks ticks s).target_arrow_count ∧
    (run_ticks ticks s).target_arrow_count ≤
      s.target_arrow_count + (tracked_hits s.target_arrow (run_log ticks s) : Int) ∧
    tracked_hits s.target_arrow (run_log ticks s) ≤
      (s.active.filter (fun x => decide (x.arrow = s.target_arrow))).length ∧
    (run_ticks inp.ticks (schedule inp s)).target_arrow_count ≤
      s.target_arrow_count +
        (((schedule inp s).active.filter
          (fun x => decide (x.arrow = s.target_arrow))).length : Int) := by
  have hsub : ((run_log ticks s).map Prod.fst).Subperm s.unjudged :=
    ((List.sublist_append_left _ _).subperm).trans (run_subperm ticks s)
  have hact : ((run_log ticks s).map Prod.fst).Subperm s.active :=
    hsub.trans (List.filter_sublist _).subperm
  refine ⟨?_, hsub, hact, ?_, (run_tracked ticks s).1, (run_tracked ticks s).2, ?_, ?_⟩
  · rw [(register_hit_fields t a s).2.2.1]
    by_cases hc : a = s.target_arrow ∧ (s.arrows s.arrow_count).counted = false
    · rw [if_pos hc]
      exact Or.inr ⟨hc.1, rfl⟩
    · rw [if_neg hc]
      exact Or.inl rfl
  · intro e he
    have h1 : e.1 ∈ (run_log ticks s).map Prod.fst := List.mem_map_of_mem _ he
    have h2 : e.1 ∈ s.unjudged := hsub.subset h1
    have h3 := (List.mem_filter.mp h2).2
    simpa using h3
  · refine (tracked_hits_le s.target_arrow (run_log ticks s)).trans ?_
    exact (hact.filter _).length_le
  · have hspec := schedule_loop_spec inp.rand inp.sched_clock
      { s with arrow_count := 0, combo := 0 } rfl s.sequence_length.toNat
    have ht : (schedule inp s).target_arrow = s.target_arrow := hspec.2.2.1
    have hc : (schedule inp s).target_arrow_count = s.target_arrow_count := hspec.2.2.2.1
    have h := run_tracked_le_active inp.ticks (schedule inp s)
    rw [ht, hc] at h
    exact h

/-- C3 (evaluation at the failing input): one arrow with `hit_time = 1000000`
and `combo = 2`, judged with a matching press.  Read 50 ms early
(`now = 950000`, offset `d = 50000`) the press is in the highest tier:
`score = 100 * 3`, `combo = 3`.  Read 50 ms late (`now = 1050000`, offset
`d = -50000`, the same magnitude) the `int32_t` offset converts to the
`uint32_t` value `4294917296`, and the press falls into the lowest tier:
`score = 20`, `combo = 0`. -/
theorem C3_late_press_lowest_tier :
    (judge 950000 1 0 (add_arrow_command 1 1000 0 { DDRState.boot with combo := 2 })).score = 300 ∧
    (judge 950000 1 0 (add_arrow_command 1 1000 0 { DDRState.boot with combo := 2 })).combo = 3 ∧
    toUInt32 (toInt32 (absolute_time_diff_us 1050000 1000000)) = 4294917296 ∧
    (judge 1050000 1 0 (add_arrow_command 1 1000 0 { DDRState.boot with combo := 2 })).score = 20 ∧
    (judge 1050000 1 0 (add_arrow_command 1 1000 0 { DDRState.boot with combo := 2 })).combo = 0 := by
  decide

/-- C4 (counterexample): a call of `register_hit` in the third tier
(`timing_diff_us = 250000`) with `combo = 3` leaves `combo = 0`, not `4`. -/
theorem C4_third_tier_resets_combo :
    (register_hit 250000 1 { DDRState.boot with combo := 3 }).combo = 0 ∧
    (register_hit 250000 1 { DDRState.boot with combo := 3 }).combo ≠
      ({ DDRState.boot with combo := 3 } : DDRState).combo + 1 := by
  decide

/-- C4 (amended): for every call of `register_hit`, in the first two
tiers (`timing_diff_us < 200000`) the combo after the call is the combo
before plus one, and in the third tier (`timing_diff_us >= 200000`) the combo
after the call is `0`. -/
theorem C4_combo_after_register_hit (t : Nat) (a : Int) (s : DDRState) :
    (register_hit t a s).combo = (if t < 200000 then s.combo + 1 else 0) :=
  (register_hit_fields t a s).2.1

/-- C5: when the judgement loop prompts for arrow `i` (it is unjudged and
its `int32_t` offset is below `HIT_WINDOW_MS * 1000`) and
`wait_for_button_press` returns `-1` (the arrow holding a direction `>= 0`) or
a button different from the direction of the arrow, the hit flag of the arrow
is set, `combo` becomes `0`, and `score`, `target_arrow_count`,
`arrow_count`, every other arrow and the other fields of arrow `i` are
unchanged. -/
theorem C5_miss_or_timeout (now btn : Int) (i : Nat) (s : DDRState)
    (hunhit : (s.arrows i).hit = false)
    (hwin : toInt32 (absolute_time_diff_us now (s.arrows i).hit_time) < HIT_WINDOW_MS * 1000)
    (hbtn : (btn = -1 ∧ 0 ≤ (s.arrows i).arrow) ∨ btn ≠ (s.arrows i).arrow) :
    ((judge now btn i s).arrows i).hit = true ∧
    (judge now btn i s).combo = 0 ∧
    (judge now btn i s).score = s.score ∧
    (judge now btn i s).target_arrow_count = s.target_arrow_count ∧
    (judge now btn i s).arrow_count = s.arrow_count ∧
    (judge now btn i s).arrows =
      Function.update s.arrows i { s.arrows i with hit := true } := by
  have hp : prompted now (s.arrows i) = true := by
    simp [prompted, hunhit, hwin]
  have hb : btn ≠ (s.arrows i).arrow := by
    rcases hbtn with ⟨h1, h2⟩ | h
    · intro h
      rw [h1] at h
      omega
    · exact h
  rw [judge_miss now btn i s hp hb]
  simp

/-- C5 (witness): the arrow scheduled for `hit_time = 1000000`, prompted at
`now = 700000`, with the button wait timing out (`-1`). -/
theorem C5_miss_or_timeout_witness :
    ((judge 700000 (-1) 0 (add_arrow_command 1 1000 0 { DDRState.boot with combo := 2 })).arrows 0).hit
        = true ∧
    (judge 700000 (-1) 0 (add_arrow_command 1 1000 0 { DDRState.boot with combo := 2 })).combo = 0 :=
  have h := C5_miss_or_timeout 700000 (-1) 0
    (add_arrow_command 1 1000 0 { DDRState.boot with combo := 2 })
    (by decide) (by decide) (Or.inl (by decide))
  ⟨h.1, h.2.1⟩

/-- C6: for a fixed `timing_diff_us` and two states with combos
`0 <= c1 <= c2`, where `100 * (c2 + 1)` fits in an `int`, the amount
`register_hit` adds to `score` from combo `c1` is at most the amount it adds
from combo `c2`, and both amounts fit in an `int`. -/
theorem C6_gain_monotone_in_combo (t : Nat) (a : Int) (s1 s2 : DDRState)
    (h0 : 0 ≤ s1.combo) (h12 : s1.combo ≤ s2.combo)
    (hfit : 100 * (s2.combo + 1) ≤ 2147483647) :
    (register_hit t a s1).score - s1.score ≤ (register_hit t a s2).score - s2.score ∧
    0 ≤ (register_hit t a s1).score - s1.score ∧
    (register_hit t a s2).score - s2.score ≤ 2147483647 := by
  rw [(register_hit_fields t a s1).1, (register_hit_fields t a s2).1]
  by_cases h1 : t < 100000
  · simp only [h1, if_true]
    omega
  · by_cases h2 : t < 200000
    · simp only [h1, h2, if_true, if_false]
      omega
    · simp only [h1, h2, if_false]
      omega

/-- C6 (witness): the highest tier with combos `1` and `4`: `200 <= 500`. -/
theorem C6_gain_monotone_in_combo_witness :
    (register_hit 50000 1 { DDRState.boot with combo := 1 }).score
        - ({ DDRState.boot with combo := 1 } : DDRState).score ≤
      (register_hit 50000 1 { DDRState.boot with combo := 4 }).score
        - ({ DDRState.boot with combo := 4 } : DDRState).score :=
  (C6_gain_monotone_in_combo 50000 1 { DDRState.boot with combo := 1 }
    { DDRState.boot with combo := 4 } (by decide) (by decide) (by decide)).1

/-- C7: `add_arrow_command` keeps `arrow_count <= MAX_ARROWS` and `spawn`
keeps `Ec <= MAX_E`.  With the count equal to the capacity each leaves the
whole state unchanged.  With the count below the capacity each raises the
count by one, stores the new entity in the slot at the old count (DDR: the
given direction, the timeout time, `hit = false`, `counted = false`; Doom: a
position in `1 .. 126`, size `START_SZ`, `live = 1`), and leaves every other
slot and every other variable unchanged. -/
theorem C7_spawn_within_capacity (arrow : Int) (delay_ms : Nat) (now : Int) (s : DDRState)
    (r1 r2 : Nat) (st : Doom.DoomState)
    (hs : s.arrow_count ≤ MAX_ARROWS) (hst : st.Ec ≤ Doom.MAX_E) :
    (add_arrow_command arrow delay_ms now s).arrow_count ≤ MAX_ARROWS ∧
    (s.arrow_count = MAX_ARROWS → add_arrow_command arrow delay_ms now s = s) ∧
    (s.arrow_count < MAX_ARROWS →
      (add_arrow_command arrow delay_ms now s).arrow_count = s.arrow_count + 1 ∧
      (add_arrow_command arrow delay_ms now s).arrows s.arrow_count =
        { arrow := arrow, hit_time := now + (delay_ms : Int) * 1000,
          hit := false, counted := false } ∧
      (∀ i, i ≠ s.arrow_count →
        (add_arrow_command arrow delay_ms now s).arrows i = s.arrows i) ∧
      add_arrow_command arrow delay_ms now s =
        { s with arrows := (add_arrow_command arrow delay_ms now s).arrows
                 arrow_count := s.arrow_count + 1 }) ∧
    (Doom.spawn r1 r2 st).Ec ≤ Doom.MAX_E ∧
    (st.Ec = Doom.MAX_E → Doom.spawn r1 r2 st = st) ∧
    (st.Ec < Doom.MAX_E →
      (Doom.spawn r1 r2 st).Ec = st.Ec + 1 ∧
      ((Doom.spawn r1 r2 st).E st.Ec).s = Doom.START_SZ ∧
      ((Doom.spawn r1 r2 st).E st.Ec).live = 1 ∧
      ((Doom.spawn r1 r2 st).E st.Ec).x = (r1 : Int) % 126 + 1 ∧
      ((Doom.spawn r1 r2 st).E st.Ec).k =
        (if r2 % 2 = 1 then Doom.shape_t.SQUARE else Doom.shape_t.CIRCLE) ∧
      (∀ i, i ≠ st.Ec → (Doom.spawn r1 r2 st).E i = st.E i) ∧
      Doom.spawn r1 r2 st =
        { st with E := (Doom.spawn r1 r2 st).E, Ec := st.Ec + 1 }) := by
  have htr : Doom.truncToInt Doom.START_SZ = 1 := by decide
  refine ⟨?_, ?_, ?_, ?_, ?_, ?_⟩
  · unfold add_arrow_command
    split
    · show s.arrow_count + 1 ≤ MAX_ARROWS
      omega
    · exact hs
  · intro h
    unfold add_arrow_command
    rw [if_neg (by omega)]
  · intro h
    unfold add_arrow_command
    rw [if_pos h]
    refine ⟨rfl, ?_, ?_, rfl⟩
    · simp [make_timeout_time_ms]
    · intro i hi
      simp [Function.update_noteq hi]
  · unfold Doom.spawn
    split
    · show st.Ec + 1 ≤ Doom.MAX_E
      omega
    · exact hst
  · intro h
    unfold Doom.spawn
    rw [if_neg (by omega)]
  · intro h
    unfold Doom.spawn
    rw [if_pos h]
    refine ⟨rfl, ?_, ?_, ?_, ?_, ?_, rfl⟩
    · simp
    · simp
    · simp [htr, Doom.W]
    · simp
    · intro i hi
      simp [Function.update_noteq hi]

/-- C7 (witness): the first `add_arrow_command` after boot and the first
`spawn` of a round. -/
theorem C7_spawn_within_capacity_witness :
    DDRState.boot.arrow_count ≤ MAX_ARROWS ∧
    (Doom.DoomState.round_start 2048 2048).Ec ≤ Doom.MAX_E ∧
    (add_arrow_command 1 2000 0 DDRState.boot).arrow_count ≤ MAX_ARROWS ∧
    (Doom.spawn 7 1 (Doom.DoomState.round_start 2048 2048)).Ec ≤ Doom.MAX_E :=
  have h := C7_spawn_within_capacity 1 2000 0 DDRState.boot 7 1
    (Doom.DoomState.round_start 2048 2048) (by decide) (by decide)
  ⟨by decide, by decide, h.1, h.2.2.2.1⟩

/-- C8: the removal pass keeps, in their original order, exactly the arrows
whose clock reading `now` gives `now - hit_time < HIT_WINDOW_MS * 1000` (the
loop reads the clock once per arrow; `hnow` says that the readings of the pass
all equal `now`).  Hence an arrow with `hit_time + 400000 <= now` is not in
the active set afterwards, whatever its hit flag; `arrow_count` does not
increase; and the same holds for the removal pass of a whole tick, whatever
the buttons returned. -/
theorem C8_removal_pass (inp : TickInput) (s : DDRState) (now : Int)
    (hnow : ∀ i, i < s.arrow_count → inp.remove_now i = now) :
    (removal_pass inp s).active =
      s.active.filter (fun a => decide (now - a.hit_time < HIT_WINDOW_MS * 1000)) ∧
    (∀ a, a ∈ s.active → a.hit_time + 400000 ≤ now → a ∉ (removal_pass inp s).active) ∧
    (removal_pass inp s).arrow_count ≤ s.arrow_count ∧
    (tick inp s).active =
      (judge_pass inp s).active.filter
        (fun a => decide (now - a.hit_time < HIT_WINDOW_MS * 1000)) ∧
    (tick inp s).arrow_count ≤ s.arrow_count := by
  have key : ∀ s1 : DDRState, s1.arrow_count = s.arrow_count →
      (removal_pass inp s1).active =
        s1.active.filter (fun a => decide (now - a.hit_time < HIT_WINDOW_MS * 1000)) := by
    intro s1 h1
    rw [removal_pass_active, DDRState.active, List.filter_map]
    congr 1
    apply List.filter_congr
    intro i hi
    have hi1 : i < s.arrow_count := by
      have := List.mem_range.mp hi
      omega
    simp [absolute_time_diff_us, hnow i hi1]
  have hcount : (judge_pass inp s).arrow_count = s.arrow_count :=
    (judge_loop_count inp s.arrow_count s).1
  refine ⟨key s rfl, ?_, (remove_loop_spec inp.remove_now s.arrows s.arrow_count).1, ?_, ?_⟩
  · intro a _ hlate hmem
    rw [key s rfl] at hmem
    have h := (List.mem_filter.mp hmem).2
    simp only [decide_eq_true_eq, HIT_WINDOW_MS] at h
    omega
  · exact key (judge_pass inp s) hcount
  · have h := (remove_loop_spec inp.remove_now (judge_pass inp s).arrows
      (judge_pass inp s).arrow_count).1
    have h2 : (tick inp s).arrow_count =
        (remove_loop inp.remove_now (judge_pass inp s).arrows
          (judge_pass inp s).arrow_count).2 := rfl
    omega

/-- C8 (witness): two arrows due at 2 s and 4 s, removal pass at 3 s: the
first is dropped, the second kept. -/
theorem C8_removal_pass_witness :
    (removal_pass { judge_now := fun _ => 3000000, btn := fun _ => -1,
                    remove_now := fun _ => 3000000 }
        (add_arrow_command 1 4000 0 (add_arrow_command 2 2000 0 DDRState.boot))).active =
      (add_arrow_command 1 4000 0 (add_arrow_command 2 2000 0 DDRState.boot)).active.filter
        (fun a => decide (3000000 - a.hit_time < HIT_WINDOW_MS * 1000)) ∧
    (removal_pass { judge_now := fun _ => 3000000, btn := fun _ => -1,
                    remove_now := fun _ => 3000000 }
        (add_arrow_command 1 4000 0 (add_arrow_command 2 2000 0 DDRState.boot))).arrow_count ≤
      (add_arrow_command 1 4000 0 (add_arrow_command 2 2000 0 DDRState.boot)).arrow_count :=
  have h := C8_removal_pass { judge_now := fun _ => 3000000, btn := fun _ => -1,
                              remove_now := fun _ => 3000000 }
    (add_arrow_command 1 4000 0 (add_arrow_command 2 2000 0 DDRState.boot)) 3000000
    (fun _ _ => rfl)
  ⟨h.1, h.2.2.1⟩

/-- C10 (evaluation at the failing input): for `round = 11` the `int` value
`2000 - 11 * 200 = -200` converts to the `uint32_t` value `4294967096`, which
is not below `1000`, so `update_difficulty 11` stores a delay of `4294967096`
milliseconds: above `2000` and not `max 1000 (2000 - 200 * 11) = 1000`. -/
theorem C10_update_difficulty_wraps :
    (update_difficulty 11 DDRState.boot).base_delay_ms = 4294967096 ∧
    (update_difficulty 10 DDRState.boot).base_delay_ms = 1000 ∧
    ¬ (update_difficulty 11 DDRState.boot).base_delay_ms ≤ 2000 := by
  decide

end DDR

namespace Doom

/-! ## Growth and collision -/

/-- Invariant of the loop of `update()` after `n` iterations: exactly the live
enemies among the first `n` have grown by `GROWTH`, nothing else has changed,
and `col` is `1` exactly when one of them reached `COLL_SZ`. -/
theorem update_loop_spec (st : DoomState) (n : Nat) :
    (update_loop n st).1 = { st with E := (update_loop n st).1.E } ∧
    (∀ i, (update_loop n st).1.E i =
      (if i < n ∧ (st.E i).live ≠ 0 then { st.E i with s := (st.E i).s + GROWTH }
       else st.E i)) ∧
    ((update_loop n st).2 = 1 ↔
      ∃ i, i < n ∧ (st.E i).live ≠ 0 ∧ COLL_SZ ≤ (st.E i).s + GROWTH) ∧
    ((update_loop n st).2 = 0 ∨ (update_loop n st).2 = 1) := by
  induction n with
  | zero => simp [update_loop]
  | succ n ih =>
    obtain ⟨hrec, hE, hcol, h01⟩ := ih
    have hEn : (update_loop n st).1.E n = st.E n := by
      rw [hE n]; simp
    by_cases hl : (st.E n).live ≠ 0
    · by_cases hc : COLL_SZ ≤ (st.E n).s + GROWTH
      · have hstep : update_loop (n + 1) st =
            ({ (update_loop n st).1 with
                E := Function.update (update_loop n st).1.E n
                  { st.E n with s := (st.E n).s + GROWTH } }, 1) := by
          simp only [update_loop, hEn, hl, ne_eq, not_false_eq_true, if_true, ge_iff_le, hc]
        rw [hstep]
        refine ⟨?_, ?_, ?_, Or.inr rfl⟩
        · rw [hrec]
        · intro i
          by_cases hin : i = n
          · subst hin
            simp [hl]
          · simp only [Function.update_noteq hin, hE i]
            have h1 : (i < n + 1) = (i < n) := by
              apply propext; constructor <;> intro h <;> omega
            simp only [h1]
        · simp only [true_iff]
          exact ⟨n, Nat.lt_succ_self n, hl, hc⟩
      · have hstep : update_loop (n + 1) st =
            ({ (update_loop n st).1 with
                E := Function.update (update_loop n st).1.E n
                  { st.E n with s := (st.E n).s + GROWTH } }, (update_loop n st).2) := by
          simp only [update_loop, hEn, hl, ne_eq, not_false_eq_true, if_true, ge_iff_le, hc,
            if_false]
        rw [hstep]
        refine ⟨?_, ?_, ?_, h01⟩
        · rw [hrec]
        · intro i
          by_cases hin : i = n
          · subst hin
            simp [hl]
          · simp only [Function.update_noteq hin, hE i]
            have h1 : (i < n + 1) = (i < n) := by
              apply propext; constructor <;> intro h <;> omega
            simp only [h1]
        · show (update_loop n st).2 = 1 ↔ _
          rw [hcol]
          constructor
          · rintro ⟨i, hi, h1, h2⟩
            exact ⟨i, by omega, h1, h2⟩
          · rintro ⟨i, hi, h1, h2⟩
            have hne : i ≠ n := by
              intro h; subst h; exact hc h2
            exact ⟨i, by omega, h1, h2⟩
    · have hstep : update_loop (n + 1) st = update_loop n st := by
        simp only [update_loop, hEn, hl, if_false]
      rw [hstep]
      refine ⟨hrec, ?_, ?_, h01⟩
      · intro i
        rw [hE i]
        by_cases hin : i = n
        · subst hin
          simp [hl]
        · have h1 : (i < n + 1) = (i < n) := by
            apply propext; constructor <;> intro h <;> omega
          simp only [h1]
      · rw [hcol]
        constructor
        · rintro ⟨i, hi, h1, h2⟩
          exact ⟨i, by omega, h1, h2⟩
        · rintro ⟨i, hi, h1, h2⟩
          have hne : i ≠ n := by
            intro h; subst h; exact hl h1
          exact ⟨i, by omega, h1, h2⟩

/-! ## Shooting -/

/-- The loop of `shoot()` from index `i` with `n` iterations left: if no live
enemy in `i .. i + n - 1` passes its test the state is unchanged; otherwise
the first one that does has its `live` flag cleared and nothing else
changes. -/
theorem shoot_loop_spec (st : DoomState) (n i : Nat) :
    ((∀ j, i ≤ j → j < i + n →
        ¬ ((st.E j).live ≠ 0 ∧ hit_test (st.E j) st.cross_x st.cross_y = true)) →
      shoot_loop st n i = st) ∧
    (∀ k, i ≤ k → k < i + n →
      ((st.E k).live ≠ 0 ∧ hit_test (st.E k) st.cross_x st.cross_y = true) →
      (∀ j, i ≤ j → j < k →
        ¬ ((st.E j).live ≠ 0 ∧ hit_test (st.E j) st.cross_x st.cross_y = true)) →
      shoot_loop st n i =
        { st with E := Function.update st.E k { st.E k with live := 0 } }) := by
  induction n generalizing i with
  | zero =>
    refine ⟨fun _ => rfl, ?_⟩
    intro k h1 h2
    omega
  | succ n ih =>
    obtain ⟨ih1, ih2⟩ := ih (i + 1)
    constructor
    · intro hnone
      have hi := hnone i (Nat.le_refl i) (by omega)
      have hrest : shoot_loop st n (i + 1) = st :=
        ih1 (fun j h1 h2 => hnone j (by omega) (by omega))
      by_cases hl : (st.E i).live = 0
      · simp only [shoot_loop, hl, if_true, hrest]
      · have hh : hit_test (st.E i) st.cross_x st.cross_y = false := by
          by_contra hcon
          exact hi ⟨hl, by simpa using hcon⟩
        simp only [shoot_loop, hl, if_false, hh, Bool.false_eq_true, hrest]
    · intro k hk1 hk2 hP hfirst
      by_cases hik : k = i
      · subst hik
        simp only [shoot_loop, hP.1, if_false, hP.2, if_true]
      · have hi := hfirst i (Nat.le_refl i) (by omega)
        have hrest := ih2 k (by omega) (by omega) hP
          (fun j h1 h2 => hfirst j (by omega) h2)
        by_cases hl : (st.E i).live = 0
        · simp only [shoot_loop, hl, if_true, hrest]
        · have hh : hit_test (st.E i) st.cross_x st.cross_y = false := by
            by_contra hcon
            exact hi ⟨hl, by simpa using hcon⟩
          simp only [shoot_loop, hl, if_false, hh, Bool.false_eq_true, hrest]

/-- The call `shoot()` either changes nothing or clears the `live` flag of
one live enemy below `Ec` and changes nothing else. -/
theorem shoot_cases (st : DoomState) :
    shoot st = st ∨
    ∃ k, k < st.Ec ∧ (st.E k).live ≠ 0 ∧
      shoot st = { st with E := Function.update st.E k { st.E k with live := 0 } } := by
  by_cases h : ∃ k, k < st.Ec ∧
      ((st.E k).live ≠ 0 ∧ hit_test (st.E k) st.cross_x st.cross_y = true)
  · right
    classical
    let k := Nat.find h
    have hk : k < st.Ec ∧
        ((st.E k).live ≠ 0 ∧ hit_test (st.E k) st.cross_x st.cross_y = true) := Nat.find_spec h
    refine ⟨k, hk.1, hk.2.1, ?_⟩
    apply (shoot_loop_spec st st.Ec 0).2 k (Nat.zero_le k) (by omega) hk.2
    intro j _ hjk hP
    exact Nat.find_min h hjk ⟨by omega, hP⟩
  · left
    apply (shoot_loop_spec st st.Ec 0).1
    intro j _ hj hP
    exact h ⟨j, by omega, hP⟩

/-! ## An enemy over a sequence of calls -/

/-- One call of the round loop on a state in which enemy `k` is live and
stays live: the enemy is still below `Ec`, and it is unchanged except that
`update()` adds `GROWTH` to its size. -/
theorem apply_slot (op : DoomOp) (st : DoomState) (k : Nat) (hk : k < st.Ec)
    (hl0 : (st.E k).live ≠ 0) (hl1 : ((op.apply st).E k).live ≠ 0) :
    k < (op.apply st).Ec ∧
    (op.apply st).E k =
      { st.E k with s := (st.E k).s + (count_updates [op] : ℚ) * GROWTH } := by
  cases op with
  | spawn r1 r2 =>
    simp only [DoomOp.apply, count_updates, Nat.cast_zero, zero_mul, add_zero]
    unfold spawn
    split
    · refine ⟨by show k < st.Ec + 1; omega, ?_⟩
      have hne : k ≠ st.Ec := by omega
      simp [Function.update_noteq hne]
    · exact ⟨hk, rfl⟩
  | shoot =>
    simp only [DoomOp.apply, count_updates, Nat.cast_zero, zero_mul, add_zero] at hl1 ⊢
    rcases shoot_cases st with h | ⟨i, hi, _, h⟩
    · rw [h]
      exact ⟨hk, rfl⟩
    · rw [h] at hl1 ⊢
      have hne : k ≠ i := by
        intro hki
        subst hki
        simp at hl1
      refine ⟨hk, ?_⟩
      simp [Function.update_noteq hne]
  | update =>
    simp only [DoomOp.apply, count_updates, Nat.cast_one, one_mul, Nat.cast_zero, zero_add]
    have hspec := update_loop_spec st st.Ec
    refine ⟨?_, ?_⟩
    · show k < (update_loop st.Ec st).1.Ec
      rw [hspec.1]
      exact hk
    · show (update_loop st.Ec st).1.E k = _
      rw [hspec.2.1 k]
      simp [hk, hl0]
  | update_crosshair x y =>
    simp only [DoomOp.apply, count_updates, Nat.cast_zero, zero_mul, add_zero]
    exact ⟨hk, rfl⟩

/-- The number of `update()` calls in a sequence starting with `op`. -/
theorem count_updates_cons (op : DoomOp) (ops : List DoomOp) :
    count_updates (op :: ops) = count_updates [op] + count_updates ops := by
  cases op <;> simp [count_updates, Nat.add_comm]

/-- A sequence of calls during which enemy `k` stays live: the enemy is
unchanged except that its size has grown by `GROWTH` once per `update()`
call. -/
theorem exec_slot (ops : List DoomOp) (st : DoomState) (k : Nat) (hk : k < st.Ec)
    (hlive : ∀ m, m ≤ ops.length → ((exec (ops.take m) st).E k).live ≠ 0) :
    k < (exec ops st).Ec ∧
    (exec ops st).E k =
      { st.E k with s := (st.E k).s + (count_updates ops : ℚ) * GROWTH } := by
  induction ops generalizing st with
  | nil =>
    simp [exec, count_updates, hk]
  | cons op ops ih =>
    have hl0 : (st.E k).live ≠ 0 := by
      have := hlive 0 (Nat.zero_le _)
      simpa [exec] using this
    have hl1 : ((op.apply st).E k).live ≠ 0 := by
      have := hlive 1 (by simp)
      simpa [exec] using this
    obtain ⟨hk1, hE1⟩ := apply_slot op st k hk hl0 hl1
    have hrest := ih (op.apply st) hk1 (by
      intro m hm
      have := hlive (m + 1) (by simp; omega)
      simpa [exec] using this)
    refine ⟨hrest.1, ?_⟩
    show (exec ops (op.apply st)).E k = _
    have hc := count_updates_cons op ops
    rw [hrest.2, hE1, hc]
    simp only [Nat.cast_add]
    congr 1
    ring

/-! ## The crosshair -/

/-- Truncation toward zero of a non-negative rational is its floor. -/
theorem truncToInt_of_nonneg (q : ℚ) (h : 0 ≤ q) : truncToInt q = ⌊q⌋ := by
  unfold truncToInt
  rw [Rat.floor_def]
  exact Int.tdiv_eq_ediv (Rat.num_nonneg.mpr h) (Int.ofNat_nonneg _)

/-- Truncation toward zero commutes with negation. -/
theorem truncToInt_neg (q : ℚ) : truncToInt (-q) = -truncToInt q := by
  unfold truncToInt
  simp [Int.neg_tdiv]

/-- A rational strictly between `-1` and `1` truncates to `0`. -/
theorem truncToInt_eq_zero (q : ℚ) (h1 : -1 < q) (h2 : q < 1) : truncToInt q = 0 := by
  by_cases h : 0 ≤ q
  · rw [truncToInt_of_nonneg q h]
    exact Int.floor_eq_zero_iff.mpr ⟨h, h2⟩
  · have hn : 0 ≤ -q := by linarith
    have h3 : truncToInt (-q) = 0 := by
      rw [truncToInt_of_nonneg (-q) hn]
      exact Int.floor_eq_zero_iff.mpr ⟨hn, by linarith⟩
    rw [truncToInt_neg] at h3
    omega

/-- A rational at most `-1` truncates to an integer at most `-1`. -/
theorem truncToInt_le_neg_one (q : ℚ) (h : q ≤ -1) : truncToInt q ≤ -1 := by
  have hn : 0 ≤ -q := by linarith
  have h3 : (1 : Int) ≤ truncToInt (-q) := by
    rw [truncToInt_of_nonneg (-q) hn]
    exact Int.le_floor.mpr (by push_cast; linarith)
  rw [truncToInt_neg] at h3
  omega

/-- The crosshair after `update_crosshair()`: the clamped sum, and always
inside `4 .. W - 5` by `4 .. H - 5`; the other variables are unchanged. -/
theorem update_crosshair_bounds (x y : Nat) (st : DoomState) :
    4 ≤ (update_crosshair x y st).cross_x ∧ (update_crosshair x y st).cross_x ≤ 123 ∧
    4 ≤ (update_crosshair x y st).cross_y ∧ (update_crosshair x y st).cross_y ≤ 59 ∧
    (update_crosshair x y st).E = st.E ∧ (update_crosshair x y st).Ec = st.Ec ∧
    (update_crosshair x y st).center_x_raw = st.center_x_raw ∧
    (update_crosshair x y st).center_y_raw = st.center_y_raw := by
  refine ⟨?_, ?_, ?_, ?_, rfl, rfl, rfl, rfl⟩
  · exact le_max_left _ _
  · exact max_le (by norm_num) (min_le_left _ _)
  · exact le_max_left _ _
  · exact max_le (by norm_num) (min_le_left _ _)

/-- The new coordinates computed by `update_crosshair()`. -/
theorem update_crosshair_coords (x y : Nat) (st : DoomState) :
    (update_crosshair x y st).cross_x =
      max 4 (min 123 (st.cross_x +
        truncToInt (max (-1) (min 1 (((x : ℚ) - (st.center_x_raw : ℚ)) / 2048)) * 12))) ∧
    (update_crosshair x y st).cross_y =
      max 4 (min 59 (st.cross_y +
        truncToInt (max (-1) (min 1 (((y : ℚ) - (st.center_y_raw : ℚ)) / 2048)) * 12))) := by
  simp only [update_crosshair, W, H, JOY_SPEED]
  exact ⟨rfl, rfl⟩

/-- Inside the dead zone the step is zero: a sample within `170` of the
centre gives `trunc(12 * clamp((raw - c) / 2048)) = 0`. -/
theorem step_dead_zone (raw c : Nat) (h : |(raw : Int) - (c : Int)| ≤ 170) :
    truncToInt (max (-1) (min 1 (((raw : ℚ) - (c : ℚ)) / 2048)) * 12) = 0 := by
  have hq : |(raw : ℚ) - (c : ℚ)| ≤ 170 := by
    have : ((|(raw : Int) - (c : Int)| : Int) : ℚ) ≤ 170 := by exact_mod_cast h
    simpa using this
  obtain ⟨hlo, hhi⟩ := abs_le.mp hq
  have h1 : -1 ≤ ((raw : ℚ) - (c : ℚ)) / 2048 := by
    rw [le_div_iff₀ (by norm_num)]; linarith
  have h2 : ((raw : ℚ) - (c : ℚ)) / 2048 ≤ 1 := by
    rw [div_le_iff₀ (by norm_num)]; linarith
  rw [min_eq_right h2, max_eq_right h1]
  apply truncToInt_eq_zero
  · have : -(1 : ℚ) / 12 < ((raw : ℚ) - (c : ℚ)) / 2048 := by
      rw [lt_div_iff₀ (by norm_num)]; linarith
    linarith
  · have : ((raw : ℚ) - (c : ℚ)) / 2048 < 1 / 12 := by
      rw [div_lt_iff₀ (by norm_num)]; linarith
    linarith

/-- With the minimum sample `0` and a centre of at least `171` the step is at
most `-1`. -/
theorem step_min_sample (c : Nat) (h : 171 ≤ c) :
    truncToInt (max (-1) (min 1 ((((0 : Nat) : ℚ) - (c : ℚ)) / 2048)) * 12) ≤ -1 := by
  have hc : (171 : ℚ) ≤ (c : ℚ) := by exact_mod_cast h
  have h2 : (((0 : Nat) : ℚ) - (c : ℚ)) / 2048 ≤ -171 / 2048 := by
    rw [div_le_iff₀ (by norm_num)]; push_cast; linarith
  have h3 : min 1 ((((0 : Nat) : ℚ) - (c : ℚ)) / 2048) ≤ -171 / 2048 :=
    le_trans (min_le_right _ _) h2
  have h4 : max (-1) (min 1 ((((0 : Nat) : ℚ) - (c : ℚ)) / 2048)) ≤ -171 / 2048 :=
    max_le (by norm_num) h3
  apply truncToInt_le_neg_one
  linarith

/-- Every call of the round loop keeps the crosshair inside `4 .. 123` by
`4 .. 59` and keeps the calibrated centre. -/
theorem apply_cross (op : DoomOp) (st : DoomState)
    (h : 4 ≤ st.cross_x ∧ st.cross_x ≤ 123 ∧ 4 ≤ st.cross_y ∧ st.cross_y ≤ 59) :
    4 ≤ (op.apply st).cross_x ∧ (op.apply st).cross_x ≤ 123 ∧
    4 ≤ (op.apply st).cross_y ∧ (op.apply st).cross_y ≤ 59 := by
  cases op with
  | spawn r1 r2 =>
    simp only [DoomOp.apply]
    unfold spawn
    split
    · exact h
    · exact h
  | shoot =>
    simp only [DoomOp.apply]
    rcases shoot_cases st with hs | ⟨i, _, _, hs⟩
    · rw [hs]; exact h
    · rw [hs]; exact h
  | update =>
    simp only [DoomOp.apply]
    have hspec := (update_loop_spec st st.Ec).1
    show 4 ≤ (update_loop st.Ec st).1.cross_x ∧ (update_loop st.Ec st).1.cross_x ≤ 123 ∧
      4 ≤ (update_loop st.Ec st).1.cross_y ∧ (update_loop st.Ec st).1.cross_y ≤ 59
    rw [hspec]
    exact h
  | update_crosshair x y =>
    simp only [DoomOp.apply]
    have hb := update_crosshair_bounds x y st
    exact ⟨hb.1, hb.2.1, hb.2.2.1, hb.2.2.2.1⟩

/-- A sequence of calls of the round loop keeps the crosshair inside
`4 .. 123` by `4 .. 59`. -/
theorem exec_cross (ops : List DoomOp) (st : DoomState)
    (h : 4 ≤ st.cross_x ∧ st.cross_x ≤ 123 ∧ 4 ≤ st.cross_y ∧ st.cross_y ≤ 59) :
    4 ≤ (exec ops st).cross_x ∧ (exec ops st).cross_x ≤ 123 ∧
    4 ≤ (exec ops st).cross_y ∧ (exec ops st).cross_y ≤ 59 := by
  induction ops generalizing st with
  | nil => exact h
  | cons op ops ih => exact ih (op.apply st) (apply_cross op st h)

/-- Samples that all lie inside the dead zone of an axis leave the in-bounds
coordinate of that axis where it is, however many calls are made. -/
theorem crosshair_run_dead_zone (samples : List (Nat × Nat)) (st : DoomState) :
    ((∀ p, p ∈ samples → |(p.1 : Int) - (st.center_x_raw : Int)| ≤ 170) →
      4 ≤ st.cross_x → st.cross_x ≤ 123 →
      (crosshair_run samples st).cross_x = st.cross_x) ∧
    ((∀ p, p ∈ samples → |(p.2 : Int) - (st.center_y_raw : Int)| ≤ 170) →
      4 ≤ st.cross_y → st.cross_y ≤ 59 →
      (crosshair_run samples st).cross_y = st.cross_y) := by
  induction samples generalizing st with
  | nil => exact ⟨fun _ _ _ => rfl, fun _ _ _ => rfl⟩
  | cons p ps ih =>
    have hb := update_crosshair_bounds p.1 p.2 st
    have hc := update_crosshair_coords p.1 p.2 st
    obtain ⟨ihx, ihy⟩ := ih (update_crosshair p.1 p.2 st)
    constructor
    · intro hall h1 h2
      have hstep := step_dead_zone p.1 st.center_x_raw (hall p (List.mem_cons_self p ps))
      have h0 : (update_crosshair p.1 p.2 st).cross_x = st.cross_x := by
        rw [hc.1, hstep]
        omega
      show (crosshair_run ps (update_crosshair p.1 p.2 st)).cross_x = st.cross_x
      rw [ihx (by
        intro q hq
        rw [hb.2.2.2.2.2.2.1]
        exact hall q (List.mem_cons_of_mem p hq)) (by omega) (by omega)]
      exact h0
    · intro hall h1 h2
      have hstep := step_dead_zone p.2 st.center_y_raw (hall p (List.mem_cons_self p ps))
      have h0 : (update_crosshair p.1 p.2 st).cross_y = st.cross_y := by
        rw [hc.2, hstep]
        omega
      show (crosshair_run ps (update_crosshair p.1 p.2 st)).cross_y = st.cross_y
      rw [ihy (by
        intro q hq
        rw [hb.2.2.2.2.2.2.2]
        exact hall q (List.mem_cons_of_mem p hq)) (by omega) (by omega)]
      exact h0

/-- With the minimum sample on an axis and a centre of at least `171`, each
call lowers the coordinate of that axis by at least one until it is `4`. -/
theorem crosshair_run_min_sample (samples : List (Nat × Nat)) (st : DoomState) :
    (171 ≤ st.center_x_raw → (∀ p, p ∈ samples → p.1 = 0) → 4 ≤ st.cross_x →
      4 ≤ (crosshair_run samples st).cross_x ∧
      (crosshair_run samples st).cross_x ≤ max 4 (st.cross_x - (samples.length : Int))) ∧
    (171 ≤ st.center_y_raw → (∀ p, p ∈ samples → p.2 = 0) → 4 ≤ st.cross_y →
      4 ≤ (crosshair_run samples st).cross_y ∧
      (crosshair_run samples st).cross_y ≤ max 4 (st.cross_y - (samples.length : Int))) := by
  induction samples generalizing st with
  | nil =>
    refine ⟨fun _ _ h => ⟨h, ?_⟩, fun _ _ h => ⟨h, ?_⟩⟩
    · simp [crosshair_run]
    · simp [crosshair_run]
  | cons p ps ih =>
    have hb := update_crosshair_bounds p.1 p.2 st
    have hc := update_crosshair_coords p.1 p.2 st
    obtain ⟨ihx, ihy⟩ := ih (update_crosshair p.1 p.2 st)
    constructor
    · intro hcen hall h1
      have hp : p.1 = 0 := hall p (List.mem_cons_self p ps)
      have hstep := step_min_sample st.center_x_raw hcen
      rw [hp] at hc
      have h0 : (update_crosshair p.1 p.2 st).cross_x ≤ max 4 (st.cross_x - 1) := by
        rw [hp, hc.1]
        omega
      have hrec := ihx (by rw [hb.2.2.2.2.2.2.1]; exact hcen)
        (fun q hq => hall q (List.mem_cons_of_mem p hq)) hb.1
      show 4 ≤ (crosshair_run ps (update_crosshair p.1 p.2 st)).cross_x ∧
        (crosshair_run ps (update_crosshair p.1 p.2 st)).cross_x ≤ _
      refine ⟨hrec.1, ?_⟩
      have hlen : ((p :: ps).length : Int) = (ps.length : Int) + 1 := by simp
      rw [hlen]
      omega
    · intro hcen hall h1
      have hp : p.2 = 0 := hall p (List.mem_cons_self p ps)
      have hstep := step_min_sample st.center_y_raw hcen
      rw [hp] at hc
      have h0 : (update_crosshair p.1 p.2 st).cross_y ≤ max 4 (st.cross_y - 1) := by
        rw [hp, hc.2]
        omega
      have hrec := ihy (by rw [hb.2.2.2.2.2.2.2]; exact hcen)
        (fun q hq => hall q (List.mem_cons_of_mem p hq)) hb.2.2.1
      show 4 ≤ (crosshair_run ps (update_crosshair p.1 p.2 st)).cross_y ∧
        (crosshair_run ps (update_crosshair p.1 p.2 st)).cross_y ≤ _
      refine ⟨hrec.1, ?_⟩
      have hlen : ((p :: ps).length : Int) = (ps.length : Int) + 1 := by simp
      rw [hlen]
      omega

/-! ## The framebuffer -/

/-- Bits of a byte after `b | m` with `m = 1 << k`. -/
theorem testBit_set (a k j : Nat) :
    (a ||| 1 <<< k).testBit j = (a.testBit j || decide (k = j)) := by
  rw [Nat.testBit_or, Nat.one_shiftLeft, Nat.testBit_two_pow]

/-- Bits of a byte after `b & ~m` with `m = 1 << k`. -/
theorem testBit_clear (a k j : Nat) (ha : a < 256) :
    (a &&& (255 ^^^ 1 <<< k)).testBit j = (a.testBit j && !decide (k = j)) := by
  rw [Nat.testBit_and, Nat.testBit_xor, Nat.one_shiftLeft, Nat.testBit_two_pow]
  by_cases hj : j < 8
  · have h255 : Nat.testBit 255 j = true := by
      have := Nat.testBit_two_pow_sub_one 8 j
      simpa [hj] using this
    rw [h255]
    cases decide (k = j) <;> simp
  · have hlt : a < 2 ^ j := by
      have : 2 ^ 8 ≤ 2 ^ j := Nat.pow_le_pow_right (by decide) (by omega)
      omega
    rw [Nat.testBit_lt_two_pow hlt]
    simp

/-- Inside the display `px` rewrites exactly one byte. -/
theorem px_in_bounds (x y on_ : Int) (fb : Nat → Nat)
    (hx0 : 0 ≤ x) (hx1 : x < W) (hy0 : 0 ≤ y) (hy1 : y < H) :
    px x y on_ fb =
      Function.update fb ((y.toNat >>> 3) * 128 + x.toNat)
        (if on_ ≠ 0 then fb ((y.toNat >>> 3) * 128 + x.toNat) ||| 1 <<< (y.toNat &&& 7)
         else fb ((y.toNat >>> 3) * 128 + x.toNat) &&& (255 ^^^ 1 <<< (y.toNat &&& 7))) := by
  have hW : W = 128 := rfl
  have hH : H = 64 := rfl
  rw [hW] at hx1
  rw [hH] at hy1
  have h1 : x % 4294967296 = x := Int.emod_eq_of_lt hx0 (by omega)
  have h2 : y % 4294967296 = y := Int.emod_eq_of_lt hy0 (by omega)
  unfold px
  rw [h1, h2, hW, hH, if_neg (by omega)]
  rfl

/-- Outside the display `px` changes nothing. -/
theorem px_out_of_bounds (x y on_ : Int) (fb : Nat → Nat)
    (hx : -2147483648 ≤ x ∧ x < 2147483648) (hy : -2147483648 ≤ y ∧ y < 2147483648)
    (hout : x < 0 ∨ W ≤ x ∨ y < 0 ∨ H ≤ y) : px x y on_ fb = fb := by
  have hW : W = 128 := rfl
  have hH : H = 64 := rfl
  rw [hW, hH] at hout
  unfold px
  rw [hW, hH, if_pos]
  omega

/-! ## The claims on the shooter -/

/-- C11: `update()` adds `GROWTH` to the size of every live enemy below
`Ec` and changes nothing else: enemies with `live = 0`, slots from `Ec` on
and all other variables are unchanged.  It returns `1` if and only if some
live enemy below `Ec` has a size after the increment `>= COLL_SZ`, and `0`
otherwise; the boundary is inclusive: a live enemy whose incremented size is
exactly `30` makes it return `1`. -/
theorem C11_update_grows_and_collides (st : DoomState) :
    (∀ i, i < st.Ec → (st.E i).live ≠ 0 →
      (update st).1.E i = { st.E i with s := (st.E i).s + GROWTH }) ∧
    (∀ i, (st.E i).live = 0 → (update st).1.E i = st.E i) ∧
    (∀ i, st.Ec ≤ i → (update st).1.E i = st.E i) ∧
    (update st).1 = { st with E := (update st).1.E } ∧
    ((update st).2 = 1 ↔
      ∃ i, i < st.Ec ∧ (st.E i).live ≠ 0 ∧ COLL_SZ ≤ (st.E i).s + GROWTH) ∧
    ((update st).2 = 0 ∨ (update st).2 = 1) ∧
    (∀ i, i < st.Ec → (st.E i).live ≠ 0 → (st.E i).s + GROWTH = 30 → (update st).2 = 1) := by
  obtain ⟨hrec, hE, hcol, h01⟩ := update_loop_spec st st.Ec
  refine ⟨?_, ?_, ?_, hrec, hcol, h01, ?_⟩
  · intro i hi hl
    show (update_loop st.Ec st).1.E i = _
    rw [hE i]
    simp [hi, hl]
  · intro i hl
    show (update_loop st.Ec st).1.E i = _
    rw [hE i]
    simp [hl]
  · intro i hi
    show (update_loop st.Ec st).1.E i = _
    rw [hE i]
    have : ¬ i < st.Ec := by omega
    simp [this]
  · intro i hi hl h30
    apply hcol.mpr
    refine ⟨i, hi, hl, ?_⟩
    rw [h30]
    norm_num [COLL_SZ]

/-- C12: an enemy created by `spawn()` in slot `Ec` and still live after
every call of a sequence `ops` of later calls (never hit) has size
`START_SZ + n * GROWTH`, where `n` is the number of `update()` calls in
`ops`.  The next `update()` call, number `n + 1`, finds it live and at or
beyond `COLL_SZ` after the increment if and only if `n + 1 >= 20`; in that
case the call returns `1`, and at call number `20` the size is `31`. -/
theorem C12_collision_at_update_20 (st : DoomState) (r1 r2 : Nat) (ops : List DoomOp)
    (hEc : st.Ec < MAX_E)
    (hlive : ∀ m, m ≤ ops.length →
      ((exec (ops.take m) (spawn r1 r2 st)).E st.Ec).live ≠ 0) :
    ((exec ops (spawn r1 r2 st)).E st.Ec).s = START_SZ + (count_updates ops : ℚ) * GROWTH ∧
    ((((exec ops (spawn r1 r2 st)).E st.Ec).live ≠ 0 ∧
        COLL_SZ ≤ ((exec ops (spawn r1 r2 st)).E st.Ec).s + GROWTH) ↔
      20 ≤ count_updates ops + 1) ∧
    (20 ≤ count_updates ops + 1 → (update (exec ops (spawn r1 r2 st))).2 = 1) ∧
    (count_updates ops + 1 = 20 →
      ((update (exec ops (spawn r1 r2 st))).1.E st.Ec).s = 31) := by
  have hsp : (spawn r1 r2 st).Ec = st.Ec + 1 ∧ ((spawn r1 r2 st).E st.Ec).s = START_SZ := by
    unfold spawn
    rw [if_pos hEc]
    simp
  obtain ⟨hk, hE⟩ := exec_slot ops (spawn r1 r2 st) st.Ec (by rw [hsp.1]; omega) hlive
  have hlast : ((exec ops (spawn r1 r2 st)).E st.Ec).live ≠ 0 := by
    have := hlive ops.length (Nat.le_refl _)
    simpa using this
  have hs : ((exec ops (spawn r1 r2 st)).E st.Ec).s =
      START_SZ + (count_updates ops : ℚ) * GROWTH := by
    rw [hE, hsp.2]
  have hiff : COLL_SZ ≤ ((exec ops (spawn r1 r2 st)).E st.Ec).s + GROWTH ↔
      20 ≤ count_updates ops + 1 := by
    rw [hs]
    simp only [COLL_SZ, START_SZ, GROWTH]
    constructor
    · intro h
      have h2 : (55 : ℚ) ≤ 3 * (count_updates ops : ℚ) := by linarith
      have h3 : (55 : ℕ) ≤ 3 * count_updates ops := by exact_mod_cast h2
      omega
    · intro h
      have h3 : (57 : ℕ) ≤ 3 * count_updates ops := by omega
      have h2 : (57 : ℚ) ≤ 3 * (count_updates ops : ℚ) := by exact_mod_cast h3
      linarith
  have hupd := update_loop_spec (exec ops (spawn r1 r2 st)) (exec ops (spawn r1 r2 st)).Ec
  refine ⟨hs, ?_, ?_, ?_⟩
  · constructor
    · intro h
      exact hiff.mp h.2
    · intro h
      exact ⟨hlast, hiff.mpr h⟩
  · intro h
    exact hupd.2.2.1.mpr ⟨st.Ec, hk, hlast, hiff.mpr h⟩
  · intro h
    show ((update_loop (exec ops (spawn r1 r2 st)).Ec (exec ops (spawn r1 r2 st))).1.E st.Ec).s
      = 31
    rw [hupd.2.1 st.Ec]
    simp only [hk, hlast, ne_eq, not_false_eq_true, and_self, if_true, hs]
    have h19 : count_updates ops = 19 := by omega
    rw [h19]
    norm_num [START_SZ, GROWTH]

/-- C12 (witness): the first enemy of a round followed by nineteen `update()`
calls: the twentieth call returns `1`. -/
theorem C12_collision_at_update_20_witness :
    (update (exec (List.replicate 19 DoomOp.update)
      (spawn 63 1 (DoomState.round_start 2048 2048)))).2 = 1 :=
  (C12_collision_at_update_20 (DoomState.round_start 2048 2048) 63 1
    (List.replicate 19 DoomOp.update) (by decide) (by decide!)).2.2.1 (by decide)

/-- C13: `shoot()` leaves the whole state unchanged when no live enemy below
`Ec` passes its test; otherwise, with `k` the lowest index of a live enemy
that passes, it clears the `live` flag of enemy `k` and changes nothing else
(`Ec`, the crosshair, the kind, position and size of every enemy and every
other `live` flag).  The test is, with `r` the size truncated to an integer:
for a square `|x - cross_x| <= r` and `|H/2 - cross_y| <= r`, for a circle
`(cross_x - x)^2 + (cross_y - H/2)^2 <= r^2`. -/
theorem C13_shoot_first_hit (st : DoomState) (k : Nat) :
    ((∀ j, j < st.Ec →
        ¬ ((st.E j).live ≠ 0 ∧ hit_test (st.E j) st.cross_x st.cross_y = true)) →
      shoot st = st) ∧
    (k < st.Ec →
      ((st.E k).live ≠ 0 ∧ hit_test (st.E k) st.cross_x st.cross_y = true) →
      (∀ j, j < k →
        ¬ ((st.E j).live ≠ 0 ∧ hit_test (st.E j) st.cross_x st.cross_y = true)) →
      shoot st = { st with E := (shoot st).E } ∧
      (shoot st).E k = { st.E k with live := 0 } ∧
      (∀ j, j ≠ k → (shoot st).E j = st.E j)) ∧
    (∀ (e : enemy) (cx cy : Int),
      hit_test e cx cy = true ↔
        ((e.k = shape_t.SQUARE ∧ |e.x - cx| ≤ truncToInt e.s ∧ |H / 2 - cy| ≤ truncToInt e.s) ∨
         (e.k = shape_t.CIRCLE ∧
           (cx - e.x) ^ 2 + (cy - H / 2) ^ 2 ≤ (truncToInt e.s) ^ 2))) := by
  refine ⟨?_, ?_, ?_⟩
  · intro hnone
    apply (shoot_loop_spec st st.Ec 0).1
    intro j _ hj
    exact hnone j (by omega)
  · intro hk hP hfirst
    have h := (shoot_loop_spec st st.Ec 0).2 k (Nat.zero_le k) (by omega) hP
      (fun j _ hjk => hfirst j hjk)
    have hs : shoot st =
        { st with E := Function.update st.E k { st.E k with live := 0 } } := h
    refine ⟨?_, ?_, ?_⟩
    · rw [hs]
    · rw [hs]
      simp
    · intro j hj
      rw [hs]
      simp [Function.update_noteq hj]
  · intro e cx cy
    unfold hit_test
    cases hk : e.k with
    | SQUARE => simp
    | CIRCLE => simp [pow_two]

/-- C13 (witness): three enemies under the crosshair, the first one dead:
`shoot()` deactivates the second and leaves the third alone. -/
theorem C13_shoot_first_hit_witness :
    ((shoot three_enemies).E 1).live = 0 ∧ ((shoot three_enemies).E 2).live = 1 := by
  have h := (C13_shoot_first_hit three_enemies 1).2.1 (by decide) (by decide) (by decide)
  constructor
  · rw [h.2.1]
  · rw [h.2.2 2 (by decide)]
    rfl

/-- C15: in every state reached from the start of a round (crosshair at
`(W/2, H/2)`, any calibrated centre) by any sequence of `spawn`, `shoot`,
`update` and `update_crosshair` calls with any samples, the crosshair
satisfies `4 <= cross_x <= W - 5 = 123` and `4 <= cross_y <= H - 5 = 59`; hence
each of the nine crosshair pixels `(cross_x + i, cross_y)` and
`(cross_x, cross_y + i)`, `-2 <= i <= 2`, lies inside the `128 x 64`
display. -/
theorem C15_crosshair_in_bounds (ops : List DoomOp) (cx cy : Nat) :
    4 ≤ (exec ops (DoomState.round_start cx cy)).cross_x ∧
    (exec ops (DoomState.round_start cx cy)).cross_x ≤ W - 5 ∧
    W - 5 = 123 ∧
    4 ≤ (exec ops (DoomState.round_start cx cy)).cross_y ∧
    (exec ops (DoomState.round_start cx cy)).cross_y ≤ H - 5 ∧
    H - 5 = 59 ∧
    (∀ i : Int, -2 ≤ i → i ≤ 2 →
      0 ≤ (exec ops (DoomState.round_start cx cy)).cross_x + i ∧
      (exec ops (DoomState.round_start cx cy)).cross_x + i < W ∧
      0 ≤ (exec ops (DoomState.round_start cx cy)).cross_y + i ∧
      (exec ops (DoomState.round_start cx cy)).cross_y + i < H) := by
  have h0 : 4 ≤ (DoomState.round_start cx cy).cross_x ∧
      (DoomState.round_start cx cy).cross_x ≤ 123 ∧
      4 ≤ (DoomState.round_start cx cy).cross_y ∧
      (DoomState.round_start cx cy).cross_y ≤ 59 := by
    simp only [DoomState.round_start, W, H]
    decide
  obtain ⟨h1, h2, h3, h4⟩ := exec_cross ops (DoomState.round_start cx cy) h0
  have hW : W = 128 := rfl
  have hH : H = 64 := rfl
  refine ⟨h1, by rw [hW]; omega, by rw [hW]; rfl, h3, by rw [hH]; omega, by rw [hH]; rfl, ?_⟩
  intro i hi1 hi2
  rw [hW, hH]
  omega

/-- C16 (counterexample): with the calibrated centre `100` on both axes and
the crosshair at `(64, 32)`, calls of `update_crosshair()` with the minimum
sample `0` never move the crosshair: the step `trunc(12 * (0 - 100) / 2048)`
is `0`, so the coordinate stays `64` and never reaches `4`. -/
theorem C16_small_centre_never_moves :
    (update_crosshair 0 0 (DoomState.round_start 100 100)).cross_x = 64 ∧
    (∀ n, (crosshair_run (List.replicate n (0, 0)) (DoomState.round_start 100 100)).cross_x = 64 ∧
      (crosshair_run (List.replicate n (0, 0)) (DoomState.round_start 100 100)).cross_x ≠ 4) := by
  have hrun : ∀ n,
      (crosshair_run (List.replicate n (0, 0)) (DoomState.round_start 100 100)).cross_x = 64 := by
    intro n
    have h := (crosshair_run_dead_zone (List.replicate n (0, 0))
      (DoomState.round_start 100 100)).1 (by
        intro p hp
        rw [List.eq_of_mem_replicate hp]
        decide) (by decide) (by decide)
    rw [h]
    decide
  refine ⟨?_, fun n => ⟨hrun n, ?_⟩⟩
  · exact hrun 1
  · rw [hrun n]
    decide

/-- C16 (amended): for a calibrated centre of at least `171` on an axis and
an in-bounds starting coordinate, calls of `update_crosshair()` with the
minimum sample `0` on that axis bring the coordinate to the lower bound `4`
after at most `119` calls (x axis) or `55` calls (y axis) and keep it there:
it is `4` after any larger number of such calls, whatever the samples of the
other axis.  Per call the coordinate becomes the sum of the old coordinate
and `trunc(12 * clamp((0 - c) / 2048, -1, 1))`, clamped to the bounds. -/
theorem C16_min_sample_reaches_lower_bound (samples : List (Nat × Nat)) (st : DoomState) :
    (171 ≤ st.center_x_raw → (∀ p, p ∈ samples → p.1 = 0) →
      4 ≤ st.cross_x → st.cross_x ≤ 123 → 119 ≤ samples.length →
      (crosshair_run samples st).cross_x = 4) ∧
    (171 ≤ st.center_y_raw → (∀ p, p ∈ samples → p.2 = 0) →
      4 ≤ st.cross_y → st.cross_y ≤ 59 → 55 ≤ samples.length →
      (crosshair_run samples st).cross_y = 4) ∧
    (∀ y : Nat, (update_crosshair 0 y st).cross_x =
      max 4 (min 123 (st.cross_x +
        truncToInt (max (-1) (min 1 ((((0 : Nat) : ℚ) - (st.center_x_raw : ℚ)) / 2048)) * 12)))) ∧
    (∀ x : Nat, (update_crosshair x 0 st).cross_y =
      max 4 (min 59 (st.cross_y +
        truncToInt (max (-1) (min 1 ((((0 : Nat) : ℚ) - (st.center_y_raw : ℚ)) / 2048)) * 12))))
    := by
  obtain ⟨hx, hy⟩ := crosshair_run_min_sample samples st
  refine ⟨?_, ?_, fun y => (update_crosshair_coords 0 y st).1,
    fun x => (update_crosshair_coords x 0 st).2⟩
  · intro hc hall h1 h2 hlen
    have h := hx hc hall h1
    have hl : (119 : Int) ≤ (samples.length : Int) := by exact_mod_cast hlen
    omega
  · intro hc hall h1 h2 hlen
    have h := hy hc hall h1
    have hl : (55 : Int) ≤ (samples.length : Int) := by exact_mod_cast hlen
    omega

/-- C16 (witness): centre `2048`, crosshair at `(64, 32)`, `119` calls with
the sample `0` on the x axis. -/
theorem C16_min_sample_reaches_lower_bound_witness :
    (crosshair_run (List.replicate 119 (0, 2048)) (DoomState.round_start 2048 2048)).cross_x = 4 :=
  (C16_min_sample_reaches_lower_bound (List.replicate 119 (0, 2048))
    (DoomState.round_start 2048 2048)).1 (by decide)
    (fun p hp => by rw [List.eq_of_mem_replicate hp]) (by decide) (by decide) (by decide)

/-- C17: `update_crosshair()` called with a sample within `170` of the
calibrated centre of an axis (in particular a sample equal to the centre)
leaves the in-bounds coordinate of that axis unchanged: the step
`trunc(12 * clamp((raw - c) / 2048, -1, 1))` is then `0`. -/
theorem C17_dead_zone (x y : Nat) (st : DoomState) :
    (|(x : Int) - (st.center_x_raw : Int)| ≤ 170 → 4 ≤ st.cross_x → st.cross_x ≤ 123 →
      truncToInt (max (-1) (min 1 (((x : ℚ) - (st.center_x_raw : ℚ)) / 2048)) * 12) = 0 ∧
      (update_crosshair x y st).cross_x = st.cross_x) ∧
    (|(y : Int) - (st.center_y_raw : Int)| ≤ 170 → 4 ≤ st.cross_y → st.cross_y ≤ 59 →
      truncToInt (max (-1) (min 1 (((y : ℚ) - (st.center_y_raw : ℚ)) / 2048)) * 12) = 0 ∧
      (update_crosshair x y st).cross_y = st.cross_y) ∧
    (x = st.center_x_raw → 4 ≤ st.cross_x → st.cross_x ≤ 123 →
      (update_crosshair x y st).cross_x = st.cross_x) ∧
    (y = st.center_y_raw → 4 ≤ st.cross_y → st.cross_y ≤ 59 →
      (update_crosshair x y st).cross_y = st.cross_y) := by
  have hc := update_crosshair_coords x y st
  have hX : |(x : Int) - (st.center_x_raw : Int)| ≤ 170 → 4 ≤ st.cross_x → st.cross_x ≤ 123 →
      truncToInt (max (-1) (min 1 (((x : ℚ) - (st.center_x_raw : ℚ)) / 2048)) * 12) = 0 ∧
      (update_crosshair x y st).cross_x = st.cross_x := by
    intro h h1 h2
    have hstep := step_dead_zone x st.center_x_raw h
    refine ⟨hstep, ?_⟩
    rw [hc.1, hstep]
    omega
  have hY : |(y : Int) - (st.center_y_raw : Int)| ≤ 170 → 4 ≤ st.cross_y → st.cross_y ≤ 59 →
      truncToInt (max (-1) (min 1 (((y : ℚ) - (st.center_y_raw : ℚ)) / 2048)) * 12) = 0 ∧
      (update_crosshair x y st).cross_y = st.cross_y := by
    intro h h1 h2
    have hstep := step_dead_zone y st.center_y_raw h
    refine ⟨hstep, ?_⟩
    rw [hc.2, hstep]
    omega
  refine ⟨hX, hY, ?_, ?_⟩
  · intro h h1 h2
    exact (hX (by rw [h]; simp) h1 h2).2
  · intro h h1 h2
    exact (hY (by rw [h]; simp) h1 h2).2

/-- C17 (witness): centre `2048`, sample `2218` (`170` above the centre),
crosshair at `(64, 32)`. -/
theorem C17_dead_zone_witness :
    (update_crosshair 2218 2048 (DoomState.round_start 2048 2048)).cross_x = 64 :=
  ((C17_dead_zone 2218 2048 (DoomState.round_start 2048 2048)).1
    (by decide) (by decide) (by decide)).2

/-- C18: for `int` arguments and a framebuffer of bytes, `px(x, y, on)`
leaves the whole framebuffer unchanged when `x` is outside `0 .. W - 1` or `y`
outside `0 .. H - 1` (negative values included).  Otherwise it writes only
the byte at index `(y >> 3) * W + x`, which is below `FB_LEN = 1024`; in that
byte bit `y & 7` becomes `1` when `on` is non-zero and `0` when `on` is zero,
and every other bit keeps its value; the framebuffer stays an array of bytes;
and `px(x, y, 1)` followed by `px(x, y, 0)` restores a framebuffer in which
the pixel was clear.  The function of potentiometer_v3.c, whose `on` is a
`bool`, does the same. -/
theorem C18_px_frame (x y on_ : Int) (fb : Nat → Nat)
    (hx : -2147483648 ≤ x ∧ x < 2147483648) (hy : -2147483648 ≤ y ∧ y < 2147483648)
    (hbyte : ∀ i, fb i < 256) :
    ((x < 0 ∨ W ≤ x ∨ y < 0 ∨ H ≤ y) → px x y on_ fb = fb) ∧
    (0 ≤ x → x < W → 0 ≤ y → y < H →
      (y.toNat >>> 3) * 128 + x.toNat < FB_LEN ∧
      (y.toNat >>> 3) * 128 + x.toNat = (y.toNat / 8) * 128 + x.toNat ∧
      y.toNat &&& 7 = y.toNat % 8 ∧
      (∀ i, i ≠ (y.toNat >>> 3) * 128 + x.toNat → px x y on_ fb i = fb i) ∧
      (∀ j, (px x y on_ fb ((y.toNat >>> 3) * 128 + x.toNat)).testBit j =
        (if j = y.toNat &&& 7 then decide (on_ ≠ 0)
         else (fb ((y.toNat >>> 3) * 128 + x.toNat)).testBit j)) ∧
      (∀ i, px x y on_ fb i < 256) ∧
      ((fb ((y.toNat >>> 3) * 128 + x.toNat)).testBit (y.toNat &&& 7) = false →
        px x y 0 (px x y 1 fb) = fb)) ∧
    (∀ b : Bool, Pot.px x y b fb = px x y (if b then 1 else 0) fb) := by
  refine ⟨px_out_of_bounds x y on_ fb hx hy, ?_, ?_⟩
  · intro hx0 hx1 hy0 hy1
    have hW : W = 128 := rfl
    have hH : H = 64 := rfl
    have hxn : x.toNat < 128 := by rw [hW] at hx1; omega
    have hyn : y.toNat < 64 := by rw [hH] at hy1; omega
    have hshift : y.toNat >>> 3 = y.toNat / 8 := by
      rw [Nat.shiftRight_eq_div_pow]
    have hand : y.toNat &&& 7 = y.toNat % 8 := Nat.and_pow_two_sub_one_eq_mod y.toNat 3
    have hk : y.toNat &&& 7 < 8 := by rw [hand]; omega
    have hm : 1 <<< (y.toNat &&& 7) < 256 := by
      rw [Nat.one_shiftLeft]
      calc 2 ^ (y.toNat &&& 7) < 2 ^ 8 := Nat.pow_lt_pow_right (by decide) hk
        _ = 256 := by decide
    have hidx : (y.toNat >>> 3) * 128 + x.toNat < FB_LEN := by
      rw [hshift]
      show y.toNat / 8 * 128 + x.toNat < 1024
      omega
    have hval : ∀ (o : Int) (g : Nat → Nat), (∀ i, g i < 256) →
        ∀ j, (px x y o g ((y.toNat >>> 3) * 128 + x.toNat)).testBit j =
          (if j = y.toNat &&& 7 then decide (o ≠ 0)
           else (g ((y.toNat >>> 3) * 128 + x.toNat)).testBit j) := by
      intro o g hg j
      rw [px_in_bounds x y o g hx0 hx1 hy0 hy1, Function.update_same]
      by_cases ho : o ≠ 0
      · rw [if_pos ho, testBit_set]
        by_cases hj : j = y.toNat &&& 7
        · simp [hj, ho]
        · have : ¬ (y.toNat &&& 7) = j := fun h => hj h.symm
          simp [hj, this]
      · rw [if_neg ho, testBit_clear _ _ _ (hg _)]
        by_cases hj : j = y.toNat &&& 7
        · simp [hj, ho]
        · have : ¬ (y.toNat &&& 7) = j := fun h => hj h.symm
          simp [hj, this]
    have hbytes : ∀ (o : Int) (g : Nat → Nat), (∀ i, g i < 256) → ∀ i, px x y o g i < 256 := by
      intro o g hg i
      rw [px_in_bounds x y o g hx0 hx1 hy0 hy1]
      by_cases hi : i = (y.toNat >>> 3) * 128 + x.toNat
      · rw [hi, Function.update_same]
        split
        · exact Nat.or_lt_two_pow (n := 8) (hg _) hm
        · exact Nat.and_lt_two_pow (n := 8) _ (Nat.xor_lt_two_pow (n := 8) (by decide) hm)
      · rw [Function.update_noteq hi]
        exact hg i
    have hother : ∀ (o : Int) (g : Nat → Nat) (i : Nat),
        i ≠ (y.toNat >>> 3) * 128 + x.toNat → px x y o g i = g i := by
      intro o g i hi
      rw [px_in_bounds x y o g hx0 hx1 hy0 hy1, Function.update_noteq hi]
    refine ⟨hidx, by rw [hshift], hand, hother on_ fb, hval on_ fb hbyte, hbytes on_ fb hbyte, ?_⟩
    intro hclear
    funext i
    by_cases hi : i = (y.toNat >>> 3) * 128 + x.toNat
    · rw [hi]
      apply Nat.eq_of_testBit_eq
      intro j
      rw [hval 0 (px x y 1 fb) (hbytes 1 fb hbyte) j]
      by_cases hj : j = y.toNat &&& 7
      · rw [if_pos hj, hj, hclear]
        simp
      · rw [if_neg hj, hval 1 fb hbyte j, if_neg hj]
    · rw [hother 0 _ i hi, hother 1 _ i hi]
  · intro b
    cases b
    · simp [Pot.px, px, Pot.W, Pot.H, W, H]
    · simp [Pot.px, px, Pot.W, Pot.H, W, H]

/-- C18 (witness): the pixel `(5, 10)` of a cleared framebuffer: byte
`1 * 128 + 5 = 133`, bit `2`. -/
theorem C18_px_frame_witness :
    (10 : Int).toNat >>> 3 * 128 + (5 : Int).toNat < FB_LEN ∧
    (∀ j, (px 5 10 1 (fun _ => 0) ((10 : Int).toNat >>> 3 * 128 + (5 : Int).toNat)).testBit j =
      (if j = (10 : Int).toNat &&& 7 then decide ((1 : Int) ≠ 0)
       else ((fun _ => 0 : Nat → Nat) ((10 : Int).toNat >>> 3 * 128 + (5 : Int).toNat)).testBit j)) :=
  have h := (C18_px_frame 5 10 1 (fun _ => 0) (by decide) (by decide)
    (fun _ => Nat.zero_lt_succ 255)).2.1
    (by decide) (by decide) (by decide) (by decide)
  ⟨h.1, h.2.2.2.2.1⟩

end Doom

namespace Pot

/-! ## The stepping loop of `draw_needle` -/

/-- One iteration of the loop of `draw_needle`. -/
theorem needle_loop_succ (x2 y2 dx sx dy sy : Int) (fuel : Nat) (err x y : Int) :
    needle_loop x2 y2 dx sx dy sy (fuel + 1) err x y =
      (if x = x2 ∧ y = y2 then some [(x, y)]
       else (needle_loop x2 y2 dx sx dy sy fuel
          (if 2 * err ≤ dx then (if 2 * err ≥ dy then err + dy else err) + dx
           else (if 2 * err ≥ dy then err + dy else err))
          (if 2 * err ≥ dy then x + sx else x)
          (if 2 * err ≤ dx then y + sy else y)).map (fun l => (x, y) :: l)) := rfl

/-- Exchanging the roles of the two axes in the loop of `draw_needle`
(end point, step sizes, signs, current point, and `err` negated) yields the
same points with their coordinates exchanged. -/
theorem needle_loop_swap (x2 y2 dx sx dy sy : Int) (fuel : Nat) (err x y : Int) :
    needle_loop y2 x2 (-dy) sy (-dx) sx fuel (-err) y x =
      (needle_loop x2 y2 dx sx dy sy fuel err x y).map (List.map Prod.swap) := by
  induction fuel generalizing err x y with
  | zero => rfl
  | succ fuel ih =>
    rw [needle_loop_succ, needle_loop_succ]
    by_cases hend : x = x2 ∧ y = y2
    · rw [if_pos hend, if_pos ⟨hend.2, hend.1⟩]
      rfl
    · rw [if_neg hend, if_neg (fun h => hend ⟨h.2, h.1⟩)]
      by_cases h1 : 2 * err ≥ dy
      · have h1s : 2 * -err ≤ -dy := by omega
        by_cases h2 : 2 * err ≤ dx
        · have h2s : 2 * -err ≥ -dx := by omega
          simp only [h1, h2, h1s, h2s, if_true]
          rw [show -err + -dx + -dy = -(err + dy + dx) by ring, ih]
          simp only [Option.map_map]
          congr 1
        · have h2s : ¬ 2 * -err ≥ -dx := by omega
          simp only [h1, h2, h1s, h2s, if_true, if_false]
          rw [show -err + -dy = -(err + dy) by ring, ih]
          simp only [Option.map_map]
          congr 1
      · have h1s : ¬ 2 * -err ≤ -dy := by omega
        by_cases h2 : 2 * err ≤ dx
        · have h2s : 2 * -err ≥ -dx := by omega
          simp only [h1, h2, h1s, h2s, if_true, if_false]
          rw [show -err + -dx = -(err + dx) by ring, ih]
          simp only [Option.map_map]
          congr 1
        · have h2s : ¬ 2 * -err ≥ -dx := by omega
          simp only [h1, h2, h1s, h2s, if_false]
          rw [ih]
          simp only [Option.map_map]
          congr 1

/-- A coordinate `i` steps of size `s = 1` or `-1` from `x0`, with
`0 <= i <= a`, lies between `x0` and the end `x0 + s * a`. -/
theorem coord_between (x0 s a i : Int) (hs : s = 1 ∨ s = -1) (hi0 : 0 ≤ i) (hia : i ≤ a) :
    min x0 (x0 + s * a) ≤ x0 + s * i ∧ x0 + s * i ≤ max x0 (x0 + s * a) := by
  rcases hs with rfl | rfl <;> constructor <;> omega

/-- A step of size `1` or `-1` has magnitude at most one. -/
theorem abs_step_le (s : Int) (hs : s = 1 ∨ s = -1) : |s| ≤ 1 := by
  rcases hs with rfl | rfl <;> decide

/-- The loop of `draw_needle` on a line whose x extent `a` is positive and at
least its y extent `b`, entered after `i` steps in x and `j` steps in y with
`err = a * (j + 1) - b * (i + 1)` and `a * (2 * j - 1) <= 2 * b * i <
a * (2 * j + 1)`: it stops after exactly the `n = a - i` remaining iterations
at the end point, every iteration steps in x, and the points stay in the
bounding box. -/
theorem needle_loop_major (x0 y0 x2 y2 a b sx sy : Int)
    (hsx : sx = 1 ∨ sx = -1) (hsy : sy = 1 ∨ sy = -1)
    (ha : 0 < a) (hb : 0 ≤ b) (hba : b ≤ a)
    (hx2 : x2 = x0 + sx * a) (hy2 : y2 = y0 + sy * b) (n : Nat) :
    ∀ (i j P Q : Int), i + (n : Int) = a → 0 ≤ i → 0 ≤ j → j ≤ b → P = a * j → Q = b * i →
      2 * P - a ≤ 2 * Q → 2 * Q < 2 * P + a →
      ∃ L : List (Int × Int),
        (∀ fuel, n + 1 ≤ fuel →
          needle_loop x2 y2 a sx (-b) sy fuel (P + a - Q - b) (x0 + sx * i) (y0 + sy * j)
            = some L) ∧
        L.length = n + 1 ∧ L.head? = some (x0 + sx * i, y0 + sy * j) ∧
        L.getLast? = some (x2, y2) ∧ L.Chain' step_ok ∧
        ∀ p, p ∈ L → in_box x0 y0 x2 y2 p := by
  induction n with
  | zero =>
    intro i j P Q hin hi0 hj0 hjb hP hQ hI1 hI2
    have hia : i = a := by simpa using hin
    have hjb2 : j = b := by
      by_contra hne
      have hlt : j ≤ b - 1 := by omega
      have hm : a * j ≤ a * (b - 1) := Int.mul_le_mul_of_nonneg_left hlt (le_of_lt ha)
      have he : a * (b - 1) = b * a - a := by ring
      rw [hia] at hQ
      omega
    have hxe : x0 + sx * i = x2 := by rw [hx2, hia]
    have hye : y0 + sy * j = y2 := by rw [hy2, hjb2]
    rw [hxe, hye]
    refine ⟨[(x2, y2)], ?_, rfl, rfl, rfl, List.chain'_singleton _, ?_⟩
    · intro fuel hf
      obtain ⟨f, rfl⟩ : ∃ f, fuel = f + 1 := ⟨fuel - 1, by omega⟩
      rw [needle_loop_succ, if_pos ⟨rfl, rfl⟩]
    · intro p hp
      rw [List.mem_singleton] at hp
      subst hp
      simp only [in_box]
      omega
  | succ n ih =>
    intro i j P Q hin hi0 hj0 hjb hP hQ hI1 hI2
    have hia : i + 1 ≤ a := by push_cast at hin; omega
    have hxne : ¬ (x0 + sx * i = x2 ∧ y0 + sy * j = y2) := by
      intro h
      have h1 := h.1
      rw [hx2] at h1
      rcases hsx with rfl | rfl <;> omega
    have hc1 : 2 * (P + a - Q - b) ≥ -b := by omega
    have hbx := coord_between x0 sx a i hsx hi0 (by omega)
    have hby := coord_between y0 sy b j hsy hj0 hjb
    have hboxp : in_box x0 y0 x2 y2 (x0 + sx * i, y0 + sy * j) := by
      simp only [in_box]
      rw [hx2, hy2]
      exact ⟨hbx.1, hbx.2, hby.1, hby.2⟩
    by_cases hc2 : 2 * (P + a - Q - b) ≤ a
    · have hj1 : j + 1 ≤ b := by
        by_contra hcon
        have hjb2 : j = b := by omega
        have hm : b * (i + 1) ≤ b * a := Int.mul_le_mul_of_nonneg_left hia hb
        have e1 : b * (i + 1) = b * i + b := by ring
        have e2 : a * j = b * a := by rw [hjb2]; ring
        omega
      obtain ⟨L, hL, hlen, hhead, hlast, hchain, hbox⟩ :=
        ih (i + 1) (j + 1) (P + a) (Q + b) (by push_cast at hin ⊢; omega) (by omega) (by omega)
          hj1 (by rw [hP]; ring) (by rw [hQ]; ring) (by omega) (by omega)
      cases L with
      | nil => simp at hlen
      | cons q L' =>
        have hq : q = (x0 + sx * (i + 1), y0 + sy * (j + 1)) := by
          simpa using hhead
        refine ⟨(x0 + sx * i, y0 + sy * j) :: q :: L', ?_, ?_, rfl, ?_, ?_, ?_⟩
        · intro fuel hf
          obtain ⟨f, rfl⟩ : ∃ f, fuel = f + 1 := ⟨fuel - 1, by omega⟩
          rw [needle_loop_succ, if_neg hxne]
          simp only [hc1, hc2, if_true]
          have hE : P + a - Q - b + -b + a = P + a + a - (Q + b) - b := by ring
          have hX : x0 + sx * i + sx = x0 + sx * (i + 1) := by ring
          have hY : y0 + sy * j + sy = y0 + sy * (j + 1) := by ring
          rw [hE, hX, hY, hL f (by omega)]
          rfl
        · simp only [List.length_cons] at hlen ⊢
          omega
        · rw [List.getLast?_cons_cons]
          exact hlast
        · rw [List.chain'_cons]
          refine ⟨?_, hchain⟩
          rw [hq]
          simp only [step_ok]
          have e1 : x0 + sx * (i + 1) - (x0 + sx * i) = sx := by ring
          have e2 : y0 + sy * (j + 1) - (y0 + sy * j) = sy := by ring
          rw [e1, e2]
          exact ⟨abs_step_le sx hsx, abs_step_le sy hsy⟩
        · intro p hp
          rcases List.mem_cons.mp hp with h | h
          · rw [h]; exact hboxp
          · exact hbox p h
    · obtain ⟨L, hL, hlen, hhead, hlast, hchain, hbox⟩ :=
        ih (i + 1) j P (Q + b) (by push_cast at hin ⊢; omega) (by omega) hj0
          hjb hP (by rw [hQ]; ring) (by omega) (by omega)
      cases L with
      | nil => simp at hlen
      | cons q L' =>
        have hq : q = (x0 + sx * (i + 1), y0 + sy * j) := by
          simpa using hhead
        refine ⟨(x0 + sx * i, y0 + sy * j) :: q :: L', ?_, ?_, rfl, ?_, ?_, ?_⟩
        · intro fuel hf
          obtain ⟨f, rfl⟩ : ∃ f, fuel = f + 1 := ⟨fuel - 1, by omega⟩
          rw [needle_loop_succ, if_neg hxne]
          simp only [hc1, hc2, if_true, if_false]
          have hE : P + a - Q - b + -b = P + a - (Q + b) - b := by ring
          have hX : x0 + sx * i + sx = x0 + sx * (i + 1) := by ring
          rw [hE, hX, hL f (by omega)]
          rfl
        · simp only [List.length_cons] at hlen ⊢
          omega
        · rw [List.getLast?_cons_cons]
          exact hlast
        · rw [List.chain'_cons]
          refine ⟨?_, hchain⟩
          rw [hq]
          simp only [step_ok]
          have e1 : x0 + sx * (i + 1) - (x0 + sx * i) = sx := by ring
          rw [e1]
          exact ⟨abs_step_le sx hsx, by simp⟩
        · intro p hp
          rcases List.mem_cons.mp hp with h | h
          · rw [h]; exact hboxp
          · exact hbox p h

/-- Exchanging the x and y coordinates of the start and the end point of
`draw_needle` exchanges the coordinates of every plotted point. -/
theorem needle_pixels_swap (fuel : Nat) (cx cy x2 y2 : Int) :
    needle_pixels fuel cy cx y2 x2 =
      (needle_pixels fuel cx cy x2 y2).map (List.map Prod.swap) := by
  have h := needle_loop_swap x2 y2 |x2 - cx| (if cx < x2 then 1 else -1) (-|y2 - cy|)
    (if cy < y2 then 1 else -1) fuel (|x2 - cx| + -|y2 - cy|) cx cy
  have e : -(|x2 - cx| + -|y2 - cy|) = |y2 - cy| + -|x2 - cx| := by ring
  rw [neg_neg, e] at h
  unfold needle_pixels
  exact h

/-- The step sign of `draw_needle` along an axis points from the start `c`
to the end point `e`: `e = c + s * |e - c|`, with `s` equal to `1` or `-1`. -/
theorem sign_step (c e : Int) :
    ((if c < e then (1 : Int) else -1) = 1 ∨ (if c < e then (1 : Int) else -1) = -1) ∧
    e = c + (if c < e then (1 : Int) else -1) * |e - c| := by
  by_cases h : c < e
  · rw [if_pos h, abs_of_pos (by omega)]
    exact ⟨Or.inl rfl, by ring⟩
  · rw [if_neg h, abs_of_nonpos (by omega)]
    exact ⟨Or.inr rfl, by ring⟩

/-- The points of `draw_needle` when the x extent is at least the y extent. -/
theorem needle_pixels_major (cx cy x2 y2 : Int) (hba : |y2 - cy| ≤ |x2 - cx|) :
    ∃ L : List (Int × Int),
      (∀ fuel, (x2 - cx).natAbs + 1 ≤ fuel → needle_pixels fuel cx cy x2 y2 = some L) ∧
      L.length = (x2 - cx).natAbs + 1 ∧ L.head? = some (cx, cy) ∧
      L.getLast? = some (x2, y2) ∧ L.Chain' step_ok ∧
      ∀ p, p ∈ L → in_box cx cy x2 y2 p := by
  have hb0 : 0 ≤ |y2 - cy| := abs_nonneg _
  have hsx := sign_step cx x2
  have hsy := sign_step cy y2
  have hna : ((x2 - cx).natAbs : Int) = |x2 - cx| := Int.natCast_natAbs _
  by_cases ha : 0 < |x2 - cx|
  · obtain ⟨L, hL, hlen, hhead, hlast, hchain, hbox⟩ :=
      needle_loop_major cx cy x2 y2 |x2 - cx| |y2 - cy| (if cx < x2 then 1 else -1)
        (if cy < y2 then 1 else -1) hsx.1 hsy.1 ha hb0 hba hsx.2 hsy.2 (x2 - cx).natAbs
        0 0 0 0 (by rw [hna]; ring) (le_refl 0) (le_refl 0) hb0 (by ring) (by ring)
        (by omega) (by omega)
    refine ⟨L, ?_, hlen, ?_, hlast, hchain, hbox⟩
    · intro fuel hf
      have h := hL fuel hf
      simp only [mul_zero, add_zero, zero_add, sub_zero] at h
      unfold needle_pixels
      rw [← h]
      congr 1
    · simpa using hhead
  · have ha0 : |x2 - cx| = 0 := by omega
    have hb00 : |y2 - cy| = 0 := by omega
    have hx : x2 = cx := by
      have := abs_eq_zero.mp ha0
      omega
    have hy : y2 = cy := by
      have := abs_eq_zero.mp hb00
      omega
    subst hx hy
    refine ⟨[(x2, y2)], ?_, by simp, rfl, rfl, List.chain'_singleton _, ?_⟩
    · intro fuel hf
      obtain ⟨f, rfl⟩ : ∃ f, fuel = f + 1 := ⟨fuel - 1, by omega⟩
      unfold needle_pixels
      rw [needle_loop_succ, if_pos ⟨rfl, rfl⟩]
    · intro p hp
      rw [List.mem_singleton] at hp
      subst hp
      simp [in_box]

/-- The step relation does not depend on the order of the coordinates. -/
theorem step_ok_swap (p q : Int × Int) (h : step_ok p q) : step_ok p.swap q.swap :=
  ⟨h.2, h.1⟩

/-- The points of `draw_needle` for arbitrary integer end points: with enough
fuel the loop reaches its `break`, and the points form a path of
`max |x2 - cx| |y2 - cy| + 1` points from the start to the end inside the
bounding box, each point at most one away from its predecessor in each
coordinate. -/
theorem needle_pixels_spec (cx cy x2 y2 : Int) :
    ∃ L : List (Int × Int),
      (∀ fuel, max (x2 - cx).natAbs (y2 - cy).natAbs + 1 ≤ fuel →
        needle_pixels fuel cx cy x2 y2 = some L) ∧
      L.length = max (x2 - cx).natAbs (y2 - cy).natAbs + 1 ∧
      L.head? = some (cx, cy) ∧ L.getLast? = some (x2, y2) ∧ L.Chain' step_ok ∧
      ∀ p, p ∈ L → in_box cx cy x2 y2 p := by
  have hna : ((x2 - cx).natAbs : Int) = |x2 - cx| := Int.natCast_natAbs _
  have hnb : ((y2 - cy).natAbs : Int) = |y2 - cy| := Int.natCast_natAbs _
  by_cases hba : |y2 - cy| ≤ |x2 - cx|
  · have hmax : max (x2 - cx).natAbs (y2 - cy).natAbs = (x2 - cx).natAbs := by
      apply Nat.max_eq_left
      omega
    rw [hmax]
    exact needle_pixels_major cx cy x2 y2 hba
  · have hmax : max (x2 - cx).natAbs (y2 - cy).natAbs = (y2 - cy).natAbs := by
      apply Nat.max_eq_right
      omega
    rw [hmax]
    obtain ⟨L, hL, hlen, hhead, hlast, hchain, hbox⟩ :=
      needle_pixels_major cy cx y2 x2 (by omega)
    refine ⟨L.map Prod.swap, ?_, ?_, ?_, ?_, ?_, ?_⟩
    · intro fuel hf
      rw [needle_pixels_swap fuel cy cx y2 x2, hL fuel hf]
      rfl
    · rw [List.length_map, hlen]
    · rw [List.head?_map, hhead]
      rfl
    · rw [List.getLast?_map, hlast]
      rfl
    · rw [List.chain'_map]
      exact hchain.imp (fun p q h => step_ok_swap p q h)
    · intro p hp
      obtain ⟨q, hq, rfl⟩ := List.mem_map.mp hp
      have h := hbox q hq
      simp only [in_box] at h
      simp only [in_box, Prod.fst_swap, Prod.snd_swap]
      exact ⟨h.2.2.1, h.2.2.2, h.1, h.2.1⟩

/-! ## The claims on the needle -/

/-- C19: for all integer start points `(cx, cy)` and end points `(x2, y2)`
the stepping loop of `draw_needle` terminates: given at least
`max |x2 - cx| |y2 - cy| + 1` iterations it reaches its `break`, always with
the same sequence of plotted points.  That sequence has exactly
`max |x2 - cx| |y2 - cy| + 1` points, starts with `(cx, cy)`, ends with
`(x2, y2)`, moves by at most one in each coordinate from one point to the
next, and stays inside the bounding box of the two end points. -/
theorem C19_needle_path (cx cy x2 y2 : Int) :
    ∃ L : List (Int × Int),
      (∀ fuel, max (x2 - cx).natAbs (y2 - cy).natAbs + 1 ≤ fuel →
        needle_pixels fuel cx cy x2 y2 = some L) ∧
      L.length = max (x2 - cx).natAbs (y2 - cy).natAbs + 1 ∧
      L.head? = some (cx, cy) ∧ L.getLast? = some (x2, y2) ∧
      L.Chain' (fun p q => |q.1 - p.1| ≤ 1 ∧ |q.2 - p.2| ≤ 1) ∧
      (∀ p, p ∈ L →
        min cx x2 ≤ p.1 ∧ p.1 ≤ max cx x2 ∧ min cy y2 ≤ p.2 ∧ p.2 ≤ max cy y2) :=
  needle_pixels_spec cx cy x2 y2

/-- C19 (witness): the needle of the gauge from `(63, 32)` to `(80, 12)`:
the loop stops within `30` iterations after plotting `21` points. -/
theorem C19_needle_path_witness :
    ∃ L : List (Int × Int), needle_pixels 30 63 32 80 12 = some L ∧ L.length = 21 := by
  obtain ⟨L, h1, h2, -⟩ := C19_needle_path 63 32 80 12
  exact ⟨L, h1 30 (by decide), by rw [h2]; decide⟩

/-- C20: exchanging the x and y coordinates of both the start and the end
point of `draw_needle` yields exactly the transposed sequence of plotted
points, in the same order, for every number of iterations allowed; and with
at least `max |x2 - cx| |y2 - cy| + 1` iterations both loops reach their
`break`, the second with the transposed points of the first. -/
theorem C20_needle_transpose (cx cy x2 y2 : Int) :
    (∀ fuel, needle_pixels fuel cy cx y2 x2 =
      (needle_pixels fuel cx cy x2 y2).map (List.map Prod.swap)) ∧
    (∃ L : List (Int × Int),
      ∀ fuel, max (x2 - cx).natAbs (y2 - cy).natAbs + 1 ≤ fuel →
        needle_pixels fuel cx cy x2 y2 = some L ∧
        needle_pixels fuel cy cx y2 x2 = some (L.map Prod.swap)) := by
  refine ⟨fun fuel => needle_pixels_swap fuel cx cy x2 y2, ?_⟩
  obtain ⟨L, hL, -⟩ := needle_pixels_spec cx cy x2 y2
  refine ⟨L, fun fuel hf => ⟨hL fuel hf, ?_⟩⟩
  rw [needle_pixels_swap fuel cx cy x2 y2, hL fuel hf]
  rfl

end Pot

namespace DDR

/-! ## Resolved arrows, display column, label and button wait -/

/-- Division by `200000` with truncation toward zero, by the sign of the
dividend. -/
theorem tdiv_200000 (d : Int) :
    Int.tdiv d 200000 = (if 0 ≤ d then d / 200000 else -((-d) / 200000)) := by
  by_cases h : 0 ≤ d
  · rw [if_pos h]
    exact Int.tdiv_eq_ediv h (by decide)
  · rw [if_neg h]
    have h1 : Int.tdiv (-(-d)) 200000 = -(Int.tdiv (-d) 200000) := Int.neg_tdiv (-d) 200000
    rw [neg_neg] at h1
    rw [h1, Int.tdiv_eq_ediv (by omega) (by decide)]

/-- An offset that fits in an `int` is not changed by the conversion. -/
theorem toInt32_of_fits (d : Int) (h1 : -2147483648 ≤ d) (h2 : d < 2147483648) :
    toInt32 d = d := by
  unfold toInt32
  omega

/-- The display column as a clamped quotient, for an offset that fits in an
`int`. -/
theorem scroll_column_eq (now hit_time : Int) (h : |hit_time - now| < 2147483648) :
    scroll_column now hit_time = max 0 (min 15 (Int.tdiv (hit_time - now) 200000)) := by
  obtain ⟨h1, h2⟩ := abs_lt.mp h
  unfold scroll_column absolute_time_diff_us
  rw [toInt32_of_fits _ (by omega) h2]
  simp only [MAX_CHARS]
  split_ifs <;> omega

/-- The array after the judgement loop of a tick at an index below
`arrow_count`: the arrow with its hit flag set if it was prompted, the arrow
itself otherwise. -/
theorem judge_pass_arrow (inp : TickInput) (s : DDRState) (i : Nat) (hi : i < s.arrow_count) :
    (judge_pass inp s).arrows i =
      (if prompted (inp.judge_now i) (s.arrows i) = true then { s.arrows i with hit := true }
       else s.arrows i) := by
  have h := judge_loop_arrows inp s s.arrow_count (Nat.le_refl _) i (by omega)
  unfold judge_pass
  rw [h]
  simp [hi]

/-- The active set after a tick: the arrows, as the judgement loop left them,
whose removal reading passes the window test. -/
theorem tick_active (inp : TickInput) (s : DDRState) :
    (tick inp s).active =
      ((List.range s.arrow_count).filter (fun k =>
        decide (absolute_time_diff_us ((judge_pass inp s).arrows k).hit_time (inp.remove_now k)
          < HIT_WINDOW_MS * 1000))).map (judge_pass inp s).arrows := by
  have hcount : (judge_pass inp s).arrow_count = s.arrow_count :=
    (judge_loop_count inp s.arrow_count s).1
  unfold tick
  rw [removal_pass_active, hcount]

/-- C22 (counterexample): one arrow due at `1000000`, prompted at
`now = 700000` and resolved by a matching press, the removal pass of the same
tick reading `1250000` (the `500` ms feedback later).  The pass keeps it, since
`1250000 - 1000000 < 400000`: the resolved arrow is still in the active set
when the next tick begins. -/
theorem C22_resolved_arrow_still_active :
    (tick { judge_now := fun _ => 700000, btn := fun _ => 1, remove_now := fun _ => 1250000 }
      (add_arrow_command 1 1000 0 DDRState.boot)).arrow_count = 1 ∧
    (tick { judge_now := fun _ => 700000, btn := fun _ => 1, remove_now := fun _ => 1250000 }
      (add_arrow_command 1 1000 0 DDRState.boot)).active =
      [{ arrow := 1, hit_time := 1000000, hit := true, counted := false }] := by
  decide!

/-- C22 (amended): an arrow that is resolved during a tick (it is prompted,
so the hit or the miss branch sets its hit flag) is never prompted again,
whatever the clock reads; it is still in the active set when the next tick
begins if the removal pass of the tick read `now - hit_time <
HIT_WINDOW_MS * 1000` for it, and it is absent from the active set if the
removal pass read a clock `now >= hit_time + 400000`. -/
theorem C22_resolved_arrow_after_tick (inp : TickInput) (s : DDRState) (i : Nat)
    (hi : i < s.arrow_count) (hp : prompted (inp.judge_now i) (s.arrows i) = true) :
    (judge_pass inp s).arrows i = { s.arrows i with hit := true } ∧
    (∀ now, prompted now { s.arrows i with hit := true } = false) ∧
    (absolute_time_diff_us (s.arrows i).hit_time (inp.remove_now i) < HIT_WINDOW_MS * 1000 →
      { s.arrows i with hit := true } ∈ (tick inp s).active) ∧
    (∀ now, (∀ k, k < s.arrow_count → inp.remove_now k = now) →
      (s.arrows i).hit_time + 400000 ≤ now →
      { s.arrows i with hit := true } ∉ (tick inp s).active) := by
  have hji : (judge_pass inp s).arrows i = { s.arrows i with hit := true } := by
    rw [judge_pass_arrow inp s i hi, if_pos hp]
  refine ⟨hji, ?_, ?_, ?_⟩
  · intro now
    simp [prompted]
  · intro hkeep
    rw [tick_active]
    apply List.mem_map.mpr
    refine ⟨i, ?_, hji⟩
    apply List.mem_filter.mpr
    refine ⟨List.mem_range.mpr hi, ?_⟩
    rw [hji]
    simpa using hkeep
  · intro now hnow hlate hmem
    rw [tick_active] at hmem
    obtain ⟨k, hk, hke⟩ := List.mem_map.mp hmem
    obtain ⟨hkr, hkk⟩ := List.mem_filter.mp hk
    have hklt : k < s.arrow_count := List.mem_range.mp hkr
    rw [hke, hnow k hklt] at hkk
    simp only [absolute_time_diff_us, HIT_WINDOW_MS, decide_eq_true_eq] at hkk
    omega

/-- C22 (witness): the arrow of the counterexample is kept by a removal pass
at `1250000`. -/
theorem C22_resolved_arrow_after_tick_witness :
    ({ arrow := 1, hit_time := 1000000, hit := true, counted := false } : ArrowCommand) ∈
      (tick { judge_now := fun _ => 700000, btn := fun _ => 1, remove_now := fun _ => 1250000 }
        (add_arrow_command 1 1000 0 DDRState.boot)).active :=
  (C22_resolved_arrow_after_tick
    { judge_now := fun _ => 700000, btn := fun _ => 1, remove_now := fun _ => 1250000 }
    (add_arrow_command 1 1000 0 DDRState.boot) 0 (by decide) (by decide)).2.2.1 (by decide)

/-- C23: for a fixed `hit_time` and clock readings `now1 <= now2` whose offsets
fit in an `int`, the column of `update_scrolling_arrows` is
`clamp((hit_time - now) / 200000, 0, MAX_CHARS - 1)` with the quotient truncated
toward zero; it does not increase from `now1` to `now2`, it lies in `0 .. 15`,
and it never goes below the hit zone column `HIT_ZONE_POS = 0`. -/
theorem C23_column_monotone (hit_time now1 now2 : Int) (h12 : now1 ≤ now2)
    (hr1 : |hit_time - now1| < 2147483648) (hr2 : |hit_time - now2| < 2147483648) :
    scroll_column now2 hit_time ≤ scroll_column now1 hit_time ∧
    scroll_column now1 hit_time =
      max 0 (min (MAX_CHARS - 1) (Int.tdiv (hit_time - now1) 200000)) ∧
    0 ≤ scroll_column now1 hit_time ∧ scroll_column now1 hit_time ≤ 15 ∧
    HIT_ZONE_POS ≤ scroll_column now1 hit_time ∧ HIT_ZONE_POS ≤ scroll_column now2 hit_time := by
  have e1 := scroll_column_eq now1 hit_time hr1
  have e2 := scroll_column_eq now2 hit_time hr2
  have t1 := tdiv_200000 (hit_time - now1)
  have t2 := tdiv_200000 (hit_time - now2)
  have hM : MAX_CHARS - 1 = 15 := rfl
  have hZ : HIT_ZONE_POS = 0 := rfl
  rw [hM, hZ, e1, e2, t1, t2]
  refine ⟨?_, rfl, ?_, ?_, ?_, ?_⟩ <;> split_ifs <;> omega

/-- C23 (witness): an arrow due at `3300000`, seen at `500000` (column `14`)
and at `3100000` (column `1`). -/
theorem C23_column_monotone_witness :
    scroll_column 3100000 3300000 ≤ scroll_column 500000 3300000 :=
  (C23_column_monotone 3300000 500000 3100000 (by decide) (by decide) (by decide)).1

/-- C29 (evaluation at the failing input): for `target_arrow = 0` (mode
character `C`) `strcpy` copies `"TRACK:LEFT"`, ten characters and the NUL:
`11` bytes into the `10`-byte buffer `arrow_name`.  `"TRACK:RIGHT"` needs `12`
bytes and `"TRACK:DOWN"` `11`; only `"TRACK:UP"` (`9` bytes) fits. -/
theorem C29_label_overflows_buffer :
    (arrow_name_label 0).map strcpy_bytes = some 11 ∧
    (arrow_name_label 1).map strcpy_bytes = some 9 ∧
    (arrow_name_label 2).map strcpy_bytes = some 12 ∧
    (arrow_name_label 3).map strcpy_bytes = some 11 ∧
    arrow_name_size = 10 ∧
    mode_target 'C' = 0 ∧ mode_target 'A' = 1 ∧ mode_target 'D' = 2 ∧ mode_target 'B' = 3 := by
  decide

/-- C30: when the judgement loop prompts for arrow `i` at clock reading `now`
and `wait_for_button_press` returns the matching button, the judgement ends
in the same state whatever the polls of the wait were (how long the player
took to press): the offset passed to `register_hit` is the one read before
the wait, so score, combo and tracked counter are those of
`register_hit` applied to that offset. -/
theorem C30_tier_independent_of_press_time (now start1 start2 : Int)
    (polls1 polls2 : List (Int × Int)) (i : Nat) (s : DDRState)
    (hp : prompted now (s.arrows i) = true)
    (h1 : wait_for_button_press HIT_WINDOW_MS.toNat start1 polls1 = some (s.arrows i).arrow)
    (h2 : wait_for_button_press HIT_WINDOW_MS.toNat start2 polls2 = some (s.arrows i).arrow) :
    judge_with_wait now start1 polls1 i s = judge_with_wait now start2 polls2 i s ∧
    ∃ s1, judge_with_wait now start1 polls1 i s = some s1 ∧
      s1.score = (register_hit (toUInt32 (toInt32 (absolute_time_diff_us now (s.arrows i).hit_time)))
        (s.arrows i).arrow s).score ∧
      s1.combo = (register_hit (toUInt32 (toInt32 (absolute_time_diff_us now (s.arrows i).hit_time)))
        (s.arrows i).arrow s).combo ∧
      s1.target_arrow_count =
        (register_hit (toUInt32 (toInt32 (absolute_time_diff_us now (s.arrows i).hit_time)))
          (s.arrows i).arrow s).target_arrow_count := by
  have e1 : judge_with_wait now start1 polls1 i s = some (judge now (s.arrows i).arrow i s) := by
    simp [judge_with_wait, hp, h1]
  have e2 : judge_with_wait now start2 polls2 i s = some (judge now (s.arrows i).arrow i s) := by
    simp [judge_with_wait, hp, h2]
  refine ⟨by rw [e1, e2], judge now (s.arrows i).arrow i s, e1, ?_⟩
  rw [judge_hit now (s.arrows i).arrow i s hp rfl]
  exact ⟨rfl, rfl, rfl⟩

/-- C30 (witness): an arrow due at `1000000`, prompted at `700000`; the UP
button is found at the first poll in one run and after `300` ms of polling in
the other. -/
theorem C30_tier_independent_of_press_time_witness :
    judge_with_wait 700000 700100 [(700110, 1)] 0 (add_arrow_command 1 1000 0 DDRState.boot) =
      judge_with_wait 700000 700100
        [(700110, -1), (800000, -1), (900000, -1), (1000200, 1)] 0
        (add_arrow_command 1 1000 0 DDRState.boot) :=
  (C30_tier_independent_of_press_time 700000 700100 700100 [(700110, 1)]
    [(700110, -1), (800000, -1), (900000, -1), (1000200, 1)] 0
    (add_arrow_command 1 1000 0 DDRState.boot) (by decide) (by decide) (by decide)).1

end DDR

namespace Pot

/-! ## Text and zone selection of potentiometer_v3.c -/

/-- The value of `gi` lies in `0 .. 38`. -/
theorem pot_gi_range (c : Int) : 0 ≤ gi c ∧ gi c ≤ 38 := by
  unfold gi
  split_ifs <;> omega

/-- The function `glyph8` reads the font only at `g * 8 .. g * 8 + 7`. -/
theorem pot_glyph8_congr (x y g : Int) (font font2 : Int → Nat) (fb : Nat → Nat)
    (h : ∀ cx : Nat, cx < 8 → font (g * 8 + (cx : Int)) = font2 (g * 8 + (cx : Int))) :
    glyph8 x y g font fb = glyph8 x y g font2 fb := by
  unfold glyph8
  apply List.foldl_ext
  intro f cx hcx
  rw [h cx (List.mem_range.mp hcx)]

/-- The function `dstr` reads the font only at the offsets `0 .. 311`. -/
theorem pot_dstr_congr (x y : Int) (font font2 : Int → Nat) (s : List Int) (fb : Nat → Nat)
    (h : ∀ k : Int, 0 ≤ k → k ≤ 311 → font k = font2 k) :
    dstr x y font s fb = dstr x y font2 s fb := by
  induction s generalizing x fb with
  | nil => rfl
  | cons c s ih =>
    simp only [dstr]
    split_ifs
    · rfl
    · have hg := pot_gi_range c
      rw [pot_glyph8_congr x y (gi c) font font2 fb
        (fun cx hcx => h _ (by omega) (by omega)), ih]

/-- The bytes of a start position in `0 .. 160`: the value and three zero
bytes. -/
theorem int_bytes_small (v : Int) (h0 : 0 ≤ v) (h1 : v ≤ 160) :
    int_bytes v = [v.toNat, 0, 0, 0] := by
  unfold int_bytes
  have e : (v % 4294967296).toNat = v.toNat := by omega
  simp only [e]
  have h2 : v.toNat ≤ 160 := by omega
  congr 1
  · omega
  · congr 1
    · omega
    · congr 1
      · omega
      · congr 1
        omega

/-- The test of `memchr` on start positions in `0 .. 160`: it finds the
candidate `c` exactly when `c` equals an earlier entry, or `c` is `0` and there
is an earlier entry (whose upper bytes are `0`). -/
theorem memchr_used_iff (used : Nat → Int) (c : Int) (r : Nat)
    (hc : 0 ≤ c ∧ c ≤ 160) (hu : ∀ i, i < r → 0 ≤ used i ∧ used i ≤ 160) :
    memchr_used used c r = true ↔ ((∃ i, i < r ∧ used i = c) ∨ (c = 0 ∧ 0 < r)) := by
  unfold memchr_used
  have ec : (c % 256).toNat = c.toNat := by omega
  simp only [decide_eq_true_eq, List.mem_flatMap, List.mem_range, ec]
  constructor
  · rintro ⟨i, hi, hm⟩
    have hui := hu i hi
    rw [int_bytes_small (used i) hui.1 hui.2] at hm
    simp only [List.mem_cons, List.mem_singleton, List.not_mem_nil, or_false, or_self] at hm
    rcases hm with hm | hm
    · left
      exact ⟨i, hi, by omega⟩
    · right
      exact ⟨by omega, by omega⟩
  · rintro (⟨i, hi, he⟩ | ⟨h0, hr⟩)
    · have hui := hu i hi
      refine ⟨i, hi, ?_⟩
      rw [int_bytes_small (used i) hui.1 hui.2, he]
      simp
    · have hui := hu 0 hr
      refine ⟨0, hr, ?_⟩
      rw [int_bytes_small (used 0) hui.1 hui.2, h0]
      simp

/-- The candidate that the selection loop accepts lies in `0 .. 160` and is
not found by `memchr`. -/
theorem select_start_spec (used : Nat → Int) (r : Nat) (rands : List Nat) (s : Int)
    (rest : List Nat) (h : select_start used r rands = some (s, rest)) :
    0 ≤ s ∧ s ≤ 160 ∧ memchr_used used s r = false := by
  induction rands with
  | nil => simp [select_start] at h
  | cons v rands ih =>
    simp only [select_start] at h
    by_cases hm : memchr_used used ((v : Int) % (181 - TARGET_ZONE_WIDTH)) r = true
    · rw [if_pos hm] at h
      exact ih h
    · rw [if_neg hm] at h
      simp only [Option.some.injEq, Prod.mk.injEq] at h
      have hT : (181 : Int) - TARGET_ZONE_WIDTH = 161 := rfl
      rw [hT] at h hm
      refine ⟨by omega, by omega, ?_⟩
      rw [← h.1]
      simpa using hm

/-- Invariant of the loop over the rounds: the entries of `used` below the
round index lie in `0 .. 160` and are pairwise distinct. -/
theorem rounds_loop_spec (n : Nat) : ∀ (r : Nat) (used : Nat → Int) (rands : List Nat)
    (used2 : Nat → Int),
    (∀ i, i < r → 0 ≤ used i ∧ used i ≤ 160) →
    (∀ i j, i < j → j < r → used i ≠ used j) →
    rounds_loop n r used rands = some used2 →
    (∀ i, i < r + n → 0 ≤ used2 i ∧ used2 i ≤ 160) ∧
    (∀ i j, i < j → j < r + n → used2 i ≠ used2 j) := by
  induction n with
  | zero =>
    intro r used rands used2 hr hd h
    simp only [rounds_loop, Option.some.injEq] at h
    subst h
    exact ⟨hr, hd⟩
  | succ n ih =>
    intro r used rands used2 hr hd h
    simp only [rounds_loop] at h
    cases hs : select_start used r rands with
    | none => rw [hs] at h; simp at h
    | some p =>
      obtain ⟨s, rest⟩ := p
      rw [hs] at h
      simp only at h
      obtain ⟨h0, h1, hm⟩ := select_start_spec used r rands s rest hs
      have hnot : ¬ ((∃ i, i < r ∧ used i = s) ∨ (s = 0 ∧ 0 < r)) := by
        rw [← memchr_used_iff used s r ⟨h0, h1⟩ hr, hm]
        simp
      have hr2 : ∀ i, i < r + 1 → 0 ≤ Function.update used r s i ∧
          Function.update used r s i ≤ 160 := by
        intro i hi
        by_cases hir : i = r
        · subst hir
          simp [h0, h1]
        · rw [Function.update_noteq hir]
          exact hr i (by omega)
      have hd2 : ∀ i j, i < j → j < r + 1 →
          Function.update used r s i ≠ Function.update used r s j := by
        intro i j hij hj
        have hir : i ≠ r := by omega
        rw [Function.update_noteq hir]
        by_cases hjr : j = r
        · subst hjr
          simp only [Function.update_same]
          intro he
          exact hnot (Or.inl ⟨i, hij, he⟩)
        · rw [Function.update_noteq hjr]
          exact hd i j hij (by omega)
      have := ih (r + 1) (Function.update used r s) rest used2 hr2 hd2 h
      have e : r + 1 + n = r + (n + 1) := by omega
      rw [e] at this
      exact this

/-- C28: whenever the selection loops of `main` terminate on the given
values of `rand()`, the five start positions stored in `used[0 .. 4]` are
pairwise distinct, each lies in `0 .. 160`, and every zone
`[s, s + TARGET_ZONE_WIDTH]` lies within `0 .. 180`.  The repetition check of
the model is `memchr` over the bytes of the `r` earlier entries, searching for
the candidate converted to `unsigned char`; on such entries it finds the
candidate exactly when it equals an earlier entry or is `0` with an earlier
entry present. -/
theorem C28_zone_starts_distinct (rands : List Nat) (zones : List Int)
    (h : main_zones rands = some zones) :
    zones.length = 5 ∧ zones.Nodup ∧
    (∀ s, s ∈ zones → 0 ≤ s ∧ s ≤ 160 ∧ s + TARGET_ZONE_WIDTH ≤ 180) ∧
    (∀ (used : Nat → Int) (c : Int) (r : Nat), 0 ≤ c ∧ c ≤ 160 →
      (∀ i, i < r → 0 ≤ used i ∧ used i ≤ 160) →
      (memchr_used used c r = true ↔ ((∃ i, i < r ∧ used i = c) ∨ (c = 0 ∧ 0 < r)))) := by
  unfold main_zones at h
  cases hl : rounds_loop NUM_ROUNDS 0 (fun _ => -1) rands with
  | none => rw [hl] at h; simp at h
  | some used =>
    rw [hl] at h
    simp only [Option.map_some', Option.some.injEq] at h
    obtain ⟨hr, hd⟩ := rounds_loop_spec NUM_ROUNDS 0 (fun _ => -1) rands used
      (fun i hi => absurd hi (Nat.not_lt_zero i))
      (fun i j _ hj => absurd hj (Nat.not_lt_zero j)) hl
    have hN : 0 + NUM_ROUNDS = 5 := rfl
    rw [hN] at hr hd
    subst h
    refine ⟨by simp [used_list, NUM_ROUNDS], ?_, ?_, ?_⟩
    · unfold used_list
      apply List.Nodup.map_on
      · intro i hi j hj he
        have hi5 : i < 5 := List.mem_range.mp hi
        have hj5 : j < 5 := List.mem_range.mp hj
        by_contra hne
        rcases Nat.lt_or_gt_of_ne hne with hlt | hgt
        · exact hd i j hlt hj5 he
        · exact hd j i hgt hi5 he.symm
      · exact List.nodup_range NUM_ROUNDS
    · intro s hs
      unfold used_list at hs
      obtain ⟨i, hi, he⟩ := List.mem_map.mp hs
      have hi5 : i < 5 := List.mem_range.mp hi
      have := hr i hi5
      have hT : TARGET_ZONE_WIDTH = 20 := rfl
      rw [hT, ← he]
      omega
    · intro used2 c r hc hu
      exact memchr_used_iff used2 c r hc hu

/-- C28 (witness): the values `10, 10, 30, 0, 50, 70, 90` of `rand()`; the
repeated `10` and the `0` are rejected. -/
theorem C28_zone_starts_distinct_witness :
    main_zones [10, 10, 30, 0, 50, 70, 90] = some [10, 30, 50, 70, 90] ∧
    ([10, 30, 50, 70, 90] : List Int).Nodup :=
  ⟨by decide!,
   (C28_zone_starts_distinct [10, 10, 30, 0, 50, 70, 90] [10, 30, 50, 70, 90] (by decide!)).2.1⟩

end Pot

namespace Doom

/-! ## Text -/

/-- The value of `gi` lies in `0 .. 38`. -/
theorem gi_range (c : Int) : 0 ≤ gi c ∧ gi c ≤ 38 := by
  unfold gi
  split_ifs <;> omega

/-- The function `glyph8` reads the font only at `g * 8 .. g * 8 + 7`. -/
theorem glyph8_congr (x y g : Int) (font font2 : Int → Nat) (fb : Nat → Nat)
    (h : ∀ cx : Nat, cx < 8 → font (g * 8 + (cx : Int)) = font2 (g * 8 + (cx : Int))) :
    glyph8 x y g font fb = glyph8 x y g font2 fb := by
  unfold glyph8
  apply List.foldl_ext
  intro f cx hcx
  rw [h cx (List.mem_range.mp hcx)]

/-- The function `dstr` reads the font only at the offsets `0 .. 311`. -/
theorem dstr_congr (x y : Int) (font font2 : Int → Nat) (s : List Int) (fb : Nat → Nat)
    (h : ∀ k : Int, 0 ≤ k → k ≤ 311 → font k = font2 k) :
    dstr x y font s fb = dstr x y font2 s fb := by
  induction s generalizing x fb with
  | nil => rfl
  | cons c s ih =>
    simp only [dstr]
    split_ifs
    · rfl
    · have hg := gi_range c
      rw [glyph8_congr x y (gi c) font font2 fb
        (fun cx hcx => h _ (by omega) (by omega)), ih]

/-! ## The helper `i2c_write_safe` -/

/-- While every attempt fails and ends after the deadline, the loop of
`i2c_write_safe` does not return. -/
theorem i2c_write_loop_late (n : Nat) (until_ : Int) (attempts : List (Int × Int))
    (h : ∀ a, a ∈ attempts → a.1 ≠ size_to_int n ∧ until_ < a.2) :
    i2c_write_loop n until_ attempts = none := by
  induction attempts with
  | nil => rfl
  | cons a rest ih =>
    obtain ⟨w, now⟩ := a
    have ha := h (w, now) (List.mem_cons_self _ _)
    have hlate : ¬ (absolute_time_diff_us until_ now ≤ 0) := by
      unfold absolute_time_diff_us
      have := ha.2
      simp only at this
      omega
    simp only [i2c_write_loop]
    rw [if_neg ha.1, if_neg hlate]
    exact ih (fun a ha => h a (List.mem_cons_of_mem _ ha))

/-! ## The round loop -/

/-- A pass that ends at the win check makes no call of `shoot()`. -/
theorem round_tick_won (t : RoundTick) (l : RoundLoop) (h : elapsed t l ≥ SURVIVE_MS) :
    (round_tick t l).2 = some RoundEnd.won ∧ (round_tick t l).1.shots = l.shots := by
  unfold round_tick
  simp only [h, if_true, and_self]

/-- A pass that gets past the win check calls `shoot()` once if the button
reads pressed and `prev` is released, and not at all otherwise; it leaves the
level read in `prev`. -/
theorem round_tick_shots (t : RoundTick) (l : RoundLoop) (h : ¬ elapsed t l ≥ SURVIVE_MS) :
    (round_tick t l).1.shots = l.shots + (if t.b = false ∧ l.prev = true then 1 else 0) ∧
    (round_tick t l).1.prev = t.b := by
  unfold round_tick
  simp only [h, if_false]
  cases hb : t.b <;> cases hp : l.prev <;> split_ifs <;> simp_all

/-- A pass that gets past the win check, as the composition of its
sections: the state before the button is read, `shoot()` applied to it exactly
when the button reads pressed and `prev` is released, and the rest of the
pass. -/
theorem round_tick_sections (t : RoundTick) (l : RoundLoop) (h : ¬ elapsed t l ≥ SURVIVE_MS) :
    (round_tick t l).1.st =
      (after_button t (if t.b = false ∧ l.prev = true then shoot (before_button t l)
        else before_button t l)).1 ∧
    (round_tick t l).2 =
      (after_button t (if t.b = false ∧ l.prev = true then shoot (before_button t l)
        else before_button t l)).2 := by
  unfold round_tick after_button before_button after_spawn
  simp only [h, if_false, decide_eq_true_eq]
  cases t.b <;> cases l.prev <;>
    simp only [Bool.not_false, Bool.not_true, Bool.and_true, Bool.and_false, Bool.true_and,
      Bool.false_and, if_true, if_false, and_self, and_true, and_false, true_and, false_and,
      Bool.false_eq_true, Bool.true_eq_false] <;>
    split_ifs <;> exact ⟨rfl, rfl⟩

/-- A pass that ends at the win check leaves the game state as the spawn
section left it. -/
theorem round_tick_won_state (t : RoundTick) (l : RoundLoop) (h : elapsed t l ≥ SURVIVE_MS) :
    (round_tick t l).1.st = after_spawn t l ∧ (round_tick t l).1.prev = l.prev := by
  unfold round_tick after_spawn
  simp only [h, if_true]
  split_ifs <;> simp_all

/-- The calls of `shoot()` of a run are the released-to-pressed transitions
of the button levels read. -/
theorem run_round_shots (ticks : List RoundTick) (l : RoundLoop) :
    (run_round ticks l).1.shots = l.shots + edges l.prev (buttons_read ticks l) := by
  induction ticks generalizing l with
  | nil => simp [run_round, buttons_read, edges]
  | cons t ts ih =>
    by_cases hw : elapsed t l ≥ SURVIVE_MS
    · have h1 := round_tick_won t l hw
      have hne : ¬ ((round_tick t l).2 = none) := by rw [h1.1]; simp
      simp only [run_round, buttons_read, hw, if_true, hne, if_false, edges, h1.2, add_zero]
    · have h1 := round_tick_shots t l hw
      by_cases hn : (round_tick t l).2 = none
      · simp only [run_round, buttons_read, hw, if_false, hn, if_true, edges]
        rw [ih (round_tick t l).1, h1.1, h1.2]
        omega
      · simp only [run_round, buttons_read, hw, if_false, hn, edges]
        rw [h1.1]
        omega

/-- Every level in the list of levels read is the level of one of the
passes. -/
theorem buttons_read_mem (ticks : List RoundTick) (l : RoundLoop) (b : Bool)
    (h : b ∈ buttons_read ticks l) : ∃ t, t ∈ ticks ∧ t.b = b := by
  induction ticks generalizing l with
  | nil => simp [buttons_read] at h
  | cons t ts ih =>
    simp only [buttons_read] at h
    split_ifs at h with hw hn
    · simp at h
    · rcases List.mem_cons.mp h with h | h
      · exact ⟨t, List.mem_cons_self _ _, h.symm⟩
      · obtain ⟨t2, ht2, hb⟩ := ih _ h
        exact ⟨t2, List.mem_cons_of_mem _ ht2, hb⟩
    · rcases List.mem_cons.mp h with h | h
      · exact ⟨t, List.mem_cons_self _ _, h.symm⟩
      · simp at h

/-- No transition is counted while the button stays pressed. -/
theorem edges_pressed (bs : List Bool) (h : ∀ b, b ∈ bs → b = false) : edges false bs = 0 := by
  induction bs with
  | nil => rfl
  | cons b bs ih =>
    have hb : b = false := h b (List.mem_cons_self _ _)
    subst hb
    simp only [edges, Bool.false_eq_true, and_false, if_false, zero_add]
    exact ih (fun b hb => h b (List.mem_cons_of_mem _ hb))

/-- A button that is pressed and held makes one transition. -/
theorem edges_hold (bs : List Bool) (h : ∀ b, b ∈ bs → b = false) (hne : bs ≠ []) :
    edges true bs = 1 := by
  cases bs with
  | nil => exact absurd rfl hne
  | cons b bs =>
    have hb : b = false := h b (List.mem_cons_self _ _)
    subst hb
    simp only [edges, and_self, if_true]
    rw [edges_pressed bs (fun b hb => h b (List.mem_cons_of_mem _ hb))]

/-! ## Order of the live enemies -/

/-- At the start of a round no enemy is below `Ec`. -/
theorem live_sorted_round_start (cx cy : Nat) : live_sorted (DoomState.round_start cx cy) := by
  constructor
  · intro i j _ hj
    exact absurd hj (Nat.not_lt_zero j)
  · intro i hi
    exact absurd hi (Nat.not_lt_zero i)

/-- The order of the live enemies is kept by `spawn()`. -/
theorem live_sorted_spawn (r1 r2 : Nat) (st : DoomState) (h : live_sorted st) :
    live_sorted (spawn r1 r2 st) := by
  unfold spawn
  split
  · obtain ⟨h1, h2⟩ := h
    constructor
    · intro i j hij hj hli hlj
      have hj2 : j < st.Ec + 1 := hj
      have hine : i ≠ st.Ec := by omega
      simp only [Function.update_noteq hine] at hli ⊢
      by_cases hje : j = st.Ec
      · subst hje
        simp only [Function.update_same]
        exact h2 i hij hli
      · simp only [Function.update_noteq hje] at hlj ⊢
        exact h1 i j hij (by omega) hli hlj
    · intro i hi hli
      have hi2 : i < st.Ec + 1 := hi
      by_cases hie : i = st.Ec
      · subst hie
        simp only [Function.update_same]
        exact le_refl _
      · simp only [Function.update_noteq hie] at hli ⊢
        exact h2 i (by omega) hli
  · exact h

/-- The order of the live enemies is kept by `update()`. -/
theorem live_sorted_update (st : DoomState) (h : live_sorted st) :
    live_sorted (update st).1 := by
  obtain ⟨h1, h2⟩ := h
  obtain ⟨hrec, hE, _, _⟩ := update_loop_spec st st.Ec
  have hEc : (update st).1.Ec = st.Ec := by
    show (update_loop st.Ec st).1.Ec = st.Ec
    rw [hrec]
  have hEi : ∀ i, (update st).1.E i =
      (if i < st.Ec ∧ (st.E i).live ≠ 0 then { st.E i with s := (st.E i).s + GROWTH }
       else st.E i) := hE
  have hlive : ∀ i, ((update st).1.E i).live = (st.E i).live := by
    intro i
    rw [hEi i]
    split_ifs <;> rfl
  have hG : (0 : ℚ) ≤ GROWTH := by unfold GROWTH; norm_num
  constructor
  · intro i j hij hj hli hlj
    rw [hEc] at hj
    rw [hlive i] at hli
    rw [hlive j] at hlj
    have := h1 i j hij hj hli hlj
    have ei : (update st).1.E i = { st.E i with s := (st.E i).s + GROWTH } := by
      rw [hEi i, if_pos ⟨by omega, hli⟩]
    have ej : (update st).1.E j = { st.E j with s := (st.E j).s + GROWTH } := by
      rw [hEi j, if_pos ⟨hj, hlj⟩]
    rw [ei, ej]
    show (st.E j).s + GROWTH ≤ (st.E i).s + GROWTH
    linarith
  · intro i hi hli
    rw [hEc] at hi
    rw [hlive i] at hli
    have := h2 i hi hli
    rw [hEi i, if_pos ⟨hi, hli⟩]
    show START_SZ ≤ (st.E i).s + GROWTH
    linarith

/-- The order of the live enemies is kept by `shoot()`. -/
theorem live_sorted_shoot (st : DoomState) (h : live_sorted st) : live_sorted (shoot st) := by
  rcases shoot_cases st with he | ⟨k, _, _, he⟩
  · rw [he]
    exact h
  · rw [he]
    obtain ⟨h1, h2⟩ := h
    constructor
    · intro i j hij hj hli hlj
      have hik : i ≠ k := by
        intro e
        subst e
        simp at hli
      have hjk : j ≠ k := by
        intro e
        subst e
        simp at hlj
      simp only [Function.update_noteq hik, Function.update_noteq hjk] at hli hlj ⊢
      exact h1 i j hij hj hli hlj
    · intro i hi hli
      have hik : i ≠ k := by
        intro e
        subst e
        simp at hli
      simp only [Function.update_noteq hik] at hli ⊢
      exact h2 i hi hli

/-- The order of the live enemies is kept by every call of the round loop. -/
theorem live_sorted_apply (op : DoomOp) (st : DoomState) (h : live_sorted st) :
    live_sorted (op.apply st) := by
  cases op with
  | spawn r1 r2 => exact live_sorted_spawn r1 r2 st h
  | shoot => exact live_sorted_shoot st h
  | update => exact live_sorted_update st h
  | update_crosshair x y => exact h

/-- The order of the live enemies is kept by every sequence of calls. -/
theorem live_sorted_exec (ops : List DoomOp) (st : DoomState) (h : live_sorted st) :
    live_sorted (exec ops st) := by
  induction ops generalizing st with
  | nil => exact h
  | cons op ops ih => exact ih (op.apply st) (live_sorted_apply op st h)

/-- The order of the live enemies is kept by a pass through the round
loop. -/
theorem live_sorted_round_tick (t : RoundTick) (l : RoundLoop) (h : live_sorted l.st) :
    live_sorted (round_tick t l).1.st := by
  have hsp : live_sorted (spawn t.r1 t.r2 l.st) := live_sorted_spawn _ _ _ h
  have sec : ∀ (st : DoomState) (x : Int), live_sorted st →
      live_sorted { st with seconds_left := x } := fun _ _ hst => hst
  unfold round_tick
  simp only []
  split_ifs
  all_goals first
    | exact hsp
    | exact h
    | exact live_sorted_update _ (live_sorted_shoot _ (sec (spawn t.r1 t.r2 l.st) _ hsp))
    | exact live_sorted_update _ (live_sorted_shoot _ (sec l.st _ h))
    | exact live_sorted_update _ (sec (spawn t.r1 t.r2 l.st) _ hsp)
    | exact live_sorted_update _ (sec l.st _ h)

/-- The order of the live enemies is kept by a run of the round loop. -/
theorem live_sorted_run_round (ticks : List RoundTick) (l : RoundLoop) (h : live_sorted l.st) :
    live_sorted (run_round ticks l).1.st := by
  induction ticks generalizing l with
  | nil => exact h
  | cons t ts ih =>
    simp only [run_round]
    split_ifs
    · exact ih _ (live_sorted_round_tick t l h)
    · exact live_sorted_round_tick t l h

/-- With the live enemies in order, the enemy that `shoot()` deactivates
passes its hit test and is at least as large as every live enemy that passes
its own. -/
theorem shoot_largest (st : DoomState) (h : live_sorted st) (k : Nat)
    (hl : (st.E k).live ≠ 0) (hd : ((shoot st).E k).live = 0) :
    hit_test (st.E k) st.cross_x st.cross_y = true ∧
    ∀ j, j < st.Ec → (st.E j).live ≠ 0 → hit_test (st.E j) st.cross_x st.cross_y = true →
      (st.E j).s ≤ (st.E k).s := by
  by_cases hex : ∃ k0, k0 < st.Ec ∧
      ((st.E k0).live ≠ 0 ∧ hit_test (st.E k0) st.cross_x st.cross_y = true)
  · classical
    obtain ⟨k0, hk0, hmin⟩ : ∃ k0, (k0 < st.Ec ∧
        ((st.E k0).live ≠ 0 ∧ hit_test (st.E k0) st.cross_x st.cross_y = true)) ∧
        ∀ j, j < k0 →
          ¬ (j < st.Ec ∧
            ((st.E j).live ≠ 0 ∧ hit_test (st.E j) st.cross_x st.cross_y = true)) :=
      ⟨Nat.find hex, Nat.find_spec hex, fun j hj => Nat.find_min hex hj⟩
    have he : shoot st =
        { st with E := Function.update st.E k0 { st.E k0 with live := 0 } } := by
      apply (shoot_loop_spec st st.Ec 0).2 k0 (Nat.zero_le _) (by omega) hk0.2
      intro j _ hj hP
      exact hmin j hj ⟨by omega, hP⟩
    have hkk : k = k0 := by
      by_contra hne
      rw [he] at hd
      simp only [Function.update_noteq hne] at hd
      exact hl hd
    subst hkk
    refine ⟨hk0.2.2, ?_⟩
    intro j hj hlj hhj
    rcases Nat.lt_trichotomy j k with hlt | heq | hgt
    · exact absurd ⟨hj, hlj, hhj⟩ (hmin j hlt)
    · rw [heq]
    · exact h.1 k j hgt hj hk0.2.1 hlj
  · have he : shoot st = st := by
      apply (shoot_loop_spec st st.Ec 0).1
      intro j _ hj hP
      exact hex ⟨j, by omega, hP⟩
    rw [he] at hd
    exact absurd hd hl

/-! ## The claims on text, transport and round loop -/

/-- C21: `gi(c)` is `1 +` the letter index for `A .. Z` and the same value
for the corresponding lower-case letter, `27 + d` for the digit `d`, `37` for
`!`, `38` for `-`, and `0` for every other character value; the result is in
`0 .. 38`, so every offset `gi(c) * 8 + cx` that `glyph8` reads lies in
`0 .. 311`, and the frame `dstr` produces for any string is determined by the
font bytes at the offsets `0 .. 311` alone.  The functions of the same names
in potentiometer_v3.c behave alike. -/
theorem C21_gi_in_font (c : Int) :
    (65 ≤ c ∧ c ≤ 90 → gi c = 1 + (c - 65) ∧ gi (c + 32) = gi c) ∧
    (97 ≤ c ∧ c ≤ 122 → gi c = 1 + (c - 97)) ∧
    (48 ≤ c ∧ c ≤ 57 → gi c = 27 + (c - 48)) ∧
    (c = 33 → gi c = 37) ∧ (c = 45 → gi c = 38) ∧
    (¬ (65 ≤ c ∧ c ≤ 90) → ¬ (97 ≤ c ∧ c ≤ 122) → ¬ (48 ≤ c ∧ c ≤ 57) → c ≠ 33 → c ≠ 45 →
      gi c = 0) ∧
    (0 ≤ gi c ∧ gi c ≤ 38) ∧
    (∀ cx : Nat, cx < 8 → 0 ≤ gi c * 8 + (cx : Int) ∧ gi c * 8 + (cx : Int) ≤ 311) ∧
    Pot.gi c = gi c ∧
    (∀ (x y : Int) (font font2 : Int → Nat) (s : List Int) (fb : Nat → Nat),
      (∀ k : Int, 0 ≤ k → k ≤ 311 → font k = font2 k) →
      dstr x y font s fb = dstr x y font2 s fb ∧
      Pot.dstr x y font s fb = Pot.dstr x y font2 s fb) := by
  have hr := gi_range c
  refine ⟨?_, ?_, ?_, ?_, ?_, ?_, hr, ?_, rfl, ?_⟩
  · intro h
    unfold gi
    constructor
    · split_ifs <;> omega
    · split_ifs <;> omega
  · intro h
    unfold gi
    split_ifs <;> omega
  · intro h
    unfold gi
    split_ifs <;> omega
  · intro h
    unfold gi
    split_ifs <;> omega
  · intro h
    unfold gi
    split_ifs <;> omega
  · intro h1 h2 h3 h4 h5
    unfold gi
    split_ifs <;> omega
  · intro cx hcx
    omega
  · intro x y font font2 s fb h
    exact ⟨dstr_congr x y font font2 s fb h, Pot.pot_dstr_congr x y font font2 s fb h⟩

/-- C21 (witness): `G` (code `71`) and `g` (code `103`) both map to glyph
`7`. -/
theorem C21_gi_in_font_witness :
    (gi 71 = 1 + (71 - 65) ∧ gi (71 + 32) = gi 71) ∧ gi 103 = 1 + (103 - 97) :=
  ⟨(C21_gi_in_font 71).1 (by decide), (C21_gi_in_font 103).2.1 (by decide)⟩

/-- C24 (evaluation at the failing inputs): a write of `2` bytes called at
clock `0`.  When the first attempt fails and the clock then reads `60`, the
function returns `false` at once, `60` microseconds after the call, although
the attempt that would follow succeeds.  When the first failed attempt ends
`600` microseconds after the call, past the deadline, and every later attempt
fails too, the function has not returned after any number `k` of attempts,
the clock advancing by `50` microseconds on each.  An attempt that writes
both bytes returns `true`. -/
theorem C24_deadline_test_inverted :
    i2c_write_safe 2 0 [(-1, 60), (2, 120)] = some false ∧
    (∀ k, i2c_write_safe 2 0 (failing_attempts 0 600 50 k) = none) ∧
    i2c_write_safe 2 0 [(2, 60)] = some true ∧
    i2c_write_safe 2 0 [(-1, 600), (2, 660)] = some true := by
  refine ⟨by decide, ?_, by decide, by decide⟩
  intro k
  unfold i2c_write_safe
  apply i2c_write_loop_late
  intro a ha
  unfold failing_attempts at ha
  obtain ⟨i, _, hi⟩ := List.mem_map.mp ha
  subst hi
  have hne : (-1 : Int) ≠ size_to_int 2 := by decide
  refine ⟨hne, ?_⟩
  simp only [delayed_by_us]
  omega

/-- C26: a pass of the round loop that reads the button calls `shoot()`
exactly when the level read is pressed (`b = 0`) and `prev` is released: then
the game state of the pass is that of `update()` and `render_world()` run on
`shoot()` of the state the pass had when it read the button, and the count of
calls rises by one; otherwise `update()` and `render_world()` run on that state
itself and the count is unchanged; either way the level read is left in
`prev`.  A pass that ends at the win check reads no button, calls nothing and
leaves `prev`.  A round starts with `prev` released and no call made.  Hence
the number of calls of `shoot()` of a run is the number of released-to-pressed
transitions in the levels read, and a button that reads pressed on every pass
of a run that starts with `prev` released fires exactly one shot. -/
theorem C26_shoot_on_press_edge (ticks : List RoundTick) (l : RoundLoop) :
    (∀ t : RoundTick, ¬ elapsed t l ≥ SURVIVE_MS →
      (t.b = false ∧ l.prev = true →
        (round_tick t l).1.st = (after_button t (shoot (before_button t l))).1 ∧
        (round_tick t l).2 = (after_button t (shoot (before_button t l))).2 ∧
        (round_tick t l).1.shots = l.shots + 1) ∧
      (¬ (t.b = false ∧ l.prev = true) →
        (round_tick t l).1.st = (after_button t (before_button t l)).1 ∧
        (round_tick t l).2 = (after_button t (before_button t l)).2 ∧
        (round_tick t l).1.shots = l.shots) ∧
      (round_tick t l).1.prev = t.b) ∧
    (∀ t : RoundTick, elapsed t l ≥ SURVIVE_MS →
      (round_tick t l).2 = some RoundEnd.won ∧
      (round_tick t l).1.st = after_spawn t l ∧
      (round_tick t l).1.shots = l.shots ∧
      (round_tick t l).1.prev = l.prev) ∧
    (∀ cx cy start_ms : Nat, (RoundLoop.start cx cy start_ms).prev = true ∧
      (RoundLoop.start cx cy start_ms).shots = 0) ∧
    (run_round ticks l).1.shots = l.shots + edges l.prev (buttons_read ticks l) ∧
    (l.prev = true → (∀ t, t ∈ ticks → t.b = false) → buttons_read ticks l ≠ [] →
      (run_round ticks l).1.shots = l.shots + 1) := by
  refine ⟨?_, ?_, fun _ _ _ => ⟨rfl, rfl⟩, run_round_shots ticks l, ?_⟩
  · intro t ht
    obtain ⟨h1, h2⟩ := round_tick_shots t l ht
    obtain ⟨h3, h4⟩ := round_tick_sections t l ht
    refine ⟨?_, ?_, h2⟩
    · intro hf
      rw [if_pos hf] at h1 h3 h4
      exact ⟨h3, h4, h1⟩
    · intro hf
      rw [if_neg hf] at h1 h3 h4
      exact ⟨h3, h4, h1⟩
  · intro t ht
    obtain ⟨h1, h2⟩ := round_tick_won t l ht
    obtain ⟨h3, h4⟩ := round_tick_won_state t l ht
    exact ⟨h1, h3, h2, h4⟩
  · intro hp hall hne
    rw [run_round_shots ticks l, hp, edges_hold _ _ hne]
    intro b hb
    obtain ⟨t, ht, he⟩ := buttons_read_mem ticks l b hb
    rw [← he]
    exact hall t ht

/-- C26 (witness): the round `armed_round`, crosshair on a live circle
(slot `1`) and a live square (slot `2`), the button pressed at `10` ms and still
held at `20` ms.  The first pass is the composition with `shoot()` and clears
the circle; the second pass does not shoot, the square stays live; one shot
is counted. -/
theorem C26_shoot_on_press_edge_witness :
    ((round_tick (button_tick 10 false) armed_round).1.st =
        (after_button (button_tick 10 false)
          (shoot (before_button (button_tick 10 false) armed_round))).1 ∧
      (round_tick (button_tick 10 false) armed_round).2 =
        (after_button (button_tick 10 false)
          (shoot (before_button (button_tick 10 false) armed_round))).2 ∧
      (round_tick (button_tick 10 false) armed_round).1.shots = armed_round.shots + 1) ∧
    ((run_round [button_tick 10 false, button_tick 20 false] armed_round).1.st.E 1).live = 0 ∧
    ((run_round [button_tick 10 false, button_tick 20 false] armed_round).1.st.E 2).live = 1 ∧
    (run_round [button_tick 10 false, button_tick 20 false] armed_round).1.shots = 1 :=
  ⟨((C26_shoot_on_press_edge [] armed_round).1 (button_tick 10 false) (by decide)).1
      ⟨rfl, rfl⟩,
    by decide!, by decide!, by decide!⟩

/-- C27: in every state reached from the start of a round by calls of
`spawn()`, `update()`, `shoot()` and `update_crosshair()`, and in every state
of a run of the round loop, the live enemies are ordered by non-increasing
size along the array index; hence the enemy that `shoot()` deactivates passes
its hit test and is at least as large as every live enemy whose hit test
contains the crosshair. -/
theorem C27_live_enemies_by_size (ops : List DoomOp) (cx cy : Nat) :
    (∀ i j, i < j → j < (exec ops (DoomState.round_start cx cy)).Ec →
      ((exec ops (DoomState.round_start cx cy)).E i).live ≠ 0 →
      ((exec ops (DoomState.round_start cx cy)).E j).live ≠ 0 →
      ((exec ops (DoomState.round_start cx cy)).E j).s ≤
        ((exec ops (DoomState.round_start cx cy)).E i).s) ∧
    (∀ k, ((exec ops (DoomState.round_start cx cy)).E k).live ≠ 0 →
      ((shoot (exec ops (DoomState.round_start cx cy))).E k).live = 0 →
      hit_test ((exec ops (DoomState.round_start cx cy)).E k)
        (exec ops (DoomState.round_start cx cy)).cross_x
        (exec ops (DoomState.round_start cx cy)).cross_y = true ∧
      ∀ j, j < (exec ops (DoomState.round_start cx cy)).Ec →
        ((exec ops (DoomState.round_start cx cy)).E j).live ≠ 0 →
        hit_test ((exec ops (DoomState.round_start cx cy)).E j)
          (exec ops (DoomState.round_start cx cy)).cross_x
          (exec ops (DoomState.round_start cx cy)).cross_y = true →
        ((exec ops (DoomState.round_start cx cy)).E j).s ≤
          ((exec ops (DoomState.round_start cx cy)).E k).s) ∧
    (∀ (ticks : List RoundTick) (start_ms : Nat),
      live_sorted (run_round ticks (RoundLoop.start cx cy start_ms)).1.st) := by
  have hs := live_sorted_exec ops _ (live_sorted_round_start cx cy)
  refine ⟨hs.1, ?_, ?_⟩
  · intro k hl hd
    exact shoot_largest _ hs k hl hd
  · intro ticks start_ms
    exact live_sorted_run_round ticks _ (live_sorted_round_start cx cy)

/-- C27 (witness): two enemies spawned at the column of the crosshair, one
`update()` apart: the older one is the larger, and it is the one `shoot()`
deactivates. -/
theorem C27_live_enemies_by_size_witness :
    ((exec [DoomOp.spawn 63 1, DoomOp.update, DoomOp.spawn 63 0, DoomOp.update]
      (DoomState.round_start 2048 2048)).E 1).s ≤
    ((exec [DoomOp.spawn 63 1, DoomOp.update, DoomOp.spawn 63 0, DoomOp.update]
      (DoomState.round_start 2048 2048)).E 0).s :=
  ((C27_live_enemies_by_size [DoomOp.spawn 63 1, DoomOp.update, DoomOp.spawn 63 0, DoomOp.update]
    2048 2048).2.1 0 (by decide!) (by decide!)).2 1 (by decide!) (by decide!) (by decide!)

end Doom

namespace PotGame

/-! ## The claim on the hold of potentiometer/potentiometer_v3.c -/

/-- C25 (evaluation at the failing input): the zone is `40 .. 60` degrees
(`rand()` gave `40`), the game starts at clock `0`.  The angle is inside the
zone at the sample taken at `1.0` s, which sets `hold_deadline` to `11.0` s;
the `165` samples that follow, from `1.06` s to `10.9` s, are all at `0`
degrees, outside the zone; the sample at `11.02` s is inside again and
`play_game` reports success, although the angle was outside the zone at every
one of the `165` samples of the ten seconds before. -/
theorem C25_success_without_hold :
    play_game 40 0 leave_and_return = some GameResult.success ∧
    zone_start 40 = 40 ∧ zone_end 40 = 60 ∧
    leave_and_return.length = 167 ∧
    ((leave_and_return.drop 1).take 165).all (fun smp =>
      !now_in_target (zone_start 40) (zone_end 40) smp &&
      decide (11020010 - 10000000 ≤ smp.t_check) && decide (smp.t_check < 11020010)) = true ∧
    (leave_and_return.map (fun smp => now_in_target (zone_start 40) (zone_end 40) smp)).count true
      = 2 := by
  decide!

end PotGame
